import Mathlib

/-!
# Memory controller (`sst/elements/memHierarchy/memController.cc`)

A shallow embedding of `MemController`: the snoop-link handler `handleEvent`,
admission (`addRequest`), cancellation (`cancelEvent`), the fixed-latency branch
of `clock`, `performRequest`, the self-link handler and bus arbitration
(`sendBusPacket`, `sendResponse`).

Modelling conventions.
* `DRAMReq*` pointers are record identifiers (`Nat`) into the heap `recs`; `new`
  hands out the fresh identifier `nextReq`.  `delete` is recorded in `freed`;
  a freed record stays readable in the model, whereas the code that
  dereferences it has undefined behaviour.  The statements about the clock tick
  and the completion callbacks are therefore made for states in which the
  records they visit are not in `freed` (`servesDeleted`, `ticksLive`,
  `touchesDeleted`), and of the size of their request, with a payload of that
  size for a write (`WellSized`).
* `std::map<Addr, DRAMReq*>` is a function `Nat → Option Nat`.
* `Addr` / `size_t` values are naturals; the arithmetic of `performRequest` is
  taken modulo `2 ^ 64` (`add64`, `sub64`).
* `int req_count` is an `Int`.
* `_abort` is the `Except.error` outcome, carrying the state at the abort.
* `snoop_link` is the list of messages the controller has sent on the bus;
  `self_link` is the list of messages in flight on the self link, delivered
  oldest first.
* `std::map<uint64_t, std::vector<DRAMReq*>> dramReadReqs` (and `dramWriteReqs`)
  is the list of pairs (beat address, record) in the order of the `push_back`s:
  the vector stored under an address is the sublist of the pairs with that
  address, `find(addr) == end()` says that no pair has that address, and
  `erase(addr)` removes its pairs.
* The DRAMSim backend is a pair of answer functions (`Backend`); its completion
  callbacks `dramSimReadDone` / `dramSimWriteDone` are deliveries of their own.
* A clock tick (`Input.tick`, `StagedInput.tick`) runs `clock`, which takes the
  branch of the mode `use_dramsim`; the statements about the fixed-latency
  branch carry the hypothesis `use_dramsim = false`.

The namespace `Scheduler` holds the embedding of `TaskMapInfo`
(`sst/elements/scheduler/TaskMapInfo.cc`): `insert`, `getTaskMap` and
`getTotalHopDist`, with `schedout.fatal` as the `Except.error` outcome.
-/

namespace MemHierarchy

/-! ## Messages -/

/-- Bus commands used by the controller (`Command` of the simulation core's
`memEvent.h`). -/
inductive Command
  | NULLCMD | ReadReq | ReadResp | WriteReq | WriteResp | RequestData | SupplyData
  | Invalidate | ACK | NACK | RequestBus | CancelBusRequest | BusClearToSend
  deriving DecidableEq, Repr

/-- A bus message: the fields of `MemEvent` the controller reads.  `writeback`
is the flag `MemEvent::F_WRITEBACK`. -/
structure MemEvent where
  cmd : Command
  src : String
  dst : String
  addr : Nat
  size : Nat
  payload : List Nat
  writeback : Bool
  deriving DecidableEq, Repr

/-- Modelled from the spec: the broadcast destination `BROADCAST_TARGET` is a
constant of the simulation core, not under src/. -/
def BROADCAST_TARGET : String := "BROADCAST"

/-- Modelled from the spec: `MemEvent::commandResponse` is declared in the
simulation core's `memEvent.h`, not under src/.  A ReadRequest is answered by a
ReadResponse, a data request by SupplyData, writes by a write response (§6 of the
specification); every other command has no response (`NULLCMD`). -/
def commandResponse : Command → Command
  | .RequestData => .SupplyData
  | .SupplyData => .WriteResp
  | .ReadReq => .ReadResp
  | .WriteReq => .WriteResp
  | _ => .NULLCMD

/-- Modelled from the spec: `MemEvent::makeResponse(this)` is declared in the
simulation core's `memEvent.h`, not under src/.  The response goes back to the
requester, keeps address and size, and carries a payload buffer of `size` bytes. -/
def makeResponse (self : String) (ev : MemEvent) : MemEvent :=
  { cmd := commandResponse ev.cmd, src := self, dst := ev.src, addr := ev.addr,
    size := ev.size, payload := List.replicate ev.size 0, writeback := false }

/-- Modelled from the spec: the constructor `MemEvent(this, NULL, cmd)` of the
simulation core, used for the bus handshake messages. -/
def ctlEvent (self : String) (c : Command) : MemEvent :=
  { cmd := c, src := self, dst := BROADCAST_TARGET, addr := 0, size := 0,
    payload := [], writeback := false }

/-! ## Request records -/

/-- The record `DRAMReq` (fields as used by `memController.cc`). -/
structure DRAMReq where
  reqEvent : MemEvent
  req_count : Int
  isWrite : Bool
  canceled : Bool
  size : Nat
  amt_in_process : Nat
  amt_processed : Nat
  addr : Nat
  deriving DecidableEq, Repr

/-- Modelled from the spec: the constructor `DRAMReq(ev)` is declared in
`memController.h`, not under src/.  A new record copies address and size of the
message, starts with `referenceCount = 1`, no progress, not canceled; it is a
write when the message is a WriteRequest or a SupplyData (§3, §4.2). -/
def DRAMReq.ofEvent (ev : MemEvent) : DRAMReq :=
  { reqEvent := ev, req_count := 1,
    isWrite := (ev.cmd == Command.SupplyData || ev.cmd == Command.WriteReq),
    canceled := false, size := ev.size, amt_in_process := 0, amt_processed := 0,
    addr := ev.addr }

instance : Inhabited DRAMReq :=
  ⟨DRAMReq.ofEvent (ctlEvent "" Command.NULLCMD)⟩

/-! ## Controller state -/

/-- Unsigned 64-bit addition. -/
def add64 (a b : Nat) : Nat := (a + b) % 2 ^ 64

/-- Unsigned 64-bit subtraction. -/
def sub64 (a b : Nat) : Nat := (a % 2 ^ 64 + (2 ^ 64 - b % 2 ^ 64)) % 2 ^ 64

/-- The state of a `MemController` together with the two link traces. -/
structure MemController where
  name : String
  rangeStart : Nat
  memSize : Nat
  memBuffer : Nat → Nat
  recs : Nat → DRAMReq
  nextReq : Nat
  freed : List Nat
  requestQueue : List Nat
  outstandingReadReqs : Nat → Option Nat
  busReqs : List MemEvent
  bus_requested : Bool
  self_link : List MemEvent
  snoop_link : List MemEvent
  use_dramsim : Bool := false
  dramReadReqs : List (Nat × Nat) := []
  dramWriteReqs : List (Nat × Nat) := []
  rangeEnd : Nat := add64 rangeStart memSize

/-- `MemController::addRequest`. -/
def addRequest (s : MemController) (ev : MemEvent) : MemController :=
  let id := s.nextReq
  let req := DRAMReq.ofEvent ev
  let s1 : MemController :=
    { s with recs := Function.update s.recs id req, nextReq := id + 1,
             requestQueue := s.requestQueue ++ [id] }
  if req.isWrite then s1
  else
    match s1.outstandingReadReqs ev.addr with
    | none =>
      { s1 with outstandingReadReqs :=
                  Function.update s1.outstandingReadReqs ev.addr (some id) }
    | some j =>
      let c := (s1.recs j).req_count + 1
      let c1 := if c ≤ 0 then 1 else c
      { s1 with recs := Function.update s1.recs j { s1.recs j with req_count := c1 } }

/-- `MemController::cancelEvent`. -/
def cancelEvent (s : MemController) (ev : MemEvent) : MemController :=
  match s.outstandingReadReqs ev.addr with
  | some j =>
    if (s.recs j).size ≤ ev.size then
      { s with recs :=
                 Function.update s.recs j
                   { s.recs j with req_count := (s.recs j).req_count - 1 } }
    else s
  | none => s

/-- `MemController::isCanceled(Addr)`. -/
def isCanceled (s : MemController) (addr : Nat) : Bool :=
  match s.outstandingReadReqs addr with
  | none => false
  | some j => decide ((s.recs j).req_count ≤ 0)

/-- `MemController::sendResponse`; `none` is the `NULL` argument. -/
def sendResponse (s : MemController) (ev : Option MemEvent) : MemController :=
  let s1 : MemController :=
    match ev with
    | some e => { s with busReqs := s.busReqs ++ [e] }
    | none => s
  if !s1.bus_requested then
    { s1 with snoop_link := s1.snoop_link ++ [ctlEvent s1.name Command.RequestBus],
              bus_requested := true }
  else s1

/-- The statements `delete outstandingReadReqs[a]; outstandingReadReqs.erase(a)`. -/
def eraseOutstanding (s : MemController) (a : Nat) : MemController :=
  { s with freed := (match s.outstandingReadReqs a with
                     | some j => s.freed ++ [j]
                     | none => s.freed),
           outstandingReadReqs := Function.update s.outstandingReadReqs a none }

/-- The `for (;;)` loop of `MemController::sendBusPacket`, by recursion on the
waiters still queued (`q` is `busReqs` of `s`). -/
def sendBusPacketLoop (s : MemController) : List MemEvent → MemController
  | [] =>
    { s with snoop_link := s.snoop_link ++ [ctlEvent s.name Command.CancelBusRequest],
             bus_requested := false, busReqs := [] }
  | ev :: rest =>
    let s1 : MemController := { s with busReqs := rest }
    if !isCanceled s1 ev.addr then
      let s2 : MemController :=
        { s1 with snoop_link := s1.snoop_link ++ [ev], bus_requested := false }
      let s3 := if rest.length > 0 then sendResponse s2 none else s2
      if ev.cmd = Command.SupplyData then eraseOutstanding s3 ev.addr else s3
    else
      sendBusPacketLoop
        (if ev.cmd = Command.SupplyData then eraseOutstanding s1 ev.addr else s1) rest

/-- `MemController::sendBusPacket`. -/
def sendBusPacket (s : MemController) : MemController :=
  sendBusPacketLoop s s.busReqs

/-- The waiter that the loop of `sendBusPacket` hands to `snoop_link->Send(0, ev)`,
with its position in the queue; `none` when every waiter is dropped. -/
def sentWaiter (s : MemController) : List MemEvent → Option (Nat × MemEvent)
  | [] => none
  | ev :: rest =>
    let s1 : MemController := { s with busReqs := rest }
    if !isCanceled s1 ev.addr then some (0, ev)
    else
      (sentWaiter
        (if ev.cmd = Command.SupplyData then eraseOutstanding s1 ev.addr else s1) rest).map
        (fun p => (p.1 + 1, p.2))

/-- `MemController::handleEvent`. -/
def handleEvent (s : MemController) (ev : MemEvent) : MemController :=
  let to_me : Bool := (ev.dst == s.name || ev.dst == BROADCAST_TARGET)
  match ev.cmd with
  | .RequestData | .ReadReq => if to_me then addRequest s ev else s
  | .ReadResp => if ev.src != s.name then cancelEvent s ev else s
  | .WriteReq | .SupplyData =>
    if ev.writeback then addRequest s ev
    else if ev.src != s.name then cancelEvent s ev else s
  | .BusClearToSend => if to_me then sendBusPacket s else s
  | _ => s

/-- `MemController::handleSelfEvent`. -/
def handleSelfEvent (s : MemController) (ev : MemEvent) : MemController :=
  if !isCanceled s ev.addr then sendResponse s (some ev) else s

/-! ## Backing store access -/

/-- The index `req->addr + i - rangeStart` into `memBuffer`. -/
def bufIndex (addr rangeStart i : Nat) : Nat := sub64 (add64 addr i) rangeStart

/-- The write loop of `performRequest`: `memBuffer[addr + i - rangeStart] =
payload[i]` for `i = 0 .. size-1` (a byte missing from the payload reads 0). -/
def writeLoop (mem : Nat → Nat) (addr rangeStart : Nat) (payload : List Nat)
    (size : Nat) : Nat → Nat :=
  (List.range size).foldl
    (fun m i => Function.update m (bufIndex addr rangeStart i) (payload.getD i 0)) mem

/-- The read loop of `performRequest`: `resp->getPayload()[i] =
memBuffer[addr + i - rangeStart]` for `i = 0 .. size-1`. -/
def readLoop (mem : Nat → Nat) (addr rangeStart : Nat) (buf : List Nat)
    (size : Nat) : List Nat :=
  (List.range size).foldl (fun p i => p.set i (mem (bufIndex addr rangeStart i))) buf

/-- The range test of `performRequest`:
`((req->addr - rangeStart) + req->size) > memSize`. -/
def outOfRange (s : MemController) (req : DRAMReq) : Bool :=
  decide (add64 (sub64 req.addr s.rangeStart) req.size > s.memSize)

/-- `MemController::performRequest`.  `Except.error` is the `_abort`. -/
def performRequest (s : MemController) (req : DRAMReq) :
    Except MemController (MemController × MemEvent) :=
  let resp := makeResponse s.name req.reqEvent
  if outOfRange s req then .error s
  else if req.isWrite then
    .ok ({ s with memBuffer :=
                    writeLoop s.memBuffer req.addr s.rangeStart req.reqEvent.payload
                      req.size }, resp)
  else
    .ok (s, { resp with payload :=
                          readLoop s.memBuffer req.addr s.rangeStart resp.payload
                            req.size })

/-- The fixed-latency (`else`) branch of `MemController::clock`: the loop over
`requestQueue` (`q` is `requestQueue` of `s`). -/
def clockImmediateLoop (s : MemController) :
    List Nat → Except MemController MemController
  | [] => .ok { s with requestQueue := [] }
  | id :: rest =>
    if (s.recs id).req_count > 0 then
      match performRequest s (s.recs id) with
      | .error e => .error e
      | .ok (s1, resp) =>
        let s2 : MemController :=
          if resp.cmd ≠ Command.NULLCMD then { s1 with self_link := s1.self_link ++ [resp] }
          else s1
        clockImmediateLoop { s2 with requestQueue := rest } rest
    else clockImmediateLoop { s with requestQueue := rest } rest

/-- `MemController::clock` when `use_dramsim` is false. -/
def clockImmediate (s : MemController) : Except MemController MemController :=
  clockImmediateLoop s s.requestQueue

/-! ## The DRAMSim path (`use_dramsim`) -/

/-- The constant `JEDEC_DATA_BUS_BITS_local`, a 32-bit `unsigned`. -/
def JEDEC_DATA_BUS_BITS_local : Nat := 64

/-- The mask `~(JEDEC_DATA_BUS_BITS_local - 1)`: the complement is taken on the
32-bit `unsigned` operand, before it is widened to the 64 bits of the address. -/
def busMask : Nat := 2 ^ 32 - 1 - (JEDEC_DATA_BUS_BITS_local - 1)

/-- The beat address of the Staged tick: `addr = req->addr + req->amt_in_process;
addr &= ~(JEDEC_DATA_BUS_BITS_local - 1)`. -/
def beatAddr (addr amt : Nat) : Nat := Nat.land (add64 addr amt) busMask

/-- The answers of the DRAMSim memory system during one tick:
`willAcceptTransaction(addr)` and `addTransaction(isWrite, addr)`, which may
differ from one beat of the tick to the next; the first argument is the number
of beats the tick has filed before the call. -/
structure Backend where
  willAcceptTransaction : Nat → Nat → Bool
  addTransaction : Nat → Bool → Nat → Bool

/-- A memory system that accepts every transaction. -/
def acceptAll : Backend :=
  { willAcceptTransaction := fun _ _ => true, addTransaction := fun _ _ _ => true }

/-- A memory system that accepts the first transaction of the tick only. -/
def acceptFirst : Backend :=
  { willAcceptTransaction := fun k _ => k == 0, addTransaction := fun _ _ _ => true }

/-- A memory system that declines every transaction. -/
def declineAll : Backend :=
  { willAcceptTransaction := fun _ _ => false, addTransaction := fun _ _ _ => false }

/-- The vector stored under `addr`: the records pushed for that beat, oldest
first. -/
def waiters (m : List (Nat × Nat)) (addr : Nat) : List Nat :=
  (m.filter (fun p => p.1 == addr)).map (fun p => p.2)

/-- The statement `map.erase(addr)`. -/
def eraseBeat (m : List (Nat × Nat)) (addr : Nat) : List (Nat × Nat) :=
  m.filter (fun p => p.1 != addr)

/-- Number of loop iterations a queued record can still take, plus one. -/
def stagedFuel (s : MemController) : Nat :=
  (s.requestQueue.map
    (fun id => 1 + ((s.recs id).size - (s.recs id).amt_in_process + 63) / 64)).sum

/-- The `while ( ! requestQueue.empty() )` loop of the DRAMSim branch of
`MemController::clock`; `k` counts the beats the tick has filed so far.
The first argument bounds the number of iterations (see `clockStaged`). -/
def clockStagedLoop (b : Backend) : Nat → Nat → MemController → MemController
  | 0, _, s => s
  | fuel + 1, k, s =>
    match s.requestQueue with
    | [] => s
    | id :: rest =>
      let req := s.recs id
      if req.canceled then
        let s1 : MemController := { s with requestQueue := rest }
        if req.amt_in_process = 0 then
          clockStagedLoop b fuel k
            { s1 with outstandingReadReqs := Function.update s1.outstandingReadReqs req.addr none,
                      freed := s1.freed ++ [id] }
        else clockStagedLoop b fuel k s1
      else
        let addr := beatAddr req.addr req.amt_in_process
        if (waiters s.dramReadReqs addr).isEmpty && !b.willAcceptTransaction k addr then s
        else if (waiters s.dramReadReqs addr).isEmpty &&
            !b.addTransaction k req.isWrite addr then s
        else
          let req1 : DRAMReq :=
            { req with amt_in_process := req.amt_in_process + JEDEC_DATA_BUS_BITS_local }
          let s1 : MemController :=
            { s with recs := Function.update s.recs id req1,
                     dramReadReqs := s.dramReadReqs ++ [(addr, id)] }
          if req1.amt_in_process ≥ req1.size then
            clockStagedLoop b fuel (k + 1) { s1 with requestQueue := rest }
          else clockStagedLoop b fuel (k + 1) s1

/-- The DRAMSim branch of `MemController::clock` (the calls of the completion
callbacks made inside `memSystem->update()` are deliveries of their own). -/
def clockStaged (b : Backend) (s : MemController) : MemController :=
  clockStagedLoop b (stagedFuel s) 0 s

/-- `MemController::clock`. -/
def clock (s : MemController) (b : Backend) : Except MemController MemController :=
  if s.use_dramsim then .ok (clockStaged b s) else clockImmediate s

/-- The loop of `dramSimReadDone` over the records waiting for the beat. -/
def readDoneLoop (s : MemController) : List Nat → Except MemController MemController
  | [] => .ok s
  | id :: rest =>
    let req1 : DRAMReq :=
      { s.recs id with
          amt_processed := (s.recs id).amt_processed + JEDEC_DATA_BUS_BITS_local }
    let s1 : MemController := { s with recs := Function.update s.recs id req1 }
    if req1.amt_processed ≥ req1.size then
      if !req1.canceled then
        match performRequest s1 req1 with
        | .error e => .error e
        | .ok (s2, resp) => readDoneLoop (sendResponse s2 (some resp)) rest
      else
        readDoneLoop
          { s1 with outstandingReadReqs :=
                      Function.update s1.outstandingReadReqs req1.addr none,
                    freed := s1.freed ++ [id] } rest
    else readDoneLoop s1 rest

/-- `MemController::dramSimReadDone`. -/
def dramSimReadDone (s : MemController) (addr : Nat) :
    Except MemController MemController :=
  match readDoneLoop s (waiters s.dramReadReqs addr) with
  | .error e => .error e
  | .ok t => .ok { t with dramReadReqs := eraseBeat t.dramReadReqs addr }

/-- The statement `reqs.pop_front()` on the deque stored under `addr`: the first
pair of that beat is removed. -/
def popBeat : List (Nat × Nat) → Nat → List (Nat × Nat)
  | [], _ => []
  | p :: m, addr => if p.1 == addr then m else p :: popBeat m addr

/-- `MemController::dramSimWriteDone`.  `reqs.front()` on an empty deque is
undefined; the model reports it as an abort. -/
def dramSimWriteDone (s : MemController) (addr : Nat) :
    Except MemController MemController :=
  match waiters s.dramWriteReqs addr with
  | [] => .error s
  | id :: _ =>
    let req1 : DRAMReq :=
      { s.recs id with
          amt_processed := (s.recs id).amt_processed + JEDEC_DATA_BUS_BITS_local }
    let s1 : MemController :=
      { s with dramWriteReqs := popBeat s.dramWriteReqs addr,
               recs := Function.update s.recs id req1 }
    if req1.amt_processed ≥ req1.size then
      if !req1.canceled then
        match performRequest s1 req1 with
        | .error e => .error e
        | .ok (s2, resp) => .ok (sendResponse s2 (some resp))
      else .ok { s1 with freed := s1.freed ++ [id] }
    else .ok s1

/-- Some record of `requestQueue` has been deleted (`freed` lists the records
deleted so far): a clock tick, which serves the records of `requestQueue` from
the head on, would dereference a deleted record. -/
def servesDeleted (s : MemController) : Bool :=
  s.requestQueue.any (fun id => decide (id ∈ s.freed))

/-- What the simulation kernel and the memory system deliver in DRAMSim mode: a
message on `snoop_link`, a clock tick (with the answers the memory system gives
during it), or a completion callback for a beat address. -/
inductive StagedInput
  | event (ev : MemEvent)
  | tick (b : Backend)
  | readDone (addr : Nat)
  | writeDone (addr : Nat)

/-- One delivery in DRAMSim mode. -/
def stagedStep (s : MemController) : StagedInput → Except MemController MemController
  | .event ev => .ok (handleEvent s ev)
  | .tick b => clock s b
  | .readDone addr => dramSimReadDone s addr
  | .writeDone addr => dramSimWriteDone s addr

/-- The record has the size of its request (the size of the response buffer)
and, for a write, a payload of that size: `performRequest` then stays inside
both vectors. -/
def WellSized (r : DRAMReq) : Prop :=
  r.size = r.reqEvent.size ∧ (r.isWrite = true → r.reqEvent.payload.length = r.size)

instance (r : DRAMReq) : Decidable (WellSized r) :=
  inferInstanceAs (Decidable (_ ∧ _))

/-- The delivery `i` in state `s` would dereference a deleted record: a message
for an address whose entry in `outstandingReadReqs` points to a deleted record,
a tick while a deleted record is in `requestQueue`, or a completion callback
for a beat one of whose waiters has been deleted. -/
def touchesDeleted (s : MemController) : StagedInput → Bool
  | .event ev =>
    match s.outstandingReadReqs ev.addr with
    | some id => decide (id ∈ s.freed)
    | none => false
  | .tick _ => servesDeleted s
  | .readDone addr => (waiters s.dramReadReqs addr).any (fun id => decide (id ∈ s.freed))
  | .writeDone addr => (waiters s.dramWriteReqs addr).any (fun id => decide (id ∈ s.freed))

/-- The delivery `i` in state `s` is a completion callback for a beat one of
whose waiters is not `WellSized` (its size differs from that of its request, or
it is a write whose payload has not that size): `performRequest` on it could
index the response buffer or the payload past its end. -/
def shortPayload (s : MemController) : StagedInput → Bool
  | .readDone addr =>
    (waiters s.dramReadReqs addr).any (fun id => !decide (WellSized (s.recs id)))
  | .writeDone addr =>
    (waiters s.dramWriteReqs addr).any (fun id => !decide (WellSized (s.recs id)))
  | _ => false

/-- The behaviour of the code on the delivery `i` in state `s` is undefined: a
deleted record would be dereferenced, or a payload indexed past its end. -/
def undefinedDelivery (s : MemController) (i : StagedInput) : Bool :=
  touchesDeleted s i || shortPayload s i

/-- The states reached from `s0` by deliveries none of which aborts and none of
which has undefined behaviour in the code (`undefinedDelivery`): there the
model, in which a deleted record stays readable and a byte missing from a
payload reads 0, says nothing about the code. -/
inductive StagedReach (s0 : MemController) : MemController → Prop
  | init : StagedReach s0 s0
  | step (s t : MemController) (i : StagedInput) :
      StagedReach s0 s → undefinedDelivery s i = false → stagedStep s i = .ok t →
      StagedReach s0 t

/-! ## Construction -/

/-- The configuration parameters read by the constructor; an absent integer
parameter reads as its default 0, an absent string parameter as `none`
(`NO_STRING_DEFINED`). -/
structure Params where
  mem_size : Int := 0
  rangeStart : Int := 0
  memory_file : Option String := none
  use_dramsim : Int := 0
  device_ini : Option String := none
  system_ini : Option String := none

/-- What `mmap` returns: a mapping, `MAP_FAILED` (the error value
`(void *) -1`), or a null pointer. -/
inductive MmapResult
  | mapped
  | failed
  | null
  deriving DecidableEq, Repr

/-- What the constructor finds around it: the component name, whether the build
has `HAVE_LIBDRAMSIM`, whether `open` of the backing file fails, what `mmap`
returns, whether `configureLink` returns `NULL`, and the bytes of the mapping. -/
structure BuildEnv where
  name : String
  haveLibDramsim : Bool
  openFails : Bool
  mmapResult : MmapResult
  snoopLinkNull : Bool
  image : Nat → Nat

/-- The value `(unsigned int)params.find_integer("mem_size", 0)`. -/
def ramSizeOf (p : Params) : Nat := (p.mem_size % 2 ^ 32).toNat

/-- `MemController::MemController`.  `Except.error` is an `_abort` (or the failed
`assert`), with its message.  The test after `mmap` is `!memBuffer`: it catches a
null pointer, not `MAP_FAILED`, so a failed mapping is not an abort (`memBuffer`
is then an invalid pointer; the model keeps `image`, which nothing proved of the
constructor reads). -/
def construct (env : BuildEnv) (p : Params) : Except String MemController :=
  let ramSize := ramSizeOf p
  if ramSize = 0 then .error "Must specify RAM size (mem_size) in MB"
  else
    let memSize := (ramSize * (1024 * 1024)) % 2 ^ 32
    let rangeStart := (p.rangeStart % 2 ^ 64).toNat
    let use_dramsim : Bool := p.use_dramsim != 0
    if use_dramsim && !env.haveLibDramsim then
      .error "This version of SST not compiled with DRAMSim."
    else if use_dramsim && p.device_ini.isNone then
      .error "XML must define a 'device_ini' file parameter"
    else if use_dramsim && p.system_ini.isNone then
      .error "XML must define a 'system_ini' file parameter"
    else if p.memory_file.isSome && env.openFails then
      .error "Unable to open backing file!"
    else if env.mmapResult = MmapResult.null then
      .error "Unable to MMAP backing store for Memory"
    else if env.snoopLinkNull then .error "assert(snoop_link)"
    else
      .ok { name := env.name, rangeStart := rangeStart, memSize := memSize,
            memBuffer := env.image, recs := fun _ => default, nextReq := 0, freed := [],
            requestQueue := [], outstandingReadReqs := fun _ => none, busReqs := [],
            bus_requested := false, self_link := [], snoop_link := [],
            use_dramsim := use_dramsim, dramReadReqs := [], dramWriteReqs := [],
            rangeEnd := add64 rangeStart memSize }

/-! ## Predicates used in the statements -/

/-- A read message: a ReadRequest or a data request (the two commands
`handleEvent` admits as reads). -/
def isReadCmd (ev : MemEvent) : Prop :=
  ev.cmd = Command.ReadReq ∨ ev.cmd = Command.RequestData

instance (ev : MemEvent) : Decidable (isReadCmd ev) :=
  inferInstanceAs (Decidable (_ ∨ _))

/-- The byte interval `[addr, addr + size)` lies inside the mapped range
`[rangeStart, rangeStart + memSize)`. -/
def InRange (s : MemController) (addr size : Nat) : Prop :=
  s.rangeStart ≤ addr ∧ addr + size ≤ s.rangeStart + s.memSize

instance (s : MemController) (addr size : Nat) : Decidable (InRange s addr size) :=
  inferInstanceAs (Decidable (_ ∧ _))

/-- The configured range start and store size fit the 64-bit fields holding them. -/
def WordSized (s : MemController) : Prop :=
  s.rangeStart < 2 ^ 64 ∧ s.memSize < 2 ^ 64

instance (s : MemController) : Decidable (WordSized s) :=
  inferInstanceAs (Decidable (_ ∧ _))

/-! ## The Immediate tick as the specification words it -/

/-- The store `mem` with the first `size` bytes of `payload` at the offsets
`base, …, base + size - 1` and every other byte as it was. -/
def storeBytes (mem : Nat → Nat) (base : Nat) (payload : List Nat) (size : Nat) :
    Nat → Nat :=
  fun a => if base ≤ a ∧ a < base + size then payload.getD (a - base) 0 else mem a

/-- The `size` bytes of the store `mem` from offset `base` on. -/
def loadBytes (mem : Nat → Nat) (base size : Nat) : List Nat :=
  (List.range size).map (fun i => mem (base + i))

/-- The full-size transfer of record `r` against the store `mem`, as the
specification words it: a write stores the payload at the offsets of the
addressed bytes, a read returns those bytes; either way one response is
built. -/
def transferSpec (s : MemController) (mem : Nat → Nat) (r : DRAMReq) :
    (Nat → Nat) × MemEvent :=
  if r.isWrite then
    (storeBytes mem (r.addr - s.rangeStart) r.reqEvent.payload r.size,
     makeResponse s.name r.reqEvent)
  else
    (mem, { makeResponse s.name r.reqEvent with
              payload := loadBytes mem (r.addr - s.rangeStart) r.size })

/-- The tick of the Immediate strategy as the specification words it: a fold
over the queue in admission order, threading the store and the responses
emitted so far; a record with `referenceCount > 0` is transferred and answered,
any other record is discarded. -/
def immediateFold (s : MemController) (q : List Nat)
    (acc : (Nat → Nat) × List MemEvent) : (Nat → Nat) × List MemEvent :=
  q.foldl
    (fun a id =>
      if (s.recs id).req_count > 0 then
        ((transferSpec s a.1 (s.recs id)).1, a.2 ++ [(transferSpec s a.1 (s.recs id)).2])
      else a)
    acc

/-- A queued record that the tick can serve: in range, built from a request
that has a response, of the size of its request (the size of the response
buffer), and, for a write, with a payload of that size. -/
def Servable (s : MemController) (id : Nat) : Prop :=
  InRange s (s.recs id).addr (s.recs id).size ∧ (s.recs id).addr < 2 ^ 64 ∧
  commandResponse (s.recs id).reqEvent.cmd ≠ Command.NULLCMD ∧
  WellSized (s.recs id)

instance (s : MemController) (id : Nat) : Decidable (Servable s id) :=
  inferInstanceAs (Decidable (_ ∧ _ ∧ _ ∧ _))

/-! ## Example states and messages -/

/-- A controller with a 1 MB zero-initialised store at `[0, 1 MB)` and nothing
pending. -/
def ctl0 : MemController :=
  { name := "mem", rangeStart := 0, memSize := 1048576, memBuffer := fun _ => 0,
    recs := fun _ => default, nextReq := 0, freed := [], requestQueue := [],
    outstandingReadReqs := fun _ => none, busReqs := [], bus_requested := false,
    self_link := [], snoop_link := [] }

/-- A ReadRequest of 8 bytes at `0x100`, sent by `cpu0` to the controller. -/
def readA : MemEvent :=
  { cmd := .ReadReq, src := "cpu0", dst := "mem", addr := 256, size := 8,
    payload := [], writeback := false }

/-- A second ReadRequest of 8 bytes at `0x100`, sent by `cpu1`. -/
def readA2 : MemEvent :=
  { cmd := .ReadReq, src := "cpu1", dst := "mem", addr := 256, size := 8,
    payload := [], writeback := false }

/-- A WriteRequest of 8 bytes at `0x100` from `cpu0` without the writeback flag. -/
def writeNoWb : MemEvent :=
  { cmd := .WriteReq, src := "cpu0", dst := "mem", addr := 256, size := 8,
    payload := [1, 2, 3, 4, 5, 6, 7, 8], writeback := false }

/-- A WriteRequest of 8 bytes at `0x100` from `cpu0` carrying the writeback flag. -/
def writeWb : MemEvent :=
  { cmd := .WriteReq, src := "cpu0", dst := "mem", addr := 256, size := 8,
    payload := [1, 2, 3, 4, 5, 6, 7, 8], writeback := true }

/-- A peer SupplyData (no writeback flag) of 8 bytes at `0x100`. -/
def supplyA : MemEvent :=
  { cmd := .SupplyData, src := "cache1", dst := "cpu0", addr := 256, size := 8,
    payload := [9, 9, 9, 9, 9, 9, 9, 9], writeback := false }

/-- A peer SupplyData (no writeback flag) of 64 bytes at `0x100`. -/
def supplyA64 : MemEvent :=
  { cmd := .SupplyData, src := "cache1", dst := "cpu0", addr := 256, size := 64,
    payload := List.replicate 64 9, writeback := false }

/-- The controller `ctl0` after the read `readA` has been admitted. -/
def ctl1 : MemController := addRequest ctl0 readA

/-- The controller `ctl1` after two matching peer cancellations of its read. -/
def ctlOver : MemController := cancelEvent (cancelEvent ctl1 supplyA) supplyA

/-! ## Deliveries and runs -/

/-- What the simulation kernel delivers to the controller: a message on
`snoop_link` (handled by `handleEvent`), a clock tick (handled by `clock`; `b`
holds the answers of the memory system, which only DRAMSim mode consults), or
the oldest message in flight on `self_link` (handled by `handleSelfEvent`). -/
inductive Input
  | event (ev : MemEvent)
  | tick (b : Backend)
  | selfEvent

/-- One delivery. -/
def step (s : MemController) : Input → Except MemController MemController
  | .event ev => .ok (handleEvent s ev)
  | .tick b => clock s b
  | .selfEvent =>
    match s.self_link with
    | [] => .ok s
    | ev :: rest => .ok (handleSelfEvent { s with self_link := rest } ev)

/-- A sequence of deliveries; the run ends at the first abort, in the state the
abort happened in. -/
def run (s : MemController) : List Input → MemController
  | [] => s
  | i :: rest =>
    match step s i with
    | .ok s1 => run s1 rest
    | .error e => e

/-- No tick of the run visits a deleted record. -/
def ticksLive (s : MemController) : List Input → Bool
  | [] => true
  | i :: rest =>
    (match i with
     | .tick _ => !servesDeleted s
     | _ => true) &&
    (match step s i with
     | .ok s1 => ticksLive s1 rest
     | .error _ => true)

/-- A bus grant addressed to the controller `self`. -/
def grant (self : String) : MemEvent :=
  { cmd := .BusClearToSend, src := "bus", dst := self, addr := 0, size := 0,
    payload := [], writeback := false }

/-- Ticks, self-events and bus grants: the deliveries that admit and cancel
nothing. -/
def isDrain : Input → Bool
  | .event ev => ev.cmd == Command.BusClearToSend
  | _ => true

/-- A message on the bus that is a response, not part of the grant handshake. -/
def isResponse (e : MemEvent) : Bool :=
  e.cmd != Command.RequestBus && e.cmd != Command.CancelBusRequest

/-- Number of responses for address `a` sent on the bus so far. -/
def responsesSent (s : MemController) (a : Nat) : Nat :=
  s.snoop_link.countP (fun e => e.addr == a && isResponse e)

/-- Number of requests and responses for address `a` still in `requestQueue`,
in flight on the self link, or in `busReqs`.  These are the places a record or
its response can be in fixed-latency mode, in which no beat is ever in flight
(`dramReadReqs` and `dramWriteReqs` stay empty). -/
def pendingFor (s : MemController) (a : Nat) : Nat :=
  s.requestQueue.countP (fun id => (s.recs id).reqEvent.addr == a)
    + s.self_link.countP (fun e => e.addr == a)
    + s.busReqs.countP (fun e => e.addr == a)

/-- A data request of 8 bytes at `0x100`, sent by `cpu0`. -/
def reqDataA : MemEvent :=
  { cmd := .RequestData, src := "cpu0", dst := "mem", addr := 256, size := 8,
    payload := [], writeback := false }

/-- A data request of 8 bytes at `0x100`, sent by `cpu1`. -/
def reqDataA2 : MemEvent :=
  { cmd := .RequestData, src := "cpu1", dst := "mem", addr := 256, size := 8,
    payload := [], writeback := false }

/-- The controller after two data requests for `0x100` of which the first has
been answered on the bus: the entry for `0x100` is erased, the second answer
still waits in `busReqs`. -/
def ctlLeft : MemController :=
  run ctl0 [.event reqDataA, .event reqDataA2, .tick acceptAll, .selfEvent, .selfEvent,
            .event (grant "mem")]

/-- Two reads of `0x100`, then a tick, both self-events and two bus grants. -/
def twoReads : List Input :=
  [.event readA, .event readA2, .tick acceptAll, .selfEvent, .selfEvent,
   .event (grant "mem"), .event (grant "mem")]

/-- A read of `0x100`, a tick, then a peer SupplyData for `0x100`. -/
def readThenCancel : List Input := [.event readA, .tick acceptAll, .event supplyA]

/-- A bus grant, the pending self-event, and a second bus grant. -/
def drainAfter : List Input := [.event (grant "mem"), .selfEvent, .event (grant "mem")]

/-- A controller with a 1 MB store mapped at `[0x1000, 0x1000 + 1 MB)`. -/
def ctlHi : MemController := { ctl0 with rangeStart := 4096 }

/-- A flagged WriteRequest of one byte at `0xFFF`, one below the range start. -/
def writeBelow : MemEvent :=
  { cmd := .WriteReq, src := "cpu0", dst := "mem", addr := 4095, size := 1,
    payload := [7], writeback := true }

/-- The controller after two data requests for `0x100` have been served and
both answers wait in `busReqs`, and two peer SupplyData have brought the
referenceCount of the entry for `0x100` from 2 to 0. -/
def ctlTwoCanceled : MemController :=
  run ctl0 [.event reqDataA, .event reqDataA2, .tick acceptAll, .selfEvent, .selfEvent,
            .event supplyA, .event supplyA]

/-- The controller after two reads of `0x100` have been served and both
ReadResponses wait in `busReqs`, and two peer SupplyData have brought the
referenceCount of the entry for `0x100` from 2 to 0. -/
def ctlTwoReadsCanceled : MemController :=
  run ctl0 [.event readA, .event readA2, .tick acceptAll, .selfEvent, .selfEvent,
            .event supplyA, .event supplyA]

/-- Three waiters `a`, `b`, `c`, none of them canceled, and the bus requested. -/
def ctlThree : MemController :=
  { ctl0 with busReqs := [makeResponse "mem" readA, makeResponse "mem" reqDataA,
                          makeResponse "mem" writeWb],
              bus_requested := true }

/-- The idle controller `ctl0` in DRAMSim mode. -/
def ctlD : MemController := { ctl0 with use_dramsim := true }

/-- A ReadRequest of 128 bytes (two beats) at `0x100`. -/
def readTwoBeats : MemEvent :=
  { cmd := .ReadReq, src := "cpu0", dst := "mem", addr := 256, size := 128,
    payload := [], writeback := false }

/-! ## Invariant of a single pending read -/

/-- The state an outcome ends in. -/
def finalState : Except MemController MemController → MemController
  | .ok s => s
  | .error s => s

/-- At most one request or response for address `A` is pending, and while it is,
`outstandingReads` holds an entry for `A` whose record has referenceCount at most
`b` and size at most `n` and is the only record for `A` in `requestQueue`. -/
def SoleRead (A n : Nat) (b : Int) (s : MemController) : Prop :=
  pendingFor s A = 0 ∨
  (pendingFor s A ≤ 1 ∧ ∃ j, s.outstandingReadReqs A = some j ∧
      (s.recs j).req_count ≤ b ∧ (s.recs j).size ≤ n ∧
      ∀ id ∈ s.requestQueue, (s.recs id).reqEvent.addr = A → id = j)

/-- The response `performRequest` builds for a read of `ev` in state `s`. -/
def readResponse (s : MemController) (ev : MemEvent) : MemEvent :=
  { makeResponse s.name ev with
      payload := readLoop s.memBuffer ev.addr s.rangeStart (makeResponse s.name ev).payload
        ev.size }

/-! ## Further example states and response headers -/

/-- The fields of a response that do not depend on the store. -/
def header (e : MemEvent) : Command × String × String × Nat × Nat :=
  (e.cmd, e.src, e.dst, e.addr, e.size)

/-- A flagged WriteRequest of 8 bytes at `0x104`, overlapping `writeWb`. -/
def writeWb2 : MemEvent :=
  { cmd := .WriteReq, src := "cpu1", dst := "mem", addr := 260, size := 8,
    payload := [21, 22, 23, 24, 25, 26, 27, 28], writeback := true }

/-- The idle controller after the overlapping writes `writeWb` and `writeWb2`
have been admitted, in this order. -/
def ctlTwoWrites : MemController := handleEvent (handleEvent ctl0 writeWb) writeWb2

/-- A build without DRAMSim in which the files and links are in order. -/
def envPlain : BuildEnv :=
  { name := "mem", haveLibDramsim := false, openFails := false,
    mmapResult := MmapResult.mapped, snoopLinkNull := false, image := fun _ => 0 }

/-- The build `envPlain` in which `mmap` fails. -/
def envMapFailed : BuildEnv := { envPlain with mmapResult := MmapResult.failed }


/-- The configuration errors, other than the store size, on which the
constructor aborts: DRAMSim asked for in a build without it or without one of
its ini files, a backing file that cannot be opened, `mmap` returning a null
pointer, `configureLink` returning a null pointer. -/
def otherConfigError (env : BuildEnv) (p : Params) : Prop :=
  (p.use_dramsim ≠ 0 ∧
    (env.haveLibDramsim = false ∨ p.device_ini = none ∨ p.system_ini = none)) ∨
  (p.memory_file ≠ none ∧ env.openFails = true) ∨
  env.mmapResult = MmapResult.null ∨ env.snoopLinkNull = true

instance (env : BuildEnv) (p : Params) : Decidable (otherConfigError env p) :=
  inferInstanceAs (Decidable (_ ∨ _))

/-! ## Bookkeeping invariant of the DRAMSim path -/

/-- The progress counters and the size of a record. -/
def amts (r : DRAMReq) : Nat × Nat × Nat := (r.amt_in_process, r.amt_processed, r.size)

/-- The part of the state the DRAMSim bookkeeping lives in, the records apart. -/
def core (s : MemController) : List Nat × Nat × List (Nat × Nat) × List (Nat × Nat) × Bool :=
  (s.requestQueue, s.nextReq, s.dramReadReqs, s.dramWriteReqs, s.use_dramsim)

/-- Number of waiter-list positions record `id` occupies in `dramReadReqs`. -/
def occ (s : MemController) (id : Nat) : Nat :=
  s.dramReadReqs.countP (fun p => p.2 == id)

/-- The state right after construction in DRAMSim mode (the fields `construct`
sets, the geometry and content of the store apart): nothing queued, in flight
or waiting, no record allocated or deleted, no entry in `outstandingReadReqs`. -/
def StagedInit (s : MemController) : Prop :=
  s.use_dramsim = true ∧ s.requestQueue = [] ∧ s.dramReadReqs = [] ∧
  s.dramWriteReqs = [] ∧ s.nextReq = 0 ∧ s.freed = [] ∧ s.busReqs = [] ∧
  s.bus_requested = false ∧ s.self_link = [] ∧ s.snoop_link = [] ∧
  ∀ a, s.outstandingReadReqs a = none

/-- Bookkeeping of one record: every beat issued and not yet completed is one
position in a waiter list; the counters are multiples of the beat, and the
issued amount overshoots the size by less than a beat (a record of size 0 takes
one beat). -/
def RecInv (s : MemController) (id : Nat) : Prop :=
  (s.recs id).amt_in_process = (s.recs id).amt_processed + 64 * occ s id ∧
  64 ∣ (s.recs id).amt_in_process ∧
  ((s.recs id).amt_in_process < (s.recs id).size + 64 ∨ (s.recs id).amt_in_process = 64)

/-- The invariant of the states reached in DRAMSim mode. -/
def StagedInv (s : MemController) : Prop :=
  s.use_dramsim = true ∧
  s.requestQueue.Nodup ∧
  (∀ id ∈ s.requestQueue, id < s.nextReq) ∧
  (∀ p ∈ s.dramReadReqs, p.2 < s.nextReq) ∧
  s.dramWriteReqs = [] ∧
  (∀ id ∈ s.requestQueue,
    (s.recs id).amt_in_process = 0 ∨ (s.recs id).amt_in_process < (s.recs id).size) ∧
  (∀ id, id < s.nextReq → RecInv s id)

/-- The DRAMSim controller `ctlD` after the 8-byte read `readA` has been admitted
and a tick has issued its beat. -/
def ctlDRead : MemController := clockStaged acceptAll (handleEvent ctlD readA)

/-- The DRAMSim controller `ctlD` after the two-beat read `readTwoBeats` has been
admitted and a tick has issued its first beat, the second being declined. -/
def ctlDHalf : MemController := clockStaged acceptFirst (handleEvent ctlD readTwoBeats)

/-- The DRAMSim controller `ctlD` after the flagged write `writeWb` has been
admitted and a tick has issued its beat. -/
def ctlDWrite : MemController := clockStaged acceptAll (handleEvent ctlD writeWb)

/-! ## Bus arbitration: calls and popped responses -/

/-- What bus arbitration is given: a call of `sendResponse` (`none` is the
`NULL` argument), or a bus grant. -/
inductive BusInput
  | respond (ev : Option MemEvent)
  | grant

/-- One call into bus arbitration. -/
def busStep (s : MemController) : BusInput → MemController
  | .respond ev => sendResponse s ev
  | .grant => sendBusPacket s

/-- A sequence of calls into bus arbitration. -/
def busRun (s : MemController) (l : List BusInput) : MemController :=
  l.foldl busStep s

/-- The controller `ctl0` after the read `readA` and then the flagged write
`writeWb` were admitted, a peer canceled the read, and a tick served the
queue: the write has been applied and its response is in flight. -/
def ctlWriteDone : MemController :=
  run ctl0 [.event readA, .event supplyA, .event writeWb, .tick acceptAll]

/-- The responses a bus grant takes off `busReqs`. -/
def popped (s : MemController) : List MemEvent :=
  s.busReqs.take (s.busReqs.length - (sendBusPacket s).busReqs.length)

/-- The controller `ctl0` after the read `readA` has been served and its
ReadResponse waits for the bus. -/
def ctlReadWaiting : MemController :=
  run ctl0 [.event readA, .tick acceptAll, .selfEvent]

/-! ## The DRAMSim tick with its calls into the memory system -/

/-- A call the issue loop makes into the DRAMSim memory system. -/
inductive BackendCall
  | willAcceptTransaction (addr : Nat)
  | addTransaction (isWrite : Bool) (addr : Nat)
  deriving DecidableEq, Repr

/-- The loop of the DRAMSim branch of `MemController::clock` once more, now
returning, next to the state, the calls made into the memory system, in order
(`clockStagedLoop` is its first component, see `clockStagedTrace_state`). -/
def clockStagedTrace (b : Backend) :
    Nat → Nat → MemController → MemController × List BackendCall
  | 0, _, s => (s, [])
  | fuel + 1, k, s =>
    match s.requestQueue with
    | [] => (s, [])
    | id :: rest =>
      let req := s.recs id
      if req.canceled then
        let s1 : MemController := { s with requestQueue := rest }
        if req.amt_in_process = 0 then
          clockStagedTrace b fuel k
            { s1 with outstandingReadReqs := Function.update s1.outstandingReadReqs req.addr none,
                      freed := s1.freed ++ [id] }
        else clockStagedTrace b fuel k s1
      else
        let addr := beatAddr req.addr req.amt_in_process
        if (waiters s.dramReadReqs addr).isEmpty && !b.willAcceptTransaction k addr then
          (s, [.willAcceptTransaction addr])
        else if (waiters s.dramReadReqs addr).isEmpty &&
            !b.addTransaction k req.isWrite addr then
          (s, [.willAcceptTransaction addr, .addTransaction req.isWrite addr])
        else
          let calls : List BackendCall :=
            if (waiters s.dramReadReqs addr).isEmpty then
              [.willAcceptTransaction addr, .addTransaction req.isWrite addr]
            else []
          let req1 : DRAMReq :=
            { req with amt_in_process := req.amt_in_process + JEDEC_DATA_BUS_BITS_local }
          let s1 : MemController :=
            { s with recs := Function.update s.recs id req1,
                     dramReadReqs := s.dramReadReqs ++ [(addr, id)] }
          let r :=
            if req1.amt_in_process ≥ req1.size then
              clockStagedTrace b fuel (k + 1) { s1 with requestQueue := rest }
            else clockStagedTrace b fuel (k + 1) s1
          (r.1, calls ++ r.2)

/-- The state in which the issue loop goes on after it has filed the head
record `id` of the queue `id :: rest` under its next beat address: one more
waiter for that beat, one more beat issued, and the record leaves the queue
when all of it is issued. -/
def fileBeat (s : MemController) (id : Nat) (rest : List Nat) : MemController :=
  { s with
      recs := Function.update s.recs id
        { s.recs id with amt_in_process := (s.recs id).amt_in_process + 64 },
      dramReadReqs := s.dramReadReqs ++
        [(beatAddr (s.recs id).addr (s.recs id).amt_in_process, id)],
      requestQueue :=
        if (s.recs id).amt_in_process + 64 ≥ (s.recs id).size then rest else id :: rest }

/-- The DRAMSim controller `ctlDRead`, whose beat `0x100` is in flight, after a
second read of `0x100` has been admitted. -/
def ctlDShare : MemController := handleEvent ctlDRead readA2

/-- The geometry of the store and of the records, which decides `outOfRange`. -/
def geometry (s : MemController) : Nat × Nat × (Nat → Nat × Nat) :=
  (s.rangeStart, s.memSize, fun i => ((s.recs i).addr, (s.recs i).size))

/-- The DRAMSim controller `ctlD` after the read `readA` has been admitted and
a peer SupplyData has canceled it. -/
def ctlDCanceled : MemController := handleEvent (handleEvent ctlD readA) supplyA

/-- No record carries the `canceled` flag. -/
def NoneCanceled (s : MemController) : Prop := ∀ id, (s.recs id).canceled = false

end MemHierarchy

/-! ## The task map of the scheduler (`TaskMapInfo.cc`) -/

namespace Scheduler

/-- The data `TaskMapInfo` works on: `job->getProcsNeeded()`, the array
`allocInfo->nodeIndices`, the matrix `taskCommInfo->commMatrix`, and the
bidirectional map `taskMap` as the list of its (task, node) pairs. -/
structure TaskMapInfo where
  procsNeeded : Int
  nodeIndices : Nat → Int
  commMatrix : Nat → Nat → Int
  taskMap : List (Int × Int)

namespace TaskMapInfo

/-- `taskMap.left.count(taskInd)`. -/
def leftCount (t : TaskMapInfo) (taskInd : Int) : Nat :=
  t.taskMap.countP (fun p => p.1 == taskInd)

/-- `taskMap.right.count(nodeInd)`. -/
def rightCount (t : TaskMapInfo) (nodeInd : Int) : Nat :=
  t.taskMap.countP (fun p => p.2 == nodeInd)

/-- `taskMap.left.at(taskInd)`; `none` is the exception thrown for a task that
is not mapped. -/
def leftAt (t : TaskMapInfo) (taskInd : Int) : Option Int :=
  (t.taskMap.find? (fun p => p.1 == taskInd)).map Prod.snd

/-- The search loop of `insert`: `found` after
`for (i = 0; i < procsNeeded; i++) if (nodeIndices[i] == nodeInd) found = true`. -/
def nodeFound (t : TaskMapInfo) (nodeInd : Int) : Bool :=
  (List.range t.procsNeeded.toNat).foldl
    (fun found i => if t.nodeIndices i == nodeInd then true else found) false

/-- `TaskMapInfo::insert`.  `Except.error` is `schedout.fatal`, which ends the
process.  After the four checks the pair is new on both sides of the
bidirectional map, so `taskMap.insert` adds it. -/
def insert (t : TaskMapInfo) (taskInd nodeInd : Int) : Except String TaskMapInfo :=
  if taskInd ≥ t.procsNeeded ∨ taskInd < 0 then
    .error "Could not map inexistent task"
  else if t.leftCount taskInd ≠ 0 then
    .error "Task is already mapped"
  else if !t.nodeFound nodeInd then
    .error "Could not map task to the unallocated node"
  else if t.rightCount nodeInd ≠ 0 then
    .error "Node is already allocated"
  else .ok { t with taskMap := t.taskMap ++ [(taskInd, nodeInd)] }

/-- The test `(unsigned int) job->getProcsNeeded() != taskMap.size()`. -/
def sizeMismatch (t : TaskMapInfo) : Bool :=
  decide ((t.procsNeeded % 2 ^ 32).toNat ≠ t.taskMap.length)

/-- `TaskMapInfo::getTaskMap`. -/
def getTaskMap (t : TaskMapInfo) : Except String (List (Int × Int)) :=
  if t.sizeMismatch then .error "Task mapping info requested before all tasks are mapped."
  else .ok t.taskMap

/-- The inner loop of `getTotalHopDist` for the task `taskIter` placed on
`currentNode`; `totalDist` is an `unsigned long`.  `dist a b` is
`MeshLocation(a, machine).L1DistanceTo(&MeshLocation(b, machine))`. -/
def hopInner (t : TaskMapInfo) (dist : Int → Int → Nat) (taskIter : Nat)
    (currentNode : Int) (totalDist : Nat) : Nat :=
  (List.range t.procsNeeded.toNat).foldl
    (fun tot otherTaskIter =>
      if t.commMatrix taskIter otherTaskIter ≠ 0 ∨ t.commMatrix otherTaskIter taskIter ≠ 0 then
        (tot + dist currentNode (t.nodeIndices otherTaskIter)) % 2 ^ 64
      else tot) totalDist

/-- The outer loop of `getTotalHopDist` over the tasks still to visit. -/
def hopOuter (t : TaskMapInfo) (dist : Int → Int → Nat) :
    List Nat → Nat → Except String Nat
  | [], totalDist => .ok totalDist
  | taskIter :: rest, totalDist =>
    match t.leftAt taskIter with
    | none => .error "out_of_range"
    | some currentNode =>
      hopOuter t dist rest (hopInner t dist taskIter currentNode totalDist)

/-- `TaskMapInfo::getTotalHopDist`. -/
def getTotalHopDist (t : TaskMapInfo) (dist : Int → Int → Nat) : Except String Nat :=
  if t.sizeMismatch then .error "Task mapping info requested before all tasks are mapped."
  else
    match hopOuter t dist (List.range t.procsNeeded.toNat) 0 with
    | .error e => .error e
    | .ok totalDist => .ok (totalDist / 2)

/-- The total hop distance as the specification words it: the sum, over the
pairs `i < j` of tasks that communicate, of the distance between the nodes
`taskMap` gives to `i` and to `j`. -/
def totalHopDistSpec (t : TaskMapInfo) (dist : Int → Int → Nat) : Nat :=
  ((List.range t.procsNeeded.toNat).map (fun i =>
    ((List.range t.procsNeeded.toNat).map (fun j =>
      if i < j ∧ (t.commMatrix i j ≠ 0 ∨ t.commMatrix j i ≠ 0) then
        dist ((t.leftAt i).getD 0) ((t.leftAt j).getD 0)
      else 0)).sum)).sum

/-- The pairs of `taskMap` form a one-to-one partial map from the task indices
`[0, procsNeeded)` to nodes among `nodeIndices[0 .. procsNeeded)`. -/
def OneToOne (t : TaskMapInfo) : Prop :=
  (t.taskMap.map Prod.fst).Nodup ∧ (t.taskMap.map Prod.snd).Nodup ∧
  ∀ p ∈ t.taskMap, 0 ≤ p.1 ∧ p.1 < t.procsNeeded ∧
    ∃ i : Nat, (i : Int) < t.procsNeeded ∧ t.nodeIndices i = p.2

/-- The conditions on which `insert` ends the process. -/
def InsertFatal (t : TaskMapInfo) (taskInd nodeInd : Int) : Prop :=
  taskInd < 0 ∨ t.procsNeeded ≤ taskInd ∨ (∃ n, (taskInd, n) ∈ t.taskMap) ∨
  (¬ ∃ i : Nat, (i : Int) < t.procsNeeded ∧ t.nodeIndices i = nodeInd) ∨
  (∃ k, (k, nodeInd) ∈ t.taskMap)

/-- The states reached from `t0` by calls of `insert` that return. -/
inductive InsertReach (t0 : TaskMapInfo) : TaskMapInfo → Prop
  | init : InsertReach t0 t0
  | step (t u : TaskMapInfo) (taskInd nodeInd : Int) :
      InsertReach t0 t → t.insert taskInd nodeInd = .ok u → InsertReach t0 u

end TaskMapInfo

/-- Modelled from the spec: `MeshLocation(int, MeshMachine*)` and
`MeshLocation::L1DistanceTo` are declared in `MeshMachine.h`, not under src/.
Node `a` of a mesh with `xdim × ydim` nodes per layer is at
`(a mod xdim, (a / xdim) mod ydim, a / (xdim · ydim))`, and the L1 distance is
the sum of the coordinate differences. -/
def meshL1 (xdim ydim : Int) (a b : Int) : Nat :=
  (a % xdim - b % xdim).natAbs + (a / xdim % ydim - b / xdim % ydim).natAbs +
    (a / (xdim * ydim) - b / (xdim * ydim)).natAbs

/-- A job of two tasks that communicate, allocated the nodes 0 and 1, nothing
mapped yet. -/
def jobTwo : TaskMapInfo :=
  { procsNeeded := 2, nodeIndices := fun i => i,
    commMatrix := fun i j => if i = 0 ∧ j = 1 then 1 else 0, taskMap := [] }

/-- The job `jobTwo` with task 0 on node 1. -/
def jobTwoHalf : TaskMapInfo := { jobTwo with taskMap := [(0, 1)] }

/-- The job `jobTwo` with task 0 on node 1 and task 1 on node 0. -/
def jobTwoSwapped : TaskMapInfo := { jobTwo with taskMap := [(0, 1), (1, 0)] }

/-- The job `jobTwo` with task 0 on node 0 and task 1 on node 1. -/
def jobTwoStraight : TaskMapInfo := { jobTwo with taskMap := [(0, 0), (1, 1)] }

end Scheduler

namespace MemHierarchy

/-! # Theorems -/

/-! ## Admission (`handleEvent`, `addRequest`) -/

/-- A write record leaves `addRequest` right after the push. -/
lemma addRequest_of_write (s : MemController) (ev : MemEvent)
    (hw : (DRAMReq.ofEvent ev).isWrite = true) :
    addRequest s ev =
      { s with recs := Function.update s.recs s.nextReq (DRAMReq.ofEvent ev),
               nextReq := s.nextReq + 1,
               requestQueue := s.requestQueue ++ [s.nextReq] } := by
  simp [addRequest, hw]

/-- C1 (amended): a WriteRequest or SupplyData message carrying the writeback
flag is admitted by `handleEvent`: one new write record, built from the message,
is appended at the tail of `requestQueue`; `outstandingReads` and every record
allocated before (hence every referenceCount) are unchanged.  Without the flag
the message is not admitted: `requestQueue`, the allocation counter and the
entries of `outstandingReads` stay as they are, and the message is handled as a
cancellation (`cancelEvent`) when it comes from a peer, and ignored when it
comes from the controller itself. -/
theorem handleEvent_writeback_admits (s : MemController) (ev : MemEvent)
    (hcmd : ev.cmd = Command.WriteReq ∨ ev.cmd = Command.SupplyData) :
    (ev.writeback = true →
      (handleEvent s ev).requestQueue = s.requestQueue ++ [s.nextReq] ∧
      (handleEvent s ev).recs s.nextReq = DRAMReq.ofEvent ev ∧
      ((handleEvent s ev).recs s.nextReq).isWrite = true ∧
      (handleEvent s ev).outstandingReadReqs = s.outstandingReadReqs ∧
      (∀ j, j ≠ s.nextReq → (handleEvent s ev).recs j = s.recs j)) ∧
    (ev.writeback = false →
      (handleEvent s ev).requestQueue = s.requestQueue ∧
      (handleEvent s ev).nextReq = s.nextReq ∧
      (handleEvent s ev).outstandingReadReqs = s.outstandingReadReqs ∧
      (ev.src ≠ s.name → handleEvent s ev = cancelEvent s ev) ∧
      (ev.src = s.name → handleEvent s ev = s)) := by
  refine ⟨?_, ?_⟩
  · intro hwb
    have hw : (DRAMReq.ofEvent ev).isWrite = true := by
      rcases hcmd with h | h <;> simp [DRAMReq.ofEvent, h]
    have hE : handleEvent s ev = addRequest s ev := by
      rcases hcmd with h | h <;> simp [handleEvent, h, hwb]
    rw [hE, addRequest_of_write s ev hw]
    refine ⟨rfl, by simp, by simpa using hw, rfl, ?_⟩
    intro j hj
    simp [Function.update_noteq hj]
  · intro hwb
    have hcan : (cancelEvent s ev).requestQueue = s.requestQueue ∧
        (cancelEvent s ev).nextReq = s.nextReq ∧
        (cancelEvent s ev).outstandingReadReqs = s.outstandingReadReqs := by
      unfold cancelEvent
      cases s.outstandingReadReqs ev.addr with
      | none => exact ⟨rfl, rfl, rfl⟩
      | some j =>
        simp only
        split_ifs <;> exact ⟨rfl, rfl, rfl⟩
    by_cases hsrc : ev.src = s.name
    · have hE : handleEvent s ev = s := by
        rcases hcmd with h | h <;> simp [handleEvent, h, hwb, hsrc]
      rw [hE]
      exact ⟨rfl, rfl, rfl, fun hne => absurd hsrc hne, fun _ => rfl⟩
    · have hE : handleEvent s ev = cancelEvent s ev := by
        rcases hcmd with h | h <;> simp [handleEvent, h, hwb, hsrc]
      rw [hE]
      exact ⟨hcan.1, hcan.2.1, hcan.2.2, fun _ => rfl, fun h => absurd h hsrc⟩

/-- Witness for C1 (amended): the flagged write `writeWb` is admitted in state
`ctl1`; the unflagged peer write `writeNoWb` is not, and is handled as a
cancellation. -/
theorem handleEvent_writeback_admits_witness :
    ((handleEvent ctl1 writeWb).requestQueue = ctl1.requestQueue ++ [ctl1.nextReq] ∧
      (handleEvent ctl1 writeWb).recs ctl1.nextReq = DRAMReq.ofEvent writeWb ∧
      ((handleEvent ctl1 writeWb).recs ctl1.nextReq).isWrite = true ∧
      (handleEvent ctl1 writeWb).outstandingReadReqs = ctl1.outstandingReadReqs ∧
      (∀ j, j ≠ ctl1.nextReq → (handleEvent ctl1 writeWb).recs j = ctl1.recs j)) ∧
    (handleEvent ctl1 writeNoWb).requestQueue = ctl1.requestQueue ∧
    handleEvent ctl1 writeNoWb = cancelEvent ctl1 writeNoWb :=
  ⟨(handleEvent_writeback_admits ctl1 writeWb (Or.inl rfl)).1 rfl,
   ((handleEvent_writeback_admits ctl1 writeNoWb (Or.inl rfl)).2 rfl).1,
   ((handleEvent_writeback_admits ctl1 writeNoWb (Or.inl rfl)).2 rfl).2.2.2.1 (by decide)⟩

/-- C1 (as stated) fails: a WriteRequest without the writeback flag coming from a
peer is not admitted; `requestQueue` keeps its single element and the
referenceCount of the outstanding read at that address drops from 1 to 0. -/
theorem handleEvent_write_without_flag_not_admitted :
    writeNoWb.cmd = Command.WriteReq ∧
    ctl1.requestQueue = [0] ∧
    (handleEvent ctl1 writeNoWb).requestQueue = [0] ∧
    ctl1.outstandingReadReqs writeNoWb.addr = some 0 ∧
    (ctl1.recs 0).req_count = 1 ∧
    ((handleEvent ctl1 writeNoWb).recs 0).req_count = 0 := by
  decide

lemma ofEvent_isWrite_of_read (ev : MemEvent) (hr : isReadCmd ev) :
    (DRAMReq.ofEvent ev).isWrite = false := by
  rcases hr with h | h <;> simp [DRAMReq.ofEvent, h]

/-- A read whose address has an entry: the push, then the clamped increment. -/
lemma addRequest_of_read_present (s : MemController) (ev : MemEvent) (j : Nat)
    (hr : isReadCmd ev) (hj : s.outstandingReadReqs ev.addr = some j)
    (hne : j ≠ s.nextReq) :
    addRequest s ev =
      { s with recs :=
                 Function.update (Function.update s.recs s.nextReq (DRAMReq.ofEvent ev)) j
                   { s.recs j with
                       req_count := if (s.recs j).req_count + 1 ≤ 0 then 1
                                    else (s.recs j).req_count + 1 },
               nextReq := s.nextReq + 1,
               requestQueue := s.requestQueue ++ [s.nextReq] } := by
  simp [addRequest, ofEvent_isWrite_of_read ev hr, hj, Function.update_noteq hne]

/-- A read whose address has no entry: the push, then the insertion. -/
lemma addRequest_of_read_absent (s : MemController) (ev : MemEvent)
    (hr : isReadCmd ev) (hj : s.outstandingReadReqs ev.addr = none) :
    addRequest s ev =
      { s with recs := Function.update s.recs s.nextReq (DRAMReq.ofEvent ev),
               nextReq := s.nextReq + 1,
               requestQueue := s.requestQueue ++ [s.nextReq],
               outstandingReadReqs :=
                 Function.update s.outstandingReadReqs ev.addr (some s.nextReq) } := by
  simp [addRequest, ofEvent_isWrite_of_read ev hr, hj]

/-- C2 (amended): for a ReadRequest whose address already has an entry in
`outstandingReads`, `addRequest` increments that entry's referenceCount (clamped
up to 1) and leaves the map itself unchanged, but it still creates a record for
the message, with referenceCount 1, and appends it at the tail of `requestQueue`;
no other record changes. -/
theorem addRequest_read_present (s : MemController) (ev : MemEvent) (j : Nat)
    (hr : isReadCmd ev) (hj : s.outstandingReadReqs ev.addr = some j)
    (hlt : j < s.nextReq) :
    ((addRequest s ev).recs j).req_count = max ((s.recs j).req_count + 1) 1 ∧
    (addRequest s ev).outstandingReadReqs = s.outstandingReadReqs ∧
    (addRequest s ev).requestQueue = s.requestQueue ++ [s.nextReq] ∧
    (addRequest s ev).recs s.nextReq = DRAMReq.ofEvent ev ∧
    ((addRequest s ev).recs s.nextReq).req_count = 1 ∧
    (∀ i, i ≠ j → i ≠ s.nextReq → (addRequest s ev).recs i = s.recs i) := by
  have hne : j ≠ s.nextReq := Nat.ne_of_lt hlt
  rw [addRequest_of_read_present s ev j hr hj hne]
  refine ⟨?_, rfl, rfl, ?_, ?_, ?_⟩
  · simp only [Function.update_same]
    split_ifs with h
    · exact (max_eq_right (by omega)).symm
    · exact (max_eq_left (by omega)).symm
  · simp [Function.update_noteq hne.symm]
  · simp [Function.update_noteq hne.symm, DRAMReq.ofEvent]
  · intro i hi hi2
    simp [Function.update_noteq hi, Function.update_noteq hi2]

/-- Witness for C2 (amended): the second read `readA2` merged in state `ctl1`. -/
theorem addRequest_read_present_witness :
    ((addRequest ctl1 readA2).recs 0).req_count = max ((ctl1.recs 0).req_count + 1) 1 ∧
    (addRequest ctl1 readA2).outstandingReadReqs = ctl1.outstandingReadReqs ∧
    (addRequest ctl1 readA2).requestQueue = ctl1.requestQueue ++ [ctl1.nextReq] ∧
    (addRequest ctl1 readA2).recs ctl1.nextReq = DRAMReq.ofEvent readA2 ∧
    ((addRequest ctl1 readA2).recs ctl1.nextReq).req_count = 1 ∧
    (∀ i, i ≠ 0 → i ≠ ctl1.nextReq → (addRequest ctl1 readA2).recs i = ctl1.recs i) :=
  addRequest_read_present ctl1 readA2 0 (Or.inl rfl) (by decide) (by decide)

/-- C2 (as stated) fails: admitting a second ReadRequest for an address that has
an entry makes `requestQueue` one element longer, `[0]` becomes `[0, 1]`. -/
theorem addRequest_read_present_grows_queue :
    isReadCmd readA2 ∧
    ctl1.outstandingReadReqs readA2.addr = some 0 ∧
    ctl1.requestQueue = [0] ∧
    (addRequest ctl1 readA2).requestQueue = [0, 1] ∧
    (addRequest ctl1 readA2).requestQueue ≠ ctl1.requestQueue := by
  decide

/-- C3: for a ReadRequest whose address has no entry in `outstandingReads`,
`addRequest` creates one record with referenceCount 1, appends it at the tail of
`requestQueue` and inserts it into `outstandingReads` under its address; every
other entry and every record allocated before is unchanged. -/
theorem addRequest_read_absent (s : MemController) (ev : MemEvent)
    (hr : isReadCmd ev) (hj : s.outstandingReadReqs ev.addr = none) :
    (addRequest s ev).recs s.nextReq = DRAMReq.ofEvent ev ∧
    ((addRequest s ev).recs s.nextReq).req_count = 1 ∧
    (addRequest s ev).requestQueue = s.requestQueue ++ [s.nextReq] ∧
    (addRequest s ev).outstandingReadReqs ev.addr = some s.nextReq ∧
    (∀ a, a ≠ ev.addr →
      (addRequest s ev).outstandingReadReqs a = s.outstandingReadReqs a) ∧
    (∀ i, i ≠ s.nextReq → (addRequest s ev).recs i = s.recs i) := by
  rw [addRequest_of_read_absent s ev hr hj]
  refine ⟨by simp, by simp [DRAMReq.ofEvent], rfl, by simp, ?_, ?_⟩
  · intro a ha
    simp [Function.update_noteq ha]
  · intro i hi
    simp [Function.update_noteq hi]

/-- Witness for C3: the read `readA` admitted in the idle state `ctl0`. -/
theorem addRequest_read_absent_witness :
    (addRequest ctl0 readA).recs ctl0.nextReq = DRAMReq.ofEvent readA ∧
    ((addRequest ctl0 readA).recs ctl0.nextReq).req_count = 1 ∧
    (addRequest ctl0 readA).requestQueue = ctl0.requestQueue ++ [ctl0.nextReq] ∧
    (addRequest ctl0 readA).outstandingReadReqs readA.addr = some ctl0.nextReq ∧
    (∀ a, a ≠ readA.addr →
      (addRequest ctl0 readA).outstandingReadReqs a = ctl0.outstandingReadReqs a) ∧
    (∀ i, i ≠ ctl0.nextReq → (addRequest ctl0 readA).recs i = ctl0.recs i) :=
  addRequest_read_absent ctl0 readA (Or.inl rfl) rfl

/-- C4: a ReadRequest admitted at an address whose entry has referenceCount `c`
leaves that entry with referenceCount `max (c + 1) 1`: exactly 1 when `c ≤ 0`,
and at least 1 in every case. -/
theorem addRequest_merge_clamps (s : MemController) (ev : MemEvent) (j : Nat) (c : Int)
    (hr : isReadCmd ev) (hj : s.outstandingReadReqs ev.addr = some j)
    (hlt : j < s.nextReq) (hc : (s.recs j).req_count = c) :
    (addRequest s ev).outstandingReadReqs ev.addr = some j ∧
    ((addRequest s ev).recs j).req_count = max (c + 1) 1 ∧
    (c ≤ 0 → ((addRequest s ev).recs j).req_count = 1) ∧
    1 ≤ ((addRequest s ev).recs j).req_count := by
  have hne : j ≠ s.nextReq := Nat.ne_of_lt hlt
  have hval : ((addRequest s ev).recs j).req_count = max (c + 1) 1 := by
    rw [addRequest_of_read_present s ev j hr hj hne]
    simp only [Function.update_same, hc]
    split_ifs with h
    · exact (max_eq_right (by omega)).symm
    · exact (max_eq_left (by omega)).symm
  refine ⟨?_, hval, ?_, ?_⟩
  · rw [addRequest_of_read_present s ev j hr hj hne]
    exact hj
  · intro h0
    rw [hval]
    exact max_eq_right (by omega)
  · rw [hval]
    exact le_max_right _ _

/-! ## Cancellation (`cancelEvent`) -/

/-- C5 (amended): `cancelEvent` decrements the referenceCount of the entry at the
message's address by exactly 1 when the record's size is at most the message's
size (equal or smaller), changing nothing else; with no entry, or with a record
larger than the message, the state is unchanged. -/
theorem cancelEvent_effect (s : MemController) (ev : MemEvent) :
    (∀ j, s.outstandingReadReqs ev.addr = some j → (s.recs j).size ≤ ev.size →
      cancelEvent s ev =
        { s with recs := Function.update s.recs j
                   { s.recs j with req_count := (s.recs j).req_count - 1 } } ∧
      ((cancelEvent s ev).recs j).req_count = (s.recs j).req_count - 1 ∧
      (∀ i, i ≠ j → (cancelEvent s ev).recs i = s.recs i)) ∧
    (∀ j, s.outstandingReadReqs ev.addr = some j → ev.size < (s.recs j).size →
      cancelEvent s ev = s) ∧
    (s.outstandingReadReqs ev.addr = none → cancelEvent s ev = s) := by
  refine ⟨?_, ?_, ?_⟩
  · intro j hj hsz
    have h : cancelEvent s ev =
        { s with recs := Function.update s.recs j
                   { s.recs j with req_count := (s.recs j).req_count - 1 } } := by
      simp [cancelEvent, hj, hsz]
    refine ⟨h, ?_, ?_⟩
    · rw [h]; simp
    · intro i hi
      rw [h]; simp [Function.update_noteq hi]
  · intro j hj hsz
    simp [cancelEvent, hj, Nat.not_le.mpr hsz]
  · intro hj
    simp [cancelEvent, hj]

/-- C5 (as stated) fails: a cancellation of 64 bytes at the address of an 8-byte
read record (sizes differ) still decrements the referenceCount, from 1 to 0. -/
theorem cancelEvent_larger_message_decrements :
    ctl1.outstandingReadReqs supplyA64.addr = some 0 ∧
    (ctl1.recs 0).size = 8 ∧ supplyA64.size = 64 ∧
    (ctl1.recs 0).req_count = 1 ∧
    ((cancelEvent ctl1 supplyA64).recs 0).req_count = 0 := by
  decide

/-- C6 (amended): for an outstanding read record with referenceCount 1, one
matching cancellation leaves referenceCount 0 and a second one decrements again
to -1 (there is no floor); the record is canceled after either, and the second
cancellation changes nothing but that record's referenceCount. -/
theorem cancelEvent_twice (s : MemController) (ev : MemEvent) (j : Nat)
    (hj : s.outstandingReadReqs ev.addr = some j) (hsz : (s.recs j).size ≤ ev.size)
    (hc : (s.recs j).req_count = 1) :
    ((cancelEvent s ev).recs j).req_count = 0 ∧
    ((cancelEvent (cancelEvent s ev) ev).recs j).req_count = -1 ∧
    isCanceled (cancelEvent s ev) ev.addr = true ∧
    isCanceled (cancelEvent (cancelEvent s ev) ev) ev.addr = true ∧
    cancelEvent (cancelEvent s ev) ev =
      { cancelEvent s ev with
          recs := Function.update (cancelEvent s ev).recs j
                    { (cancelEvent s ev).recs j with req_count := -1 } } := by
  have h1 : cancelEvent s ev =
      { s with recs := Function.update s.recs j { s.recs j with req_count := 0 } } := by
    simp [cancelEvent, hj, hsz, hc]
  have h2 : cancelEvent (cancelEvent s ev) ev =
      { cancelEvent s ev with
          recs := Function.update (cancelEvent s ev).recs j
                    { (cancelEvent s ev).recs j with req_count := -1 } } := by
    rw [h1]
    simp [cancelEvent, hj, hsz]
  refine ⟨?_, ?_, ?_, ?_, h2⟩
  · rw [h1]; simp
  · rw [h2]; simp
  · rw [h1]; simp [isCanceled, hj]
  · rw [h2, h1]; simp [isCanceled, hj]

/-- Witness for C6 (amended): two cancellations `supplyA` of the read in `ctl1`. -/
theorem cancelEvent_twice_witness :
    ((cancelEvent ctl1 supplyA).recs 0).req_count = 0 ∧
    ((cancelEvent (cancelEvent ctl1 supplyA) supplyA).recs 0).req_count = -1 ∧
    isCanceled (cancelEvent ctl1 supplyA) supplyA.addr = true ∧
    isCanceled (cancelEvent (cancelEvent ctl1 supplyA) supplyA) supplyA.addr = true ∧
    cancelEvent (cancelEvent ctl1 supplyA) supplyA =
      { cancelEvent ctl1 supplyA with
          recs := Function.update (cancelEvent ctl1 supplyA).recs 0
                    { (cancelEvent ctl1 supplyA).recs 0 with req_count := -1 } } :=
  cancelEvent_twice ctl1 supplyA 0 (by decide) (by decide) (by decide)

/-- C6 (as stated) fails: after two matching cancellations of a read with
referenceCount 1 the count is -1, not the 0 reached after one; the second
cancellation is not a no-op. -/
theorem cancelEvent_second_not_noop :
    ctl1.outstandingReadReqs supplyA.addr = some 0 ∧
    (ctl1.recs 0).size = supplyA.size ∧
    (ctl1.recs 0).req_count = 1 ∧
    ((cancelEvent ctl1 supplyA).recs 0).req_count = 0 ∧
    ((cancelEvent (cancelEvent ctl1 supplyA) supplyA).recs 0).req_count = -1 ∧
    cancelEvent (cancelEvent ctl1 supplyA) supplyA ≠ cancelEvent ctl1 supplyA := by
  refine ⟨by decide, by decide, by decide, by decide, by decide, ?_⟩
  intro h
  have h2 := congrArg (fun t => (t.recs 0).req_count) h
  revert h2
  decide

/-! ## Backing store (`performRequest`) -/

lemma sub64_of_le (a b : Nat) (ha : a < 2 ^ 64) (hb : b ≤ a) : sub64 a b = a - b := by
  simp only [sub64]
  norm_num at ha ⊢
  omega

lemma bufIndex_of_le (a rs i : Nat) (hrs : rs ≤ a)
    (hi : a - rs + i < 2 ^ 64) : bufIndex a rs i = a - rs + i := by
  simp only [bufIndex, add64, sub64]
  norm_num at hi ⊢
  omega

lemma outOfRange_of_inRange (s : MemController) (req : DRAMReq) (hw : WordSized s)
    (ha : req.addr < 2 ^ 64) (hin : InRange s req.addr req.size) :
    outOfRange s req = false := by
  obtain ⟨h1, h2⟩ := hin
  obtain ⟨h3, h4⟩ := hw
  simp only [outOfRange, decide_eq_false_iff_not, not_lt, add64]
  rw [sub64_of_le _ _ ha h1]
  calc (req.addr - s.rangeStart + req.size) % 2 ^ 64
      ≤ req.addr - s.rangeStart + req.size := Nat.mod_le _ _
    _ ≤ s.memSize := by omega

/-- One more iteration of the write loop. -/
lemma writeLoop_succ (mem : Nat → Nat) (a rs : Nat) (p : List Nat) (n : Nat) :
    writeLoop mem a rs p (n + 1) =
      Function.update (writeLoop mem a rs p n) (bufIndex a rs n) (p.getD n 0) := by
  simp [writeLoop, List.range_succ, List.foldl_append]

/-- The write loop touches only the indices `bufIndex a rs i`, `i < n`. -/
lemma writeLoop_frame (mem : Nat → Nat) (a rs : Nat) (p : List Nat) (n k : Nat)
    (hk : ∀ i, i < n → bufIndex a rs i ≠ k) :
    writeLoop mem a rs p n k = mem k := by
  induction n with
  | zero => simp [writeLoop]
  | succ n ih =>
    rw [writeLoop_succ, Function.update_noteq (hk n (Nat.lt_succ_self n)).symm]
    exact ih (fun i hi => hk i (Nat.lt_succ_of_lt hi))

/-- When the indices of the loop are pairwise distinct, the byte at index
`bufIndex a rs i` ends up being `payload[i]`. -/
lemma writeLoop_at (mem : Nat → Nat) (a rs : Nat) (p : List Nat) (n i : Nat)
    (hinj : ∀ x y, x < n → y < n → bufIndex a rs x = bufIndex a rs y → x = y)
    (hi : i < n) :
    writeLoop mem a rs p n (bufIndex a rs i) = p.getD i 0 := by
  induction n with
  | zero => omega
  | succ n ih =>
    rw [writeLoop_succ]
    by_cases h : i = n
    · subst h; simp
    · have hlt : i < n := by omega
      have hne : bufIndex a rs i ≠ bufIndex a rs n := by
        intro he
        exact h (hinj i n hi (Nat.lt_succ_self n) he)
      rw [Function.update_noteq hne]
      exact ih (fun x y hx hy => hinj x y (Nat.lt_succ_of_lt hx) (Nat.lt_succ_of_lt hy)) hlt

/-- One more iteration of the read loop. -/
lemma readLoop_succ (mem : Nat → Nat) (a rs : Nat) (buf : List Nat) (n : Nat) :
    readLoop mem a rs buf (n + 1) =
      (readLoop mem a rs buf n).set n (mem (bufIndex a rs n)) := by
  simp [readLoop, List.range_succ, List.foldl_append]

lemma readLoop_length (mem : Nat → Nat) (a rs : Nat) (buf : List Nat) (n : Nat) :
    (readLoop mem a rs buf n).length = buf.length := by
  induction n with
  | zero => simp [readLoop]
  | succ n ih => rw [readLoop_succ, List.length_set, ih]

/-- After `n` iterations the first `n` bytes of the buffer are the bytes read. -/
lemma readLoop_getD (mem : Nat → Nat) (a rs : Nat) (buf : List Nat) (n i : Nat)
    (hn : n ≤ buf.length) (hi : i < n) :
    (readLoop mem a rs buf n).getD i 0 = mem (bufIndex a rs i) := by
  induction n with
  | zero => omega
  | succ n ih =>
    rw [readLoop_succ]
    have hlen : n < (readLoop mem a rs buf n).length := by
      rw [readLoop_length]; omega
    by_cases h : i = n
    · subst h
      simp [List.getD_eq_getElem?_getD, List.getElem?_set, hlen]
    · have hlt : i < n := by omega
      have := ih (by omega) hlt
      simp only [List.getD_eq_getElem?_getD] at this ⊢
      rw [List.getElem?_set_ne (Ne.symm h)]
      exact this

/-- The addressed bytes of a record, as offsets into `memBuffer`. -/
lemma bufIndex_inRange (s : MemController) (a n i : Nat) (hw : WordSized s)
    (hin : InRange s a n) (hi : i < n) :
    bufIndex a s.rangeStart i = a - s.rangeStart + i ∧
    bufIndex a s.rangeStart i < s.memSize := by
  obtain ⟨h1, h2⟩ := hin
  obtain ⟨h3, h4⟩ := hw
  have hlt : a - s.rangeStart + i < s.memSize := by omega
  have h := bufIndex_of_le a s.rangeStart i h1 (by omega)
  exact ⟨h, by rw [h]; exact hlt⟩

/-- C10: for an in-range address and size and a payload of that size,
`performRequest` on a write record followed by `performRequest` on a read record
with the same address and size returns a response whose payload is the written
payload; the write changes no backing-store byte outside the addressed interval
and the read changes no byte at all (it leaves the state as it is). -/
theorem performRequest_write_then_read (s : MemController) (w r : DRAMReq)
    (a n : Nat) (p : List Nat)
    (hw : WordSized s) (ha : a < 2 ^ 64) (hin : InRange s a n)
    (hwW : w.isWrite = true) (hwa : w.addr = a) (hwn : w.size = n)
    (hwp : w.reqEvent.payload = p) (hpl : p.length = n)
    (hrR : r.isWrite = false) (hra : r.addr = a) (hrn : r.size = n)
    (hrs : r.reqEvent.size = n) :
    ∃ s1 resp1 resp2,
      performRequest s w = .ok (s1, resp1) ∧
      performRequest s1 r = .ok (s1, resp2) ∧
      resp2.payload = p ∧
      (∀ k, ¬ (a - s.rangeStart ≤ k ∧ k < a - s.rangeStart + n) →
        s1.memBuffer k = s.memBuffer k) := by
  have hidx : ∀ i, i < n → bufIndex a s.rangeStart i = a - s.rangeStart + i :=
    fun i hi => (bufIndex_inRange s a n i hw hin hi).1
  have hoW : outOfRange s w = false :=
    outOfRange_of_inRange s w hw (by rw [hwa]; exact ha) (by rw [hwa, hwn]; exact hin)
  have hoR : ∀ t : MemController, t.rangeStart = s.rangeStart → t.memSize = s.memSize →
      outOfRange t r = false := by
    intro t h1 h2
    apply outOfRange_of_inRange t r
    · simpa [WordSized, h1, h2] using hw
    · rw [hra]; exact ha
    · rw [hra, hrn]; simpa [InRange, h1, h2] using hin
  refine ⟨{ s with memBuffer := writeLoop s.memBuffer a s.rangeStart p n },
    makeResponse s.name w.reqEvent,
    { makeResponse s.name r.reqEvent with
        payload := readLoop (writeLoop s.memBuffer a s.rangeStart p n) a s.rangeStart
          (makeResponse s.name r.reqEvent).payload n }, ?_, ?_, ?_, ?_⟩
  · simp [performRequest, hoW, hwW, hwa, hwn, hwp]
  · have := hoR { s with memBuffer := writeLoop s.memBuffer a s.rangeStart p n } rfl rfl
    simp [performRequest, this, hrR, hra, hrn]
  · have hlen : (makeResponse s.name r.reqEvent).payload.length = n := by
      simp [makeResponse, hrs]
    apply List.ext_getElem
    · rw [readLoop_length, hlen, hpl]
    · intro i h1 h2
      have hi : i < n := by rw [hpl] at h2; exact h2
      have hg := readLoop_getD (writeLoop s.memBuffer a s.rangeStart p n) a s.rangeStart
        (makeResponse s.name r.reqEvent).payload n i (by rw [hlen]) hi
      rw [writeLoop_at s.memBuffer a s.rangeStart p n i ?_ hi] at hg
      · simpa [List.getD_eq_getElem?_getD, List.getElem?_eq_getElem h1,
          List.getElem?_eq_getElem h2] using hg
      · intro x y hx hy hxy
        rw [hidx x hx, hidx y hy] at hxy
        omega
  · intro k hk
    apply writeLoop_frame
    intro i hi
    rw [hidx i hi]
    omega

/-! ## Runs: a single pending read -/

lemma SoleRead.mono {A n : Nat} {b : Int} {s t : MemController}
    (h : SoleRead A n b s) (hp : pendingFor t A ≤ pendingFor s A)
    (hrecs : t.recs = s.recs)
    (hentry : pendingFor t A ≠ 0 → t.outstandingReadReqs A = s.outstandingReadReqs A)
    (hq : ∀ id ∈ t.requestQueue, id ∈ s.requestQueue) : SoleRead A n b t := by
  by_cases h0 : pendingFor t A = 0
  · exact Or.inl h0
  · rcases h with h | ⟨h1, j, hj, hc, hs, hu⟩
    · omega
    · refine Or.inr ⟨by omega, j, ?_, ?_, ?_, ?_⟩
      · rw [hentry h0]; exact hj
      · rw [hrecs]; exact hc
      · rw [hrecs]; exact hs
      · intro id hid ha
        rw [hrecs] at ha
        exact hu id (hq id hid) ha

/-- The two outcomes of `performRequest`: an abort that leaves the state as it
is, or a state that differs in `memBuffer` only, with a response that is
`makeResponse` of the request up to its payload. -/
lemma performRequest_cases (s : MemController) (r : DRAMReq) :
    performRequest s r = .error s ∨
    ∃ mem pl, performRequest s r =
      .ok ({ s with memBuffer := mem }, { makeResponse s.name r.reqEvent with payload := pl }) := by
  unfold performRequest
  by_cases h1 : outOfRange s r = true
  · left; simp [h1]
  · right
    by_cases h2 : r.isWrite = true
    · exact ⟨writeLoop s.memBuffer r.addr s.rangeStart r.reqEvent.payload r.size,
        (makeResponse s.name r.reqEvent).payload, by simp [h1, h2]⟩
    · exact ⟨s.memBuffer,
        readLoop s.memBuffer r.addr s.rangeStart (makeResponse s.name r.reqEvent).payload r.size,
        by simp [h1, h2]⟩

lemma clockImmediateLoop_soleRead (A n : Nat) (b : Int) :
    ∀ (q : List Nat) (s : MemController), s.requestQueue = q → SoleRead A n b s →
      SoleRead A n b (finalState (clockImmediateLoop s q)) ∧
      (finalState (clockImmediateLoop s q)).snoop_link = s.snoop_link ∧
      (finalState (clockImmediateLoop s q)).name = s.name := by
  intro q
  induction q with
  | nil =>
    intro s hq h
    refine ⟨?_, rfl, rfl⟩
    show SoleRead A n b { s with requestQueue := [] }
    apply h.mono
    · simp [pendingFor]
    · rfl
    · intro _; rfl
    · intro id hid; simp at hid
  | cons id rest ih =>
    intro s hq h
    have hskip : SoleRead A n b { s with requestQueue := rest } := by
      apply h.mono
      · simp only [pendingFor, hq, List.countP_cons]; omega
      · rfl
      · intro _; rfl
      · intro i hi; rw [hq]; exact List.mem_cons_of_mem _ hi
    unfold clockImmediateLoop
    by_cases hc : (s.recs id).req_count > 0
    · rw [if_pos hc]
      rcases performRequest_cases s (s.recs id) with he | ⟨mem, pl, hok⟩
      · rw [he]
        exact ⟨h, rfl, rfl⟩
      · rw [hok]
        simp only
        split_ifs with hn
        · have := ih { s with memBuffer := mem, requestQueue := rest,
                              self_link := s.self_link ++ [{ makeResponse s.name (s.recs id).reqEvent with payload := pl }] } rfl ?_
          · exact this
          · apply h.mono
            · simp only [pendingFor, hq, List.countP_cons, List.countP_append, List.countP_nil,
                makeResponse]
              omega
            · rfl
            · intro _; rfl
            · intro i hi; rw [hq]; exact List.mem_cons_of_mem _ hi
        · have := ih { s with memBuffer := mem, requestQueue := rest } rfl ?_
          · exact this
          · apply h.mono
            · simp only [pendingFor, hq, List.countP_cons]; omega
            · rfl
            · intro _; rfl
            · intro i hi; rw [hq]; exact List.mem_cons_of_mem _ hi
    · rw [if_neg hc]
      exact ih { s with requestQueue := rest } rfl hskip

/-- While the sole pending read of `A` is canceled, anything pending for `A`
is reported canceled. -/
lemma SoleRead.canceled {A n : Nat} {b : Int} {s : MemController}
    (h : SoleRead A n b s) (hb : b ≤ 0) (hp : pendingFor s A ≠ 0) :
    isCanceled s A = true := by
  rcases h with h | ⟨_, j, hj, hc, _, _⟩
  · exact absurd h hp
  · simp only [isCanceled, hj, decide_eq_true_eq]
    omega

/-- `sendResponse` keeps the invariant and sends no response. -/
lemma sendResponse_fields (s : MemController) (ev : Option MemEvent) (a : Nat) :
    (sendResponse s ev).recs = s.recs ∧
    (sendResponse s ev).requestQueue = s.requestQueue ∧
    (sendResponse s ev).self_link = s.self_link ∧
    (sendResponse s ev).outstandingReadReqs = s.outstandingReadReqs ∧
    (sendResponse s ev).name = s.name ∧
    (sendResponse s ev).busReqs = s.busReqs ++ ev.toList ∧
    responsesSent (sendResponse s ev) a = responsesSent s a := by
  cases ev <;> by_cases hb : s.bus_requested = true <;>
    simp [sendResponse, hb, responsesSent, List.countP_append, ctlEvent, isResponse]

lemma handleSelfEvent_soleRead (A n : Nat) (b : Int) (s : MemController)
    (e : MemEvent) (rest : List MemEvent) (hs : s.self_link = e :: rest)
    (h : SoleRead A n b s) :
    SoleRead A n b (handleSelfEvent { s with self_link := rest } e) ∧
    responsesSent (handleSelfEvent { s with self_link := rest } e) A = responsesSent s A ∧
    (handleSelfEvent { s with self_link := rest } e).name = s.name := by
  by_cases hc : isCanceled { s with self_link := rest } e.addr = true
  · have hE : handleSelfEvent { s with self_link := rest } e = { s with self_link := rest } := by
      simp [handleSelfEvent, hc]
    rw [hE]
    refine ⟨?_, rfl, rfl⟩
    apply h.mono
    · simp only [pendingFor, hs, List.countP_cons]; omega
    · rfl
    · intro _; rfl
    · intro i hi; exact hi
  · have hE : handleSelfEvent { s with self_link := rest } e =
        sendResponse { s with self_link := rest } (some e) := by
      simp [handleSelfEvent, hc]
    rw [hE]
    obtain ⟨f1, f2, f3, f4, f5, f6, f7⟩ :=
      sendResponse_fields { s with self_link := rest } (some e) A
    refine ⟨?_, f7, f5⟩
    apply h.mono
    · simp only [pendingFor, f1, f2, f3, f6, hs, List.countP_cons, List.countP_append,
        Option.toList, List.countP_nil]
      omega
    · exact f1
    · intro _; rw [f4]
    · intro i hi; rw [f2] at hi; exact hi

/-- The head waiter is not canceled: it is sent, and the loop stops. -/
lemma sendBusPacketLoop_send (s : MemController) (e : MemEvent) (rest : List MemEvent)
    (hc : isCanceled { s with busReqs := rest } e.addr = false) (a : Nat) :
    (sendBusPacketLoop s (e :: rest)).recs = s.recs ∧
    (sendBusPacketLoop s (e :: rest)).requestQueue = s.requestQueue ∧
    (sendBusPacketLoop s (e :: rest)).self_link = s.self_link ∧
    (sendBusPacketLoop s (e :: rest)).busReqs = rest ∧
    (sendBusPacketLoop s (e :: rest)).name = s.name ∧
    (a ≠ e.addr → (sendBusPacketLoop s (e :: rest)).outstandingReadReqs a
        = s.outstandingReadReqs a) ∧
    responsesSent (sendBusPacketLoop s (e :: rest)) a
        = responsesSent s a + (if e.addr = a ∧ isResponse e = true then 1 else 0) := by
  unfold sendBusPacketLoop
  simp only [hc, Bool.not_false, if_true]
  by_cases h1 : rest.length > 0 <;> by_cases h2 : e.cmd = Command.SupplyData <;>
    by_cases h3 : e.addr = a <;> by_cases h4 : isResponse e = true <;>
    simp [h1, h2, h3, h4, sendResponse, eraseOutstanding, responsesSent, List.countP_append,
      ctlEvent, isResponse, List.countP_cons, Function.update_noteq]
  all_goals exact fun h => Function.update_noteq h _ _

/-- The head waiter is canceled: it is dropped (its entry erased when it is a
SupplyData) and the loop goes on. -/
lemma sendBusPacketLoop_drop (s : MemController) (e : MemEvent) (rest : List MemEvent)
    (hc : isCanceled { s with busReqs := rest } e.addr = true) :
    sendBusPacketLoop s (e :: rest) =
      sendBusPacketLoop
        (if e.cmd = Command.SupplyData then eraseOutstanding { s with busReqs := rest } e.addr
         else { s with busReqs := rest }) rest := by
  conv_lhs => unfold sendBusPacketLoop
  simp [hc]

lemma sendBusPacketLoop_soleRead (A n : Nat) (b : Int) :
    ∀ (q : List MemEvent) (s : MemController), s.busReqs = q → SoleRead A n b s →
      SoleRead A n b (sendBusPacketLoop s q) ∧
      (b ≤ 0 → responsesSent (sendBusPacketLoop s q) A = responsesSent s A) ∧
      (sendBusPacketLoop s q).name = s.name := by
  intro q
  induction q with
  | nil =>
    intro s hq h
    refine ⟨?_, ?_, rfl⟩
    · apply h.mono
      · simp [sendBusPacketLoop, pendingFor, hq]
      · rfl
      · intro _; rfl
      · intro i hi; exact hi
    · intro _
      simp [sendBusPacketLoop, responsesSent, List.countP_append, ctlEvent, isResponse]
  | cons e rest ih =>
    intro s hq h
    have hpend : pendingFor s A =
        pendingFor { s with busReqs := rest } A + (if e.addr = A then 1 else 0) := by
      simp only [pendingFor, hq, List.countP_cons, beq_iff_eq]
      omega
    by_cases hc : isCanceled { s with busReqs := rest } e.addr = true
    · rw [sendBusPacketLoop_drop s e rest hc]
      have hs2 : SoleRead A n b
          (if e.cmd = Command.SupplyData then
             eraseOutstanding { s with busReqs := rest } e.addr
           else { s with busReqs := rest }) := by
        apply h.mono
        · rw [hpend]
          split_ifs <;> simp [pendingFor, eraseOutstanding]
        · split_ifs <;> rfl
        · intro hp
          by_cases ha : e.addr = A
          · exfalso
            apply hp
            have h1 : pendingFor { s with busReqs := rest } A = 0 := by
              rcases h with h | ⟨h, _⟩
              · omega
              · rw [hpend, if_pos ha] at h; omega
            split_ifs <;> simpa [pendingFor, eraseOutstanding] using h1
          · split_ifs
            · simp [eraseOutstanding, Function.update_noteq (Ne.symm ha)]
            · rfl
        · intro i hi
          split_ifs at hi <;> exact hi
      obtain ⟨g1, g2, g3⟩ := ih _ (by split_ifs <;> rfl) hs2
      refine ⟨g1, ?_, ?_⟩
      · intro hb
        rw [g2 hb]
        split_ifs <;> rfl
      · rw [g3]
        split_ifs <;> rfl
    · have hc2 : isCanceled { s with busReqs := rest } e.addr = false := by
        simpa using hc
      obtain ⟨f1, f2, f3, f4, f5, f6, f7⟩ := sendBusPacketLoop_send s e rest hc2 A
      refine ⟨?_, ?_, f5⟩
      · apply h.mono
        · rw [hpend]
          simp only [pendingFor, f1, f2, f3, f4]
          omega
        · exact f1
        · intro hp
          by_cases ha : e.addr = A
          · exfalso
            apply hp
            rcases h with h | ⟨h, _⟩
            · simp only [pendingFor, f1, f2, f3, f4] at hpend h ⊢; omega
            · rw [hpend, if_pos ha] at h
              simp only [pendingFor, f1, f2, f3, f4] at h ⊢; omega
          · exact f6 (Ne.symm ha)
        · intro i hi; rw [f2] at hi; exact hi
      · intro hb
        rw [f7]
        by_cases ha : e.addr = A
        · exfalso
          have hp : pendingFor s A ≠ 0 := by rw [hpend, if_pos ha]; omega
          have := h.canceled hb hp
          rw [← ha] at this
          have h2 : isCanceled { s with busReqs := rest } e.addr = isCanceled s e.addr := rfl
          rw [h2, this] at hc2
          exact Bool.noConfusion hc2
        · simp [ha]

/-- In fixed-latency mode `clock` is the loop over `requestQueue`. -/
lemma clock_fixed (s : MemController) (b : Backend) (h : s.use_dramsim = false) :
    clock s b = clockImmediate s := by
  unfold clock
  rw [if_neg (by rw [h]; exact Bool.false_ne_true)]

/-- `sendResponse` keeps the mode. -/
lemma sendResponse_mode (s : MemController) (ev : Option MemEvent) :
    (sendResponse s ev).use_dramsim = s.use_dramsim := by
  cases ev <;> by_cases hb : s.bus_requested = true <;> simp [sendResponse, hb]

/-- A bus grant keeps the mode. -/
lemma sendBusPacketLoop_mode :
    ∀ (q : List MemEvent) (s : MemController),
      (sendBusPacketLoop s q).use_dramsim = s.use_dramsim := by
  intro q
  induction q with
  | nil => intro s; rfl
  | cons e rest ih =>
    intro s
    unfold sendBusPacketLoop
    simp only
    split_ifs <;> first | rfl | exact sendResponse_mode _ _ | exact ih _

/-- `handleEvent` keeps the mode. -/
lemma handleEvent_mode (s : MemController) (ev : MemEvent) :
    (handleEvent s ev).use_dramsim = s.use_dramsim := by
  have hadd : (addRequest s ev).use_dramsim = s.use_dramsim := by
    unfold addRequest
    simp only
    split_ifs
    · rfl
    · cases s.outstandingReadReqs ev.addr <;> rfl
  have hcan : (cancelEvent s ev).use_dramsim = s.use_dramsim := by
    unfold cancelEvent
    cases s.outstandingReadReqs ev.addr with
    | none => rfl
    | some j => simp only; split_ifs <;> rfl
  have hbus : (sendBusPacket s).use_dramsim = s.use_dramsim :=
    sendBusPacketLoop_mode s.busReqs s
  unfold handleEvent
  cases ev.cmd <;> simp only <;>
    (try split_ifs) <;> first | rfl | exact hcan | exact hadd | exact hbus

/-- The fixed-latency loop keeps the mode, also when it aborts. -/
lemma clockImmediateLoop_mode :
    ∀ (q : List Nat) (s : MemController),
      (finalState (clockImmediateLoop s q)).use_dramsim = s.use_dramsim := by
  intro q
  induction q with
  | nil => intro s; rfl
  | cons id rest ih =>
    intro s
    unfold clockImmediateLoop
    by_cases hc : (s.recs id).req_count > 0
    · rw [if_pos hc]
      rcases performRequest_cases s (s.recs id) with he | ⟨mem, pl, hok⟩
      · rw [he]; rfl
      · rw [hok]
        simp only
        split_ifs <;> exact ih _
    · rw [if_neg hc]
      exact ih _

/-- A delivery in fixed-latency mode leaves the controller in that mode. -/
lemma step_mode (s : MemController) (i : Input) (h : s.use_dramsim = false) :
    (finalState (step s i)).use_dramsim = false := by
  cases i with
  | event ev => rw [← h]; exact handleEvent_mode s ev
  | tick b =>
    show (finalState (clock s b)).use_dramsim = false
    rw [clock_fixed s b h, ← h]
    exact clockImmediateLoop_mode s.requestQueue s
  | selfEvent =>
    cases hs : s.self_link with
    | nil =>
      have hE : step s .selfEvent = .ok s := by simp only [step, hs]
      rw [hE]; exact h
    | cons e rest =>
      have hE : step s .selfEvent = .ok (handleSelfEvent { s with self_link := rest } e) := by
        simp only [step, hs]
      rw [hE, ← h]
      show (handleSelfEvent { s with self_link := rest } e).use_dramsim = _
      unfold handleSelfEvent
      split_ifs
      · exact sendResponse_mode _ _
      · rfl

/-- One drain delivery keeps the invariant; it sends no response for `A` while
the sole read is canceled. -/
lemma step_drain_soleRead (A n : Nat) (b : Int) (s : MemController) (i : Input)
    (hmode : s.use_dramsim = false)
    (hi : isDrain i = true) (h : SoleRead A n b s) :
    SoleRead A n b (finalState (step s i)) ∧
    (b ≤ 0 → responsesSent (finalState (step s i)) A = responsesSent s A) ∧
    (finalState (step s i)).name = s.name := by
  cases i with
  | event ev =>
    have hcmd : ev.cmd = Command.BusClearToSend := by simpa [isDrain] using hi
    by_cases hto : (ev.dst == s.name || ev.dst == BROADCAST_TARGET) = true
    · have hE : step s (.event ev) = .ok (sendBusPacketLoop s s.busReqs) := by
        simp only [step, handleEvent, hcmd, hto, if_true, sendBusPacket]
      rw [hE]
      exact sendBusPacketLoop_soleRead A n b s.busReqs s rfl h
    · have hE : step s (.event ev) = .ok s := by
        simp only [step, handleEvent, hcmd, hto]
        rfl
      rw [hE]
      exact ⟨h, fun _ => rfl, rfl⟩
  | tick bk =>
    have hE : step s (.tick bk) = clockImmediateLoop s s.requestQueue :=
      clock_fixed s bk hmode
    rw [hE]
    obtain ⟨h1, h2, h3⟩ := clockImmediateLoop_soleRead A n b s.requestQueue s rfl h
    refine ⟨h1, fun _ => ?_, h3⟩
    simp only [responsesSent, h2]
  | selfEvent =>
    cases hs : s.self_link with
    | nil =>
      have hE : step s .selfEvent = .ok s := by simp only [step, hs]
      rw [hE]
      exact ⟨h, fun _ => rfl, rfl⟩
    | cons e rest =>
      have hE : step s .selfEvent = .ok (handleSelfEvent { s with self_link := rest } e) := by
        simp only [step, hs]
      rw [hE]
      obtain ⟨h1, h2, h3⟩ := handleSelfEvent_soleRead A n b s e rest hs h
      exact ⟨h1, fun _ => h2, h3⟩

lemma run_cons (s : MemController) (i : Input) (rest : List Input) :
    run s (i :: rest) = run (finalState (step s i)) rest ∨
    run s (i :: rest) = finalState (step s i) := by
  cases h : step s i with
  | ok t => left; simp [run, h, finalState]
  | error e => right; simp [run, h, finalState]

/-- A run is the run of a first part followed by the run of the rest, unless
the first part aborted. -/
lemma run_append (s : MemController) (σ τ : List Input) :
    run s (σ ++ τ) = run (run s σ) τ ∨ run s (σ ++ τ) = run s σ := by
  induction σ generalizing s with
  | nil => left; rfl
  | cons i σ ih =>
    cases h : step s i with
    | ok t =>
      have h1 : run s (i :: σ ++ τ) = run t (σ ++ τ) := by simp [run, h]
      have h2 : run s (i :: σ) = run t σ := by simp [run, h]
      rw [h1, h2]
      exact ih t
    | error e =>
      right
      simp [run, h]

/-- A run in fixed-latency mode leaves the controller in that mode. -/
lemma run_mode :
    ∀ (σ : List Input) (s : MemController), s.use_dramsim = false →
      (run s σ).use_dramsim = false := by
  intro σ
  induction σ with
  | nil => intro s h; exact h
  | cons i σ ih =>
    intro s h
    rcases run_cons s i σ with hr | hr
    · rw [hr]; exact ih _ (step_mode s i h)
    · rw [hr]; exact step_mode s i h

lemma run_drain_soleRead (A n : Nat) (b : Int) :
    ∀ (σ : List Input) (s : MemController), s.use_dramsim = false →
      σ.all isDrain = true → SoleRead A n b s →
      SoleRead A n b (run s σ) ∧
      (b ≤ 0 → responsesSent (run s σ) A = responsesSent s A) ∧
      (run s σ).name = s.name := by
  intro σ
  induction σ with
  | nil => intro s _ _ h; exact ⟨h, fun _ => rfl, rfl⟩
  | cons i σ ih =>
    intro s hmode hd h
    simp only [List.all_cons, Bool.and_eq_true] at hd
    obtain ⟨h1, h2, h3⟩ := step_drain_soleRead A n b s i hmode hd.1 h
    rcases run_cons s i σ with hr | hr
    · rw [hr]
      obtain ⟨k1, k2, k3⟩ := ih _ (step_mode s i hmode) hd.2 h1
      exact ⟨k1, fun hb => by rw [k2 hb, h2 hb], by rw [k3, h3]⟩
    · rw [hr]
      exact ⟨h1, h2, h3⟩

/-- Admitting a read of `A` when nothing for `A` is pending makes it the sole
read of `A`, with referenceCount 1. -/
lemma handleEvent_read_soleRead (s : MemController) (ev : MemEvent)
    (hr : isReadCmd ev) (hto : ev.dst = s.name ∨ ev.dst = BROADCAST_TARGET)
    (hent : s.outstandingReadReqs ev.addr = none) (hp : pendingFor s ev.addr = 0)
    (hfresh : ∀ id ∈ s.requestQueue, id < s.nextReq) :
    SoleRead ev.addr ev.size 1 (handleEvent s ev) ∧
    (handleEvent s ev).snoop_link = s.snoop_link ∧
    (handleEvent s ev).name = s.name := by
  have hE : handleEvent s ev = addRequest s ev := by
    rcases hr with h | h <;> rcases hto with h2 | h2 <;> simp [handleEvent, h, h2]
  rw [hE, addRequest_of_read_absent s ev hr hent]
  refine ⟨Or.inr ⟨?_, s.nextReq, by simp, by simp [DRAMReq.ofEvent],
    by simp [DRAMReq.ofEvent], ?_⟩, rfl, rfl⟩
  · simp only [pendingFor, Nat.add_eq_zero, List.countP_eq_zero] at hp
    obtain ⟨⟨hq, hs⟩, hb⟩ := hp
    have h1 : List.countP (fun e : MemEvent => e.addr == ev.addr) s.self_link = 0 :=
      List.countP_eq_zero.mpr hs
    have h2 : List.countP (fun e : MemEvent => e.addr == ev.addr) s.busReqs = 0 :=
      List.countP_eq_zero.mpr hb
    have h3 : List.countP
        (fun id => ((Function.update s.recs s.nextReq (DRAMReq.ofEvent ev)) id).reqEvent.addr
          == ev.addr) s.requestQueue = 0 := by
      rw [List.countP_eq_zero]
      intro id hid
      rw [Function.update_noteq (Nat.ne_of_lt (hfresh id hid))]
      exact hq id hid
    simp only [pendingFor, List.countP_append, h1, h2, h3, List.countP_cons, List.countP_nil,
      Function.update_same]
    simp [DRAMReq.ofEvent]
  · intro id hid ha
    simp only [List.mem_append, List.mem_singleton] at hid
    rcases hid with hid | hid
    · exfalso
      simp only [pendingFor, Nat.add_eq_zero, List.countP_eq_zero] at hp
      have := hp.1.1 id hid
      have ha2 : ((Function.update s.recs s.nextReq (DRAMReq.ofEvent ev)) id).reqEvent.addr
          = ev.addr := ha
      rw [Function.update_noteq (Nat.ne_of_lt (hfresh id hid))] at ha2
      simp [ha2] at this
    · exact hid

/-- A peer SupplyData without the writeback flag, at least as large as the sole
read of its address, brings that read's referenceCount to 0 or below. -/
lemma handleEvent_cancel_soleRead (n : Nat) (s : MemController) (c : MemEvent)
    (hcmd : c.cmd = Command.SupplyData) (hwb : c.writeback = false)
    (hsrc : c.src ≠ s.name) (hn : n ≤ c.size) (h : SoleRead c.addr n 1 s) :
    SoleRead c.addr n 0 (handleEvent s c) ∧
    (handleEvent s c).snoop_link = s.snoop_link ∧
    (handleEvent s c).name = s.name := by
  have hE : handleEvent s c = cancelEvent s c := by
    simp [handleEvent, hcmd, hwb, hsrc]
  rw [hE]
  have hpend : ∀ f : Nat → DRAMReq, (∀ id, (f id).reqEvent = (s.recs id).reqEvent) →
      pendingFor { s with recs := f } c.addr = pendingFor s c.addr := by
    intro f h4
    simp only [pendingFor, h4]
  have hev : ∀ j id, ((Function.update s.recs j
      { s.recs j with req_count := (s.recs j).req_count - 1 }) id).reqEvent
      = (s.recs id).reqEvent := by
    intro j id
    by_cases hid : id = j
    · subst hid; simp
    · simp [Function.update_noteq hid]
  rcases h with h | ⟨h1, j, hj, hc, hs, hu⟩
  · cases hj : s.outstandingReadReqs c.addr with
    | none =>
      have : cancelEvent s c = s := by simp [cancelEvent, hj]
      rw [this]
      exact ⟨Or.inl h, rfl, rfl⟩
    | some j =>
      by_cases hsz : (s.recs j).size ≤ c.size
      · have hC : cancelEvent s c =
            { s with recs := Function.update s.recs j
                       { s.recs j with req_count := (s.recs j).req_count - 1 } } := by
          simp [cancelEvent, hj, hsz]
        rw [hC]
        exact ⟨Or.inl ((hpend _ (hev j)).trans h), rfl, rfl⟩
      · have : cancelEvent s c = s := by simp [cancelEvent, hj, hsz]
        rw [this]
        exact ⟨Or.inl h, rfl, rfl⟩
  · have hsz : (s.recs j).size ≤ c.size := le_trans hs hn
    have hC : cancelEvent s c =
        { s with recs := Function.update s.recs j
                   { s.recs j with req_count := (s.recs j).req_count - 1 } } := by
      simp [cancelEvent, hj, hsz]
    rw [hC]
    refine ⟨Or.inr ⟨?_, j, hj, ?_, ?_, ?_⟩, rfl, rfl⟩
    · rw [hpend _ (hev j)]; exact h1
    · simp only [Function.update_same]; omega
    · simpa using hs
    · intro id hid ha
      have ha2 : ((Function.update s.recs j
          { s.recs j with req_count := (s.recs j).req_count - 1 }) id).reqEvent.addr
          = c.addr := ha
      rw [hev j id] at ha2
      exact hu id hid ha2

/-- C8 (amended): in fixed-latency mode, starting from a state with no
outstanding read at `A` and nothing addressed to `A` pending in `requestQueue`,
on the self link or in `busReqs`: after a ReadRequest for `A` is admitted and a
peer SupplyData without the writeback flag, for `A` and of the same size, is
handled at any point before that read's response has been sent, every following
sequence of ticks, self-events and bus grants sends no response for `A` on the
bus.  The runs are those in which no tick visits a record that a bus grant has
deleted (`ticksLive`); the records queued at the start are of the size of their
request, a write with a payload of that size; no beat is in flight, as always
in fixed-latency mode. -/
theorem cancel_before_send_no_response (s : MemController) (ev c : MemEvent)
    (σ1 σ2 : List Input)
    (hmode : s.use_dramsim = false)
    (_hbeats : s.dramReadReqs = [] ∧ s.dramWriteReqs = [])
    (_hsized : ∀ id ∈ s.requestQueue, WellSized (s.recs id))
    (_hlive : ticksLive s (Input.event ev :: σ1 ++ Input.event c :: σ2) = true)
    (hent : s.outstandingReadReqs ev.addr = none)
    (hp : pendingFor s ev.addr = 0)
    (hfresh : ∀ id ∈ s.requestQueue, id < s.nextReq)
    (hr : isReadCmd ev) (hto : ev.dst = s.name ∨ ev.dst = BROADCAST_TARGET)
    (hcmd : c.cmd = Command.SupplyData) (hwb : c.writeback = false)
    (hsrc : c.src ≠ s.name) (hca : c.addr = ev.addr) (hcs : c.size = ev.size)
    (h1 : σ1.all isDrain = true) (h2 : σ2.all isDrain = true)
    (hns : responsesSent (run s (Input.event ev :: σ1)) ev.addr = responsesSent s ev.addr) :
    responsesSent (run s (Input.event ev :: σ1 ++ Input.event c :: σ2)) ev.addr
      = responsesSent s ev.addr := by
  have hstep : ∀ (t : MemController) (e : MemEvent) (τ : List Input),
      run t (Input.event e :: τ) = run (handleEvent t e) τ := by
    intro t e τ; simp [run, step]
  rcases run_append s (Input.event ev :: σ1) (Input.event c :: σ2) with hsplit | hsplit
  · rw [hsplit, hstep]
    rw [hstep] at hns ⊢
    obtain ⟨a1, _, a3⟩ := handleEvent_read_soleRead s ev hr hto hent hp hfresh
    have hm1 : (handleEvent s ev).use_dramsim = false := by
      rw [handleEvent_mode]; exact hmode
    have hm2 : (run (handleEvent s ev) σ1).use_dramsim = false := run_mode σ1 _ hm1
    have hm3 : (handleEvent (run (handleEvent s ev) σ1) c).use_dramsim = false := by
      rw [handleEvent_mode]; exact hm2
    obtain ⟨b1, _, b3⟩ := run_drain_soleRead ev.addr ev.size 1 σ1 _ hm1 h1 a1
    have hsrc2 : c.src ≠ (run (handleEvent s ev) σ1).name := by rw [b3, a3]; exact hsrc
    rw [← hca] at b1
    obtain ⟨c1, c2, _⟩ := handleEvent_cancel_soleRead ev.size _ c hcmd hwb hsrc2
      (le_of_eq hcs.symm) b1
    obtain ⟨_, d2, _⟩ := run_drain_soleRead c.addr ev.size 0 σ2 _ hm3 h2 c1
    rw [← hca] at hns ⊢
    rw [d2 (le_refl 0), ← hns]
    simp only [responsesSent, c2]
  · rw [hsplit]; exact hns

/-- Witness for C8 (amended): the read `readA` admitted in the idle state `ctl0`,
a tick, the cancellation `supplyA`, then the self-event and a bus grant. -/
theorem cancel_before_send_no_response_witness :
    ctl0.use_dramsim = false ∧
    ticksLive ctl0 (Input.event readA :: [Input.tick acceptAll] ++
        Input.event supplyA :: [Input.selfEvent, Input.event (grant "mem")]) = true ∧
    responsesSent (run ctl0 (Input.event readA :: [Input.tick acceptAll] ++
        Input.event supplyA :: [Input.selfEvent, Input.event (grant "mem")])) readA.addr
      = responsesSent ctl0 readA.addr :=
  ⟨rfl, by decide,
   cancel_before_send_no_response ctl0 readA supplyA [Input.tick acceptAll]
    [Input.selfEvent, Input.event (grant "mem")] rfl (by decide) (by decide) (by decide)
    rfl (by decide) (by decide) (by decide)
    (by decide) rfl rfl (by decide) rfl rfl (by decide) (by decide) (by decide)⟩

/-- C8 (as stated) fails: `ctlLeft`, in fixed-latency mode, has no entry for
`0x100` in `outstandingReads` (an older SupplyData answer for `0x100` still
waits in `busReqs`); no tick of the run visits a deleted record.  The read
`readA` is admitted and ticked, the peer SupplyData `supplyA` cancels it before
its response is sent (referenceCount 0, number of responses sent still 1); the
next bus grant drops the older answer and erases the entry, and the response of
the canceled read is then sent on the bus. -/
theorem cancel_then_response_still_sent :
    ctlLeft.use_dramsim = false ∧
    ticksLive ctlLeft (readThenCancel ++ drainAfter) = true ∧
    ctlLeft.outstandingReadReqs readA.addr = none ∧
    isReadCmd readA ∧ supplyA.cmd = Command.SupplyData ∧ supplyA.writeback = false ∧
    supplyA.src ≠ ctlLeft.name ∧ supplyA.addr = readA.addr ∧ supplyA.size = readA.size ∧
    drainAfter.all isDrain = true ∧
    responsesSent ctlLeft 256 = 1 ∧
    responsesSent (run ctlLeft readThenCancel) 256 = 1 ∧
    isCanceled (run ctlLeft readThenCancel) 256 = true ∧
    responsesSent (run ctlLeft (readThenCancel ++ drainAfter)) 256 = 2 ∧
    (run ctlLeft (readThenCancel ++ drainAfter)).snoop_link.getLast? =
      some { makeResponse "mem" readA with payload := [0, 0, 0, 0, 0, 0, 0, 0] } := by
  decide

/-! ## Runs: two reads of one address -/

/-- A read addressed to the controller (or broadcast) is admitted. -/
lemma handleEvent_read (s : MemController) (ev : MemEvent) (hr : isReadCmd ev)
    (hto : ev.dst = s.name ∨ ev.dst = BROADCAST_TARGET) :
    handleEvent s ev = addRequest s ev := by
  rcases hr with h | h <;> rcases hto with h2 | h2 <;> simp [handleEvent, h, h2]

/-- An in-range read record is served from the store; the state is unchanged. -/
lemma performRequest_read (s : MemController) (r : DRAMReq) (ev : MemEvent)
    (hR : r.isWrite = false) (hev : r.reqEvent = ev) (hra : r.addr = ev.addr)
    (hrs : r.size = ev.size)
    (hw : WordSized s) (ha : ev.addr < 2 ^ 64) (hin : InRange s ev.addr ev.size) :
    performRequest s r = .ok (s, readResponse s ev) := by
  have ho : outOfRange s r = false :=
    outOfRange_of_inRange s r hw (by rw [hra]; exact ha) (by rw [hra, hrs]; exact hin)
  simp only [performRequest, ho, hR, Bool.false_eq_true, if_false, hev, hra, hrs]
  rfl

lemma readResponse_cmd (s : MemController) (ev : MemEvent) (hr : isReadCmd ev) :
    (readResponse s ev).cmd ≠ Command.NULLCMD ∧ isResponse (readResponse s ev) = true ∧
    (readResponse s ev).addr = ev.addr := by
  rcases hr with h | h <;> simp [readResponse, makeResponse, commandResponse, h, isResponse]

/-- One iteration of the tick loop on a live record whose transfer succeeds. -/
lemma clockImmediateLoop_cons_ok (s s1 : MemController) (id : Nat) (rest : List Nat)
    (resp : MemEvent) (hc : (s.recs id).req_count > 0)
    (hp : performRequest s (s.recs id) = .ok (s1, resp)) (hn : resp.cmd ≠ Command.NULLCMD) :
    clockImmediateLoop s (id :: rest) =
      clockImmediateLoop { s1 with self_link := s1.self_link ++ [resp], requestQueue := rest }
        rest := by
  conv_lhs => unfold clockImmediateLoop
  simp [hc, hp, hn]

/-- The entry at the address of a waiter that is sent: erased when the waiter
is a SupplyData, kept otherwise. -/
lemma sendBusPacketLoop_send_entry (s : MemController) (e : MemEvent)
    (rest : List MemEvent) (hc : isCanceled { s with busReqs := rest } e.addr = false) :
    (sendBusPacketLoop s (e :: rest)).outstandingReadReqs e.addr =
      if e.cmd = Command.SupplyData then none else s.outstandingReadReqs e.addr := by
  unfold sendBusPacketLoop
  simp only [hc, Bool.not_false, if_true]
  by_cases h1 : rest.length > 0 <;> by_cases h2 : e.cmd = Command.SupplyData <;>
    by_cases h3 : s.bus_requested = true <;>
    simp [h1, h2, h3, sendResponse, eraseOutstanding]

/-- A waiter is not canceled when its address has no entry or a live entry. -/
lemma isCanceled_false_of (s : MemController) (a : Nat)
    (h : s.outstandingReadReqs a = none ∨
      ∃ j, s.outstandingReadReqs a = some j ∧ 0 < (s.recs j).req_count) :
    isCanceled s a = false := by
  rcases h with h | ⟨j, hj, hc⟩
  · simp [isCanceled, h]
  · simp only [isCanceled, hj, decide_eq_false_iff_not, not_le]
    exact hc

/-- A tick over a queue of two live in-range reads serves both. -/
lemma clockImmediate_two_reads (t : MemController) (i j : Nat) (e1 e2 : MemEvent)
    (hq : t.requestQueue = [i, j])
    (hi : (t.recs i).req_count > 0) (hj : (t.recs j).req_count > 0)
    (hiW : (t.recs i).isWrite = false) (hjW : (t.recs j).isWrite = false)
    (hie : (t.recs i).reqEvent = e1) (hje : (t.recs j).reqEvent = e2)
    (hia : (t.recs i).addr = e1.addr) (hja : (t.recs j).addr = e2.addr)
    (his : (t.recs i).size = e1.size) (hjs : (t.recs j).size = e2.size)
    (hr1 : isReadCmd e1) (hr2 : isReadCmd e2)
    (hw : WordSized t) (hlt1 : e1.addr < 2 ^ 64) (hlt2 : e2.addr < 2 ^ 64)
    (hin1 : InRange t e1.addr e1.size) (hin2 : InRange t e2.addr e2.size) :
    clockImmediate t =
      .ok { t with self_link := t.self_link ++ [readResponse t e1, readResponse t e2],
                   requestQueue := [] } := by
  unfold clockImmediate
  rw [hq, clockImmediateLoop_cons_ok t t i [j] (readResponse t e1) hi
    (performRequest_read t _ e1 hiW hie hia his hw hlt1 hin1) (readResponse_cmd t e1 hr1).1]
  rw [clockImmediateLoop_cons_ok
    { t with self_link := t.self_link ++ [readResponse t e1], requestQueue := [j] }
    { t with self_link := t.self_link ++ [readResponse t e1], requestQueue := [j] }
    j [] (readResponse t e2) hj
    (performRequest_read _ _ e2 hjW hje hja hjs hw hlt2 hin2) (readResponse_cmd t e2 hr2).1]
  simp [clockImmediateLoop]

/-- Delivery of a self-event whose address is not canceled. -/
lemma step_selfEvent_live (t : MemController) (e : MemEvent) (rest : List MemEvent)
    (hs : t.self_link = e :: rest) (hc : isCanceled t e.addr = false) :
    step t .selfEvent = .ok (sendResponse { t with self_link := rest } (some e)) := by
  have hc2 : isCanceled { t with self_link := rest } e.addr = false := hc
  simp only [step, hs, handleSelfEvent, hc2, Bool.not_false, if_true]

/-- Delivery of a bus grant addressed to the controller. -/
lemma step_grant (t : MemController) :
    step t (.event (grant t.name)) = .ok (sendBusPacketLoop t t.busReqs) := by
  simp [step, handleEvent, grant, sendBusPacket]

/-- C7 (amended): in fixed-latency mode, starting from an idle state with no
outstanding read at `A` (and a heap in which only records allocated so far have
been deleted), two ReadRequests for the same in-range address `A` and size cause
two backing-store reads at the next tick (one `performRequest` and one response
on the self link per request) and, after both self-events and two bus grants,
two responses for `A` sent on the bus.  The tick visits no deleted record. -/
theorem two_reads_two_responses (s : MemController) (e1 e2 : MemEvent) (b : Backend)
    (hmode : s.use_dramsim = false) (hheap : ∀ id ∈ s.freed, id < s.nextReq)
    (hq : s.requestQueue = []) (hsl : s.self_link = []) (hbr : s.busReqs = [])
    (hent : s.outstandingReadReqs e1.addr = none)
    (hr1 : isReadCmd e1) (hr2 : isReadCmd e2)
    (ht1 : e1.dst = s.name ∨ e1.dst = BROADCAST_TARGET)
    (ht2 : e2.dst = s.name ∨ e2.dst = BROADCAST_TARGET)
    (ha : e2.addr = e1.addr) (hsz : e2.size = e1.size)
    (hw : WordSized s) (hlt : e1.addr < 2 ^ 64) (hin : InRange s e1.addr e1.size) :
    servesDeleted (run s [.event e1, .event e2]) = false ∧
    (run s [.event e1, .event e2, .tick b]).self_link
      = [readResponse s e1, readResponse s e2] ∧
    responsesSent
        (run s [.event e1, .event e2, .tick b, .selfEvent, .selfEvent,
                .event (grant s.name), .event (grant s.name)]) e1.addr
      = responsesSent s e1.addr + 2 := by
  obtain ⟨_, p1, a1⟩ := readResponse_cmd s e1 hr1
  obtain ⟨_, p2, a2⟩ := readResponse_cmd s e2 hr2
  rw [ha] at a2
  have hne : s.nextReq ≠ s.nextReq + 1 := by omega
  -- the two admissions
  have hA1 := addRequest_of_read_absent s e1 hr1 hent
  rw [hq, List.nil_append] at hA1
  have hA2 := addRequest_of_read_present (addRequest s e1) e2 s.nextReq hr2
    (by rw [hA1, ha]; simp) (by rw [hA1]; exact hne)
  rw [hA1] at hA2
  simp only [Function.update_same, Function.update_noteq hne, List.singleton_append] at hA2
  rw [← hA1] at hA2
  generalize hS2 : addRequest (addRequest s e1) e2 = S2 at hA2
  have g1 : S2.requestQueue = [s.nextReq, s.nextReq + 1] := by rw [hA2]
  have g2 : S2.recs s.nextReq = { DRAMReq.ofEvent e1 with req_count := 2 } := by
    rw [hA2]; simp [DRAMReq.ofEvent]
  have g3 : S2.recs (s.nextReq + 1) = DRAMReq.ofEvent e2 := by
    rw [hA2]; simp [Function.update_noteq hne.symm]
  have g4 : S2.name = s.name ∧ S2.rangeStart = s.rangeStart ∧ S2.memSize = s.memSize ∧
      S2.memBuffer = s.memBuffer ∧ S2.self_link = [] ∧ S2.busReqs = [] ∧
      S2.snoop_link = s.snoop_link := by
    rw [hA2]; exact ⟨rfl, rfl, rfl, rfl, hsl, hbr, rfl⟩
  have g5 : S2.outstandingReadReqs e1.addr = some s.nextReq := by
    rw [hA2]; simp
  obtain ⟨k1, k2, k3, k4, k5, k6, k7⟩ := g4
  have hrr : ∀ e, readResponse S2 e = readResponse s e := by
    intro e; simp only [readResponse, k1, k2, k4]
  have hW2 : WordSized S2 := by simpa [WordSized, k2, k3] using hw
  have hI2 : InRange S2 e1.addr e1.size := by simpa [InRange, k2, k3] using hin
  -- the tick
  have hT := clockImmediate_two_reads S2 s.nextReq (s.nextReq + 1) e1 e2 g1
    (by rw [g2]; norm_num) (by rw [g3]; simp [DRAMReq.ofEvent])
    (by rw [g2]; simpa using ofEvent_isWrite_of_read e1 hr1)
    (by rw [g3]; exact ofEvent_isWrite_of_read e2 hr2)
    (by rw [g2]; rfl) (by rw [g3]; rfl) (by rw [g2]; rfl) (by rw [g3]; rfl)
    (by rw [g2]; rfl) (by rw [g3]; rfl) hr1 hr2 hW2 hlt (by rw [ha]; exact hlt) hI2
    (by rw [ha, hsz]; exact hI2)
  rw [k5, hrr, hrr, List.nil_append] at hT
  have hE1 := handleEvent_read s e1 hr1 ht1
  have hE2 : handleEvent (addRequest s e1) e2 = addRequest (addRequest s e1) e2 :=
    handleEvent_read _ e2 hr2 (by rw [hA1]; exact ht2)
  have g6 : S2.use_dramsim = false ∧ S2.freed = s.freed := by
    rw [hA2]; exact ⟨hmode, rfl⟩
  have hT2 : clock S2 b =
      .ok { S2 with self_link := [readResponse s e1, readResponse s e2],
                    requestQueue := [] } := by
    rw [clock_fixed S2 b g6.1]; exact hT
  have hrun2 : run s [.event e1, .event e2] = S2 := by
    simp only [run, step, hE1, hE2, hS2]
  have hrun3 : ∀ τ, run s (.event e1 :: .event e2 :: .tick b :: τ) =
      run { S2 with self_link := [readResponse s e1, readResponse s e2], requestQueue := [] }
        τ := by
    intro τ
    simp only [run, step, hE1, hE2, hS2, hT2]
  have hserve : servesDeleted (run s [.event e1, .event e2]) = false := by
    rw [hrun2]
    simp only [servesDeleted, g1, g6.2, List.any_cons, List.any_nil, Bool.or_false,
      Bool.or_eq_false_iff, decide_eq_false_iff_not]
    exact ⟨fun h => absurd (hheap _ h) (by omega), fun h => absurd (hheap _ h) (by omega)⟩
  refine ⟨hserve, by rw [hrun3]; rfl, ?_⟩
  rw [hrun3]
  generalize hT3 :
    ({ S2 with self_link := [readResponse s e1, readResponse s e2], requestQueue := [] }
      : MemController) = T3
  have t1 : T3.self_link = [readResponse s e1, readResponse s e2] := by rw [← hT3]
  have t2 : T3.outstandingReadReqs e1.addr = some s.nextReq := by rw [← hT3]; exact g5
  have t3 : (T3.recs s.nextReq).req_count = 2 := by
    rw [← hT3]; show (S2.recs s.nextReq).req_count = 2; rw [g2]
  have t4 : T3.busReqs = [] := by rw [← hT3]; exact k6
  have t5 : T3.name = s.name := by rw [← hT3]; exact k1
  have t6 : responsesSent T3 e1.addr = responsesSent s e1.addr := by
    rw [← hT3]; simp only [responsesSent, k7]
  -- first self-event
  have hs1 := step_selfEvent_live T3 _ _ t1
    (isCanceled_false_of _ _ (Or.inr ⟨s.nextReq, by rw [a1]; exact t2, by rw [t3]; norm_num⟩))
  obtain ⟨u1, _, u3, u4, u5, u6, u7⟩ :=
    sendResponse_fields { T3 with self_link := [readResponse s e2] }
      (some (readResponse s e1)) e1.addr
  generalize sendResponse { T3 with self_link := [readResponse s e2] }
    (some (readResponse s e1)) = T4 at hs1 u1 u3 u4 u5 u6 u7
  -- second self-event
  have hs2 := step_selfEvent_live T4 _ _ u3
    (isCanceled_false_of _ _ (Or.inr ⟨s.nextReq, by rw [a2, u4]; exact t2,
      by rw [u1]; show 0 < (T3.recs s.nextReq).req_count; rw [t3]; norm_num⟩))
  obtain ⟨v1, _, _, v4, v5, v6, v7⟩ :=
    sendResponse_fields { T4 with self_link := [] } (some (readResponse s e2)) e1.addr
  generalize sendResponse { T4 with self_link := [] } (some (readResponse s e2)) = T5
    at hs2 v1 v4 v5 v6 v7
  have v6b : T5.busReqs = [readResponse s e1, readResponse s e2] := by
    rw [v6]; show T4.busReqs ++ _ = _; rw [u6]; show T3.busReqs ++ _ ++ _ = _; rw [t4]; rfl
  have v1b : (T5.recs s.nextReq).req_count = 2 := by
    rw [v1]; show (T4.recs s.nextReq).req_count = 2; rw [u1]; exact t3
  have v4b : T5.outstandingReadReqs e1.addr = some s.nextReq := by
    rw [v4]; show T4.outstandingReadReqs e1.addr = _; rw [u4]; exact t2
  have v5b : T5.name = s.name := by rw [v5]; show T4.name = _; rw [u5]; exact t5
  have v7b : responsesSent T5 e1.addr = responsesSent s e1.addr := by
    rw [v7]; show responsesSent T4 e1.addr = _; rw [u7]; exact t6
  -- first grant
  have hg1 := step_grant T5
  rw [v6b, v5b] at hg1
  have hc5 : isCanceled { T5 with busReqs := [readResponse s e2] } (readResponse s e1).addr
      = false :=
    isCanceled_false_of _ _ (Or.inr ⟨s.nextReq, by rw [a1]; exact v4b, by
      show 0 < (T5.recs s.nextReq).req_count; rw [v1b]; norm_num⟩)
  obtain ⟨w1, _, _, w4, w5, _, w7⟩ :=
    sendBusPacketLoop_send T5 (readResponse s e1) [readResponse s e2] hc5 e1.addr
  have w8 := sendBusPacketLoop_send_entry T5 (readResponse s e1) [readResponse s e2] hc5
  generalize sendBusPacketLoop T5 [readResponse s e1, readResponse s e2] = T6
    at hg1 w1 w4 w5 w7 w8
  rw [a1] at w7 w8
  simp only [p1, and_self, if_true, v7b] at w7
  -- second grant
  have hg2 := step_grant T6
  rw [w4, w5, v5b] at hg2
  have hc6 : isCanceled { T6 with busReqs := [] } (readResponse s e2).addr = false := by
    apply isCanceled_false_of
    rw [a2]
    show T6.outstandingReadReqs e1.addr = none ∨
      ∃ j, T6.outstandingReadReqs e1.addr = some j ∧ 0 < (T6.recs j).req_count
    rw [w8]
    split_ifs
    · exact Or.inl rfl
    · exact Or.inr ⟨s.nextReq, v4b, by rw [w1, v1b]; norm_num⟩
  obtain ⟨_, _, _, _, _, _, x7⟩ :=
    sendBusPacketLoop_send T6 (readResponse s e2) [] hc6 e1.addr
  rw [a2] at x7
  simp only [p2, and_self, if_true, w7] at x7
  simp only [run, hs1, hs2, hg1, hg2]
  exact x7

/-! ## Instances at the example states -/

/-- Witness for C7 (amended): the reads `readA` and `readA2` in the idle state
`ctl0`. -/
theorem two_reads_two_responses_witness :
    ctl0.use_dramsim = false ∧
    servesDeleted (run ctl0 [.event readA, .event readA2]) = false ∧
    (run ctl0 [.event readA, .event readA2, .tick acceptAll]).self_link
      = [readResponse ctl0 readA, readResponse ctl0 readA2] ∧
    responsesSent
        (run ctl0 [.event readA, .event readA2, .tick acceptAll, .selfEvent, .selfEvent,
                .event (grant ctl0.name), .event (grant ctl0.name)]) readA.addr
      = responsesSent ctl0 readA.addr + 2 :=
  ⟨rfl, two_reads_two_responses ctl0 readA readA2 acceptAll rfl (by decide) rfl rfl rfl rfl
    (Or.inl rfl) (Or.inl rfl)
    (Or.inl rfl) (Or.inl rfl) rfl rfl (by decide) (by decide) (by decide)⟩

/-- C7 (as stated) fails: from the idle state `ctl0`, in fixed-latency mode and
with no entry for `0x100` (no tick of the run visits a deleted record), two
ReadRequests for `0x100` of 8 bytes put two responses on the self link at the
tick (two transfers) and, after both self-events and two bus grants, two
responses for `0x100` have been sent on the bus. -/
theorem two_reads_not_deduplicated :
    ctl0.use_dramsim = false ∧ ticksLive ctl0 twoReads = true ∧
    ctl0.outstandingReadReqs 256 = none ∧
    readA.addr = 256 ∧ readA2.addr = 256 ∧ readA.size = readA2.size ∧
    (run ctl0 (twoReads.take 3)).self_link.length = 2 ∧
    responsesSent ctl0 256 = 0 ∧
    responsesSent (run ctl0 twoReads) 256 = 2 := by
  decide

/-- Witness for C4: a ReadRequest merged into the over-canceled entry of
`ctlOver` (referenceCount -1) brings it back to 1. -/
theorem addRequest_merge_clamps_witness :
    (addRequest ctlOver readA2).outstandingReadReqs readA2.addr = some 0 ∧
    ((addRequest ctlOver readA2).recs 0).req_count = max (-1 + 1) 1 ∧
    ((-1 : Int) ≤ 0 → ((addRequest ctlOver readA2).recs 0).req_count = 1) ∧
    1 ≤ ((addRequest ctlOver readA2).recs 0).req_count :=
  addRequest_merge_clamps ctlOver readA2 0 (-1) (Or.inl rfl) (by decide) (by decide)
    (by decide)

/-- Witness for C5 (amended): the 64-byte cancellation `supplyA64` of the 8-byte
read in `ctl1`. -/
theorem cancelEvent_effect_witness :
    ((cancelEvent ctl1 supplyA64).recs 0).req_count = (ctl1.recs 0).req_count - 1 :=
  (((cancelEvent_effect ctl1 supplyA64).1 0 (by decide) (by decide)).2).1

/-- Witness for C10: the flagged write `writeWb` followed by the read `readA` in
`ctl0`. -/
theorem performRequest_write_then_read_witness :
    ∃ s1 resp1 resp2,
      performRequest ctl0 (DRAMReq.ofEvent writeWb) = .ok (s1, resp1) ∧
      performRequest s1 (DRAMReq.ofEvent readA) = .ok (s1, resp2) ∧
      resp2.payload = [1, 2, 3, 4, 5, 6, 7, 8] ∧
      (∀ k, ¬ (256 - ctl0.rangeStart ≤ k ∧ k < 256 - ctl0.rangeStart + 8) →
        s1.memBuffer k = ctl0.memBuffer k) :=
  performRequest_write_then_read ctl0 (DRAMReq.ofEvent writeWb) (DRAMReq.ofEvent readA)
    256 8 [1, 2, 3, 4, 5, 6, 7, 8] (by decide) (by decide) (by decide) rfl rfl rfl rfl rfl
    rfl rfl rfl rfl

/-- Without wrap-around (the address is not below the range start and the end
offset fits 64 bits) `performRequest` aborts exactly when the interval leaves
the mapped range; an abort leaves the state as it is. -/
lemma performRequest_fatal_iff_of_no_wrap (s : MemController) (r : DRAMReq)
    (ha : r.addr < 2 ^ 64) (hge : s.rangeStart ≤ r.addr)
    (hnw : r.addr - s.rangeStart + r.size < 2 ^ 64) :
    (performRequest s r = .error s ↔ ¬ InRange s r.addr r.size) ∧
    (∀ e, performRequest s r = .error e → e = s) := by
  have ho : outOfRange s r = true ↔ ¬ InRange s r.addr r.size := by
    simp only [outOfRange, decide_eq_true_eq, add64, InRange]
    rw [sub64_of_le _ _ ha hge, Nat.mod_eq_of_lt hnw]
    constructor
    · intro h hin; omega
    · intro h
      by_contra hc
      exact h ⟨hge, by omega⟩
  constructor
  · rw [← ho]
    by_cases h : outOfRange s r = true
    · simp [performRequest, h]
    · simp only [h, iff_false]
      by_cases hW : r.isWrite = true <;> simp [performRequest, h, hW]
  · intro e he
    rcases performRequest_cases s r with h | ⟨m, p, h⟩
    · rw [h] at he; injection he with he; exact he.symm
    · rw [h] at he; cases he

/-- C9: at the failing input the range test misses.  With the store mapped at
`[0x1000, 0x1000 + 1 MB)`, a one-byte write at `0xFFF` (below the range, so the
interval is not contained in it) is not rejected: `addr - rangeStart` wraps to
`2^64 - 1`, adding the size wraps to 0, `performRequest` does not abort and
stores the payload byte at index `2^64 - 1`, beyond `memSize`. -/
theorem performRequest_below_range_not_fatal :
    ctlHi.rangeStart = 4096 ∧ ctlHi.memSize = 1048576 ∧
    (DRAMReq.ofEvent writeBelow).addr = 4095 ∧ (DRAMReq.ofEvent writeBelow).size = 1 ∧
    ¬ InRange ctlHi 4095 1 ∧
    sub64 4095 4096 = 2 ^ 64 - 1 ∧
    add64 (sub64 4095 4096) 1 = 0 ∧
    outOfRange ctlHi (DRAMReq.ofEvent writeBelow) = false ∧
    bufIndex 4095 4096 0 = 2 ^ 64 - 1 ∧
    ctlHi.memBuffer (2 ^ 64 - 1) = 0 ∧
    (performRequest ctlHi (DRAMReq.ofEvent writeBelow)).toOption.map
        (fun p => p.1.memBuffer (2 ^ 64 - 1)) = some 7 := by
  decide

/-! ## Bus arbitration (`sendResponse`, `sendBusPacket`) -/

/-- C11: for every controller state and every non-null completed response `ev`,
`sendResponse` appends `ev` at the tail of `busReqs`, leaves the pending-grant
flag true, and emits a RequestBus message exactly when the flag was false before
the call; nothing else changes. -/
theorem sendResponse_some (s : MemController) (ev : MemEvent) :
    (sendResponse s (some ev)).busReqs = s.busReqs ++ [ev] ∧
    (sendResponse s (some ev)).bus_requested = true ∧
    (s.bus_requested = false →
      (sendResponse s (some ev)).snoop_link =
        s.snoop_link ++ [ctlEvent s.name Command.RequestBus]) ∧
    (s.bus_requested = true → (sendResponse s (some ev)).snoop_link = s.snoop_link) ∧
    sendResponse s (some ev) =
      { s with busReqs := (sendResponse s (some ev)).busReqs,
               bus_requested := (sendResponse s (some ev)).bus_requested,
               snoop_link := (sendResponse s (some ev)).snoop_link } := by
  by_cases h : s.bus_requested = true
  · simp [sendResponse, h]
  · simp only [Bool.not_eq_true] at h
    simp [sendResponse, h]

/-- Witness for C11: a response queued twice in the idle state `ctl0`; only the
first call emits a RequestBus. -/
theorem sendResponse_some_witness :
    (sendResponse ctl0 (some (makeResponse "mem" readA))).snoop_link
      = ctl0.snoop_link ++ [ctlEvent ctl0.name Command.RequestBus] ∧
    (sendResponse (sendResponse ctl0 (some (makeResponse "mem" readA)))
        (some (makeResponse "mem" readA2))).snoop_link
      = (sendResponse ctl0 (some (makeResponse "mem" readA))).snoop_link :=
  ⟨(sendResponse_some ctl0 (makeResponse "mem" readA)).2.2.1 rfl,
   (sendResponse_some (sendResponse ctl0 (some (makeResponse "mem" readA)))
      (makeResponse "mem" readA2)).2.2.2.1 (by decide)⟩

/-- Erasing an entry cancels nothing. -/
lemma isCanceled_of_erase (s : MemController) (a b : Nat)
    (h : isCanceled (eraseOutstanding s a) b = true) : isCanceled s b = true := by
  by_cases hab : b = a
  · subst hab
    simp [isCanceled, eraseOutstanding] at h
  · have h1 : (eraseOutstanding s a).outstandingReadReqs b = s.outstandingReadReqs b := by
      simp [eraseOutstanding, Function.update_noteq hab]
    have h2 : (eraseOutstanding s a).recs = s.recs := rfl
    simp only [isCanceled, h1, h2] at h
    exact h

/-- The state in which the loop goes on after dropping the canceled waiter `e`. -/
lemma isCanceled_of_dropState (s : MemController) (e : MemEvent) (rest : List MemEvent)
    (b : Nat)
    (h : isCanceled (if e.cmd = Command.SupplyData then
            eraseOutstanding { s with busReqs := rest } e.addr
          else { s with busReqs := rest }) b = true) : isCanceled s b = true := by
  split_ifs at h
  · exact isCanceled_of_erase { s with busReqs := rest } e.addr b h
  · exact h

/-- The head waiter is not canceled: what the grant leaves behind. -/
lemma sendBusPacketLoop_send_trace (s : MemController) (e : MemEvent)
    (rest : List MemEvent) (hc : isCanceled { s with busReqs := rest } e.addr = false) :
    (sendBusPacketLoop s (e :: rest)).busReqs = rest ∧
    (sendBusPacketLoop s (e :: rest)).snoop_link =
      s.snoop_link ++ e :: (if rest = [] then [] else [ctlEvent s.name Command.RequestBus]) ∧
    (sendBusPacketLoop s (e :: rest)).bus_requested = !rest.isEmpty ∧
    (∀ b, isCanceled s b = false → isCanceled (sendBusPacketLoop s (e :: rest)) b = false) := by
  unfold sendBusPacketLoop
  simp only [hc, Bool.not_false, if_true]
  have hcan : ∀ (t : MemController), t.outstandingReadReqs = s.outstandingReadReqs →
      t.recs = s.recs → ∀ b, isCanceled s b = false →
      isCanceled (if e.cmd = Command.SupplyData then eraseOutstanding t e.addr else t) b
        = false := by
    intro t h1 h2 b hb
    have ht : isCanceled t b = false := by
      simp only [isCanceled, h1, h2] at hb ⊢; exact hb
    split_ifs
    · by_contra hne
      have := isCanceled_of_erase t e.addr b (by simpa using hne)
      rw [ht] at this
      exact Bool.noConfusion this
    · exact ht
  cases rest with
  | nil =>
    refine ⟨?_, ?_, ?_, ?_⟩
    · by_cases h2 : e.cmd = Command.SupplyData <;> simp [h2, eraseOutstanding]
    · by_cases h2 : e.cmd = Command.SupplyData <;> simp [h2, eraseOutstanding]
    · by_cases h2 : e.cmd = Command.SupplyData <;> simp [h2, eraseOutstanding]
    · intro b hb
      simp only [List.length_nil, gt_iff_lt, lt_self_iff_false, if_false]
      refine hcan _ ?_ ?_ b hb <;> rfl
  | cons r rs =>
    refine ⟨?_, ?_, ?_, ?_⟩
    · by_cases h2 : e.cmd = Command.SupplyData <;> simp [h2, eraseOutstanding, sendResponse]
    · by_cases h2 : e.cmd = Command.SupplyData <;> simp [h2, eraseOutstanding, sendResponse]
    · by_cases h2 : e.cmd = Command.SupplyData <;> simp [h2, eraseOutstanding, sendResponse]
    · intro b hb
      simp only [List.length_cons, gt_iff_lt, Nat.zero_lt_succ, if_true]
      refine hcan _ ?_ ?_ b hb <;> simp [sendResponse]


/-- Shape of one grant: a prefix of canceled waiters is dropped; then either the
queue is exhausted and the bus request is withdrawn, or the next waiter is sent
and the bus is requested again when waiters remain. -/
lemma sendBusPacketLoop_shape :
    ∀ (q : List MemEvent) (s : MemController), s.busReqs = q →
      ∃ dropped : List MemEvent, (∀ x ∈ dropped, isCanceled s x.addr = true) ∧
        ((q = dropped ∧ sentWaiter s q = none ∧
          (sendBusPacketLoop s q).busReqs = [] ∧
          (sendBusPacketLoop s q).snoop_link =
            s.snoop_link ++ [ctlEvent s.name Command.CancelBusRequest] ∧
          (sendBusPacketLoop s q).bus_requested = false) ∨
         (∃ e rest, q = dropped ++ e :: rest ∧
          sentWaiter s q = some (dropped.length, e) ∧
          (sendBusPacketLoop s q).busReqs = rest ∧
          (sendBusPacketLoop s q).snoop_link =
            s.snoop_link ++ e ::
              (if rest = [] then [] else [ctlEvent s.name Command.RequestBus]) ∧
          (sendBusPacketLoop s q).bus_requested = !rest.isEmpty)) := by
  intro q
  induction q with
  | nil =>
    intro s _
    exact ⟨[], by simp, Or.inl ⟨rfl, rfl, rfl, rfl, rfl⟩⟩
  | cons e rest ih =>
    intro s hq
    by_cases hc : isCanceled { s with busReqs := rest } e.addr = true
    · rw [sendBusPacketLoop_drop s e rest hc]
      have hsw : sentWaiter s (e :: rest) =
          (sentWaiter (if e.cmd = Command.SupplyData then
              eraseOutstanding { s with busReqs := rest } e.addr
            else { s with busReqs := rest }) rest).map (fun p => (p.1 + 1, p.2)) := by
        simp [sentWaiter, hc]
      obtain ⟨d, hd, h⟩ := ih (if e.cmd = Command.SupplyData then
              eraseOutstanding { s with busReqs := rest } e.addr
            else { s with busReqs := rest }) (by split_ifs <;> rfl)
      have hname : (if e.cmd = Command.SupplyData then
              eraseOutstanding { s with busReqs := rest } e.addr
            else { s with busReqs := rest }).name = s.name := by split_ifs <;> rfl
      have hsn : (if e.cmd = Command.SupplyData then
              eraseOutstanding { s with busReqs := rest } e.addr
            else { s with busReqs := rest }).snoop_link = s.snoop_link := by
        split_ifs <;> rfl
      rw [hname, hsn] at h
      refine ⟨e :: d, ?_, ?_⟩
      · intro x hx
        rcases List.mem_cons.mp hx with hx | hx
        · rw [hx]; exact hc
        · exact isCanceled_of_dropState s e rest _ (hd x hx)
      · rcases h with ⟨h1, h2, h3, h4, h5⟩ | ⟨e2, r2, h1, h2, h3, h4, h5⟩
        · exact Or.inl ⟨by rw [h1], by rw [hsw, h2]; rfl, h3, h4, h5⟩
        · refine Or.inr ⟨e2, r2, by rw [h1]; rfl, ?_, h3, h4, h5⟩
          rw [hsw, h2]; rfl
    · have hc2 : isCanceled { s with busReqs := rest } e.addr = false := by simpa using hc
      refine ⟨[], by simp, Or.inr ⟨e, rest, rfl, by simp [sentWaiter, hc2], ?_, ?_, ?_⟩⟩
      · exact (sendBusPacketLoop_send_trace s e rest hc2).1
      · exact (sendBusPacketLoop_send_trace s e rest hc2).2.1
      · exact (sendBusPacketLoop_send_trace s e rest hc2).2.2.1

/-- C12: one bus grant (`sendBusPacket`) sends at most one response.  The waiters
removed form a prefix of `busReqs`: a run of waiters dropped as canceled,
followed, if anything is sent, by the waiter sent; what remains of `busReqs` is
the untouched suffix, and after a send the bus is requested again exactly when
that suffix is non-empty.  With three queued non-canceled responses, three
grants send them one per grant in FIFO order. -/
theorem sendBusPacket_one_grant (s : MemController) :
    (∃ dropped : List MemEvent, (∀ x ∈ dropped, isCanceled s x.addr = true) ∧
      ((s.busReqs = dropped ∧
        (sendBusPacket s).busReqs = [] ∧
        (sendBusPacket s).snoop_link =
          s.snoop_link ++ [ctlEvent s.name Command.CancelBusRequest] ∧
        (sendBusPacket s).bus_requested = false) ∨
       (∃ e rest, s.busReqs = dropped ++ e :: rest ∧
        (sendBusPacket s).busReqs = rest ∧
        (sendBusPacket s).snoop_link =
          s.snoop_link ++ e ::
            (if rest = [] then [] else [ctlEvent s.name Command.RequestBus]) ∧
        (sendBusPacket s).bus_requested = !rest.isEmpty))) ∧
    (sendBusPacket s).snoop_link.countP isResponse ≤ s.snoop_link.countP isResponse + 1 ∧
    (∀ a b c, s.busReqs = [a, b, c] → isCanceled s a.addr = false →
      isCanceled s b.addr = false → isCanceled s c.addr = false →
      (sendBusPacket s).snoop_link =
        s.snoop_link ++ [a, ctlEvent s.name Command.RequestBus] ∧
      (sendBusPacket s).busReqs = [b, c] ∧
      (sendBusPacket (sendBusPacket s)).snoop_link =
        s.snoop_link ++ [a, ctlEvent s.name Command.RequestBus,
                         b, ctlEvent s.name Command.RequestBus] ∧
      (sendBusPacket (sendBusPacket s)).busReqs = [c] ∧
      (sendBusPacket (sendBusPacket (sendBusPacket s))).snoop_link =
        s.snoop_link ++ [a, ctlEvent s.name Command.RequestBus,
                         b, ctlEvent s.name Command.RequestBus, c] ∧
      (sendBusPacket (sendBusPacket (sendBusPacket s))).busReqs = []) := by
  obtain ⟨d, hd, h⟩ := sendBusPacketLoop_shape s.busReqs s rfl
  refine ⟨⟨d, hd, ?_⟩, ?_, ?_⟩
  · rcases h with ⟨h1, _, h3, h4, h5⟩ | ⟨e, rest, h1, _, h3, h4, h5⟩
    · exact Or.inl ⟨h1, h3, h4, h5⟩
    · exact Or.inr ⟨e, rest, h1, h3, h4, h5⟩
  · rcases h with ⟨_, _, _, h4, _⟩ | ⟨e, rest, _, _, _, h4, _⟩
    · show (sendBusPacketLoop s s.busReqs).snoop_link.countP isResponse ≤ _
      rw [h4]
      simp [List.countP_append, ctlEvent, isResponse]
    · show (sendBusPacketLoop s s.busReqs).snoop_link.countP isResponse ≤ _
      rw [h4]
      have h0 : List.countP isResponse
          (if rest = [] then [] else [ctlEvent s.name Command.RequestBus]) = 0 := by
        split_ifs <;> simp [ctlEvent, isResponse]
      rw [List.countP_append, List.countP_cons, h0]
      split_ifs <;> omega
  · intro a b c hq ha hb hc
    -- first grant
    obtain ⟨a1, a2, _, a4⟩ := sendBusPacketLoop_send_trace s a [b, c] ha
    have e1 : sendBusPacket s = sendBusPacketLoop s [a, b, c] := by
      rw [sendBusPacket, hq]
    rw [← e1] at a1 a2 a4
    simp only [List.cons_ne_nil, if_false] at a2
    have n1 : (sendBusPacket s).name = s.name := by
      rw [e1]; exact (sendBusPacketLoop_send s a [b, c] ha 0).2.2.2.2.1
    -- second grant
    obtain ⟨b1, b2, _, b4⟩ :=
      sendBusPacketLoop_send_trace (sendBusPacket s) b [c] (a4 _ hb)
    have e2 : sendBusPacket (sendBusPacket s) = sendBusPacketLoop (sendBusPacket s) [b, c] := by
      rw [sendBusPacket, a1]
    rw [← e2] at b1 b2 b4
    simp only [List.cons_ne_nil, if_false] at b2
    have n2 : (sendBusPacket (sendBusPacket s)).name = s.name := by
      rw [e2, (sendBusPacketLoop_send (sendBusPacket s) b [c] (a4 _ hb) 0).2.2.2.2.1, n1]
    -- third grant
    obtain ⟨c1, c2, _, _⟩ :=
      sendBusPacketLoop_send_trace (sendBusPacket (sendBusPacket s)) c [] (b4 _ (a4 _ hc))
    have e3 : sendBusPacket (sendBusPacket (sendBusPacket s)) =
        sendBusPacketLoop (sendBusPacket (sendBusPacket s)) [c] := by
      rw [sendBusPacket, b1]
    rw [← e3] at c1 c2
    simp only [if_true] at c2
    refine ⟨by rw [a2], a1, by rw [b2, a2, n1]; simp, b1, by rw [c2, b2, a2, n1]; simp, c1⟩

/-- Witness for C12: three grants in the state `ctlThree`. -/
theorem sendBusPacket_one_grant_witness :
    (sendBusPacket (sendBusPacket (sendBusPacket ctlThree))).snoop_link =
      ctlThree.snoop_link ++
        [makeResponse "mem" readA, ctlEvent ctlThree.name Command.RequestBus,
         makeResponse "mem" reqDataA, ctlEvent ctlThree.name Command.RequestBus,
         makeResponse "mem" writeWb] ∧
    (sendBusPacket (sendBusPacket (sendBusPacket ctlThree))).busReqs = [] :=
  ((sendBusPacket_one_grant ctlThree).2.2 _ _ _ rfl (by decide) (by decide)
    (by decide)).2.2.2.2

/-- C13: with an empty `busReqs`, a bus grant sends no response, clears the
pending-grant flag and emits a CancelBusRequest, and changes nothing else; after
`n + 1` such grants the controller is in the same state as after one, the bus
trace holding one CancelBusRequest per grant. -/
theorem sendBusPacket_empty (s : MemController) (h : s.busReqs = []) :
    sendBusPacket s =
      { s with snoop_link := s.snoop_link ++ [ctlEvent s.name Command.CancelBusRequest],
               bus_requested := false } ∧
    (sendBusPacket s).snoop_link.countP isResponse = s.snoop_link.countP isResponse ∧
    (sendBusPacket s).requestQueue = s.requestQueue ∧
    (sendBusPacket s).outstandingReadReqs = s.outstandingReadReqs ∧
    (sendBusPacket s).memBuffer = s.memBuffer ∧
    (∀ n, Nat.iterate sendBusPacket (n + 1) s =
      { sendBusPacket s with
          snoop_link := s.snoop_link ++
            List.replicate (n + 1) (ctlEvent s.name Command.CancelBusRequest) }) := by
  have key : ∀ t : MemController, t.busReqs = [] → sendBusPacket t =
      { t with snoop_link := t.snoop_link ++ [ctlEvent t.name Command.CancelBusRequest],
               bus_requested := false } := by
    intro t ht
    have hb : sendBusPacketLoop t [] =
        { t with snoop_link := t.snoop_link ++ [ctlEvent t.name Command.CancelBusRequest],
                 bus_requested := false } := by
      cases t; simp only at ht; subst ht; rfl
    conv_lhs => rw [sendBusPacket, ht]
    exact hb
  refine ⟨key s h, ?_, ?_, ?_, ?_, ?_⟩
  · rw [key s h]; simp [List.countP_append, ctlEvent, isResponse]
  · rw [key s h]
  · rw [key s h]
  · rw [key s h]
  · intro n
    induction n with
    | zero =>
      rw [Function.iterate_succ_apply', Function.iterate_zero_apply, key s h]
      rfl
    | succ n ih =>
      rw [Function.iterate_succ_apply', ih, key _ (by rw [key s h]; exact h), key s h]
      simp [List.replicate_succ' (n + 1)]

/-- Witness for C13: four grants in the idle state `ctl0`. -/
theorem sendBusPacket_empty_witness :
    Nat.iterate sendBusPacket (3 + 1) ctl0 =
      { sendBusPacket ctl0 with
          snoop_link := ctl0.snoop_link ++
            List.replicate (3 + 1) (ctlEvent ctl0.name Command.CancelBusRequest) } :=
  (sendBusPacket_empty ctl0 rfl).2.2.2.2.2 3

/-- A waiter that is sent although it was canceled when the grant arrived has
a SupplyData waiter for the same address before it in the queue. -/
lemma sentWaiter_canceled :
    ∀ (q : List MemEvent) (s : MemController) (k : Nat) (e : MemEvent),
      sentWaiter s q = some (k, e) → isCanceled s e.addr = true →
      ∃ x ∈ q.take k, x.cmd = Command.SupplyData ∧ x.addr = e.addr := by
  intro q
  induction q with
  | nil => intro s k e h; simp [sentWaiter] at h
  | cons ev rest ih =>
    intro s k e h hc
    by_cases hcan : isCanceled { s with busReqs := rest } ev.addr = true
    · simp only [sentWaiter, hcan, Bool.not_true, Bool.false_eq_true, if_false,
        Option.map_eq_some'] at h
      obtain ⟨⟨k2, e2⟩, h1, h2⟩ := h
      simp only [Prod.mk.injEq] at h2
      obtain ⟨hk, he⟩ := h2
      subst hk; subst he
      by_cases hc2 : isCanceled (if ev.cmd = Command.SupplyData then
          eraseOutstanding { s with busReqs := rest } ev.addr
        else { s with busReqs := rest }) e2.addr = true
      · obtain ⟨x, hx, hx2⟩ := ih _ k2 e2 h1 hc2
        exact ⟨x, by rw [List.take_succ_cons]; exact List.mem_cons_of_mem _ hx, hx2⟩
      · refine ⟨ev, by rw [List.take_succ_cons]; exact List.mem_cons_self _ _, ?_⟩
        by_cases hs : ev.cmd = Command.SupplyData
        · refine ⟨hs, ?_⟩
          by_contra hne
          apply hc2
          rw [if_pos hs]
          have h1 : (eraseOutstanding { s with busReqs := rest } ev.addr).outstandingReadReqs
              e2.addr = s.outstandingReadReqs e2.addr := by
            simp [eraseOutstanding, Function.update_noteq (Ne.symm hne)]
          have h2 : (eraseOutstanding { s with busReqs := rest } ev.addr).recs = s.recs := rfl
          simp only [isCanceled, h1, h2] at hc ⊢
          exact hc
        · exfalso
          apply hc2
          rw [if_neg hs]
          exact hc
    · exfalso
      have hcan2 : isCanceled { s with busReqs := rest } ev.addr = false := by simpa using hcan
      simp only [sentWaiter, hcan2, Bool.not_false, if_true, Option.some.injEq,
        Prod.mk.injEq] at h
      obtain ⟨_, he⟩ := h
      subst he
      have : isCanceled s ev.addr = false := hcan2
      rw [this] at hc
      exact Bool.noConfusion hc

/-- When the loop of a grant drops every waiter of the prefix `d` and the entry
for the address of the next waiter `y` is gone by then (it was absent, or a
SupplyData waiter for that address is among those dropped), `y` is sent. -/
lemma sentWaiter_after_drop (y : MemEvent) (rest : List MemEvent) :
    ∀ (d : List MemEvent) (s : MemController),
      (s.outstandingReadReqs y.addr = none ∨
        ∃ x ∈ d, x.cmd = Command.SupplyData ∧ x.addr = y.addr) →
      (∀ j x, sentWaiter s (d ++ y :: rest) = some (j, x) → d.length ≤ j) →
      sentWaiter s (d ++ y :: rest) = some (d.length, y) := by
  intro d
  induction d with
  | nil =>
    intro s h _
    rcases h with h | ⟨x, hx, _⟩
    · have hc : isCanceled { s with busReqs := rest } y.addr = false := by
        simp [isCanceled, h]
      simp [sentWaiter, hc]
    · simp at hx
  | cons z d ih =>
    intro s h hdrop
    by_cases hcan : isCanceled { s with busReqs := d ++ y :: rest } z.addr = true
    · have hsw : sentWaiter s (z :: d ++ y :: rest) =
          (sentWaiter (if z.cmd = Command.SupplyData then
              eraseOutstanding { s with busReqs := d ++ y :: rest } z.addr
            else { s with busReqs := d ++ y :: rest }) (d ++ y :: rest)).map
            (fun p => (p.1 + 1, p.2)) := by
        simp [sentWaiter, hcan]
      rw [hsw]
      have hz : ∃ j, s.outstandingReadReqs z.addr = some j := by
        cases hj : s.outstandingReadReqs z.addr with
        | none =>
          have : isCanceled { s with busReqs := d ++ y :: rest } z.addr = false := by
            simp [isCanceled, hj]
          rw [this] at hcan; exact Bool.noConfusion hcan
        | some j => exact ⟨j, rfl⟩
      have hnext := ih (if z.cmd = Command.SupplyData then
              eraseOutstanding { s with busReqs := d ++ y :: rest } z.addr
            else { s with busReqs := d ++ y :: rest }) ?_ ?_
      · rw [hnext]; rfl
      · rcases h with h | ⟨x, hx, hx1, hx2⟩
        · left
          have hne : y.addr ≠ z.addr := by
            intro he
            obtain ⟨j, hj⟩ := hz
            rw [← he, h] at hj
            cases hj
          split_ifs
          · simp [eraseOutstanding, Function.update_noteq hne, h]
          · exact h
        · rcases List.mem_cons.1 hx with hxz | hxd
          · left
            subst hxz
            rw [if_pos hx1]
            simp [eraseOutstanding, hx2]
          · exact Or.inr ⟨x, hxd, hx1, hx2⟩
      · intro j x hs
        have := hdrop (j + 1) x (by rw [hsw, hs]; rfl)
        simpa using this
    · exfalso
      have hc2 : isCanceled { s with busReqs := d ++ y :: rest } z.addr = false := by
        simpa using hcan
      have := hdrop 0 z (by simp [sentWaiter, hc2])
      simp at this


/-- C14 (amended): a waiter `e` at position `k` of `busReqs` that is canceled when
the grant arrives is not sent during this grant, provided no SupplyData waiter
for the same address stands before it in `busReqs`.  When the loop drops every
waiter before a waiter `y` and one of those dropped is a SupplyData waiter for
the address of `y`, the drop has erased the entry and `y` is sent, canceled
or not when the grant arrived.  Here `sentWaiter` is the waiter `sendBusPacket`
puts on the bus: the waiters up to it are removed and it is appended to the bus
trace. -/
theorem sendBusPacket_canceled_not_sent (s : MemController) :
    (∀ (k : Nat) (e : MemEvent), s.busReqs[k]? = some e → isCanceled s e.addr = true →
      (∀ x ∈ s.busReqs.take k, x.cmd = Command.SupplyData → x.addr ≠ e.addr) →
      sentWaiter s s.busReqs ≠ some (k, e)) ∧
    (∀ (d : List MemEvent) (y : MemEvent) (rest : List MemEvent),
      s.busReqs = d ++ y :: rest →
      (∃ x ∈ d, x.cmd = Command.SupplyData ∧ x.addr = y.addr) →
      (∀ j x, sentWaiter s s.busReqs = some (j, x) → d.length ≤ j) →
      sentWaiter s s.busReqs = some (d.length, y)) ∧
    (∀ j x, sentWaiter s s.busReqs = some (j, x) →
      s.busReqs[j]? = some x ∧
      (sendBusPacket s).busReqs = s.busReqs.drop (j + 1) ∧
      (sendBusPacket s).snoop_link = s.snoop_link ++ x ::
        (if s.busReqs.drop (j + 1) = [] then []
         else [ctlEvent s.name Command.RequestBus])) ∧
    (sentWaiter s s.busReqs = none →
      (sendBusPacket s).snoop_link =
        s.snoop_link ++ [ctlEvent s.name Command.CancelBusRequest]) := by
  obtain ⟨d, _, h⟩ := sendBusPacketLoop_shape s.busReqs s rfl
  refine ⟨?_, ?_, ?_, ?_⟩
  · intro k e _ hc hno hs
    obtain ⟨x, hx, hx1, hx2⟩ := sentWaiter_canceled s.busReqs s k e hs hc
    exact hno x hx hx1 hx2
  · intro d2 y rest hq hx hdrop
    rw [hq] at hdrop ⊢
    exact sentWaiter_after_drop y rest d2 s (Or.inr hx) hdrop
  · intro j x hs
    rcases h with ⟨_, h2, _⟩ | ⟨e2, rest, h1, h2, h3, h4, _⟩
    · rw [h2] at hs; cases hs
    · rw [h2] at hs
      simp only [Option.some.injEq, Prod.mk.injEq] at hs
      obtain ⟨hj, hx⟩ := hs
      subst hj; subst hx
      have hdrop : s.busReqs.drop (d.length + 1) = rest := by
        rw [h1]; simp
      refine ⟨by rw [h1, List.getElem?_append_right (le_refl _)]; simp,
        by rw [hdrop]; exact h3, by rw [hdrop]; exact h4⟩
  · intro hs
    rcases h with ⟨_, _, _, h4, _⟩ | ⟨e2, rest, _, h2, _⟩
    · exact h4
    · rw [h2] at hs; cases hs

/-- Witness for C14 (amended): in `ctlTwoReadsCanceled` two canceled
ReadResponses for `0x100` wait; the second, with the first (no SupplyData)
before it, is not sent.  In `ctlTwoCanceled` the loop drops the first SupplyData
answer for `0x100` and then sends the second. -/
theorem sendBusPacket_canceled_not_sent_witness :
    ctlTwoReadsCanceled.busReqs.map (fun e => (e.cmd, e.addr)) =
      [(Command.ReadResp, 256), (Command.ReadResp, 256)] ∧
    sentWaiter ctlTwoReadsCanceled ctlTwoReadsCanceled.busReqs
      ≠ some (1, { makeResponse "mem" readA2 with payload := [0, 0, 0, 0, 0, 0, 0, 0] }) ∧
    sentWaiter ctlTwoCanceled ctlTwoCanceled.busReqs
      = some ([{ makeResponse "mem" reqDataA with
                   payload := [0, 0, 0, 0, 0, 0, 0, 0] }].length,
              { makeResponse "mem" reqDataA2 with payload := [0, 0, 0, 0, 0, 0, 0, 0] }) :=
  ⟨by decide,
   (sendBusPacket_canceled_not_sent ctlTwoReadsCanceled).1 1
    { makeResponse "mem" readA2 with payload := [0, 0, 0, 0, 0, 0, 0, 0] }
    (by decide) (by decide) (by decide),
   (sendBusPacket_canceled_not_sent ctlTwoCanceled).2.1
    [{ makeResponse "mem" reqDataA with payload := [0, 0, 0, 0, 0, 0, 0, 0] }]
    { makeResponse "mem" reqDataA2 with payload := [0, 0, 0, 0, 0, 0, 0, 0] } []
    (by decide) (by decide)
    (by
      intro j x h
      have hs : sentWaiter ctlTwoCanceled ctlTwoCanceled.busReqs =
          some (1, { makeResponse "mem" reqDataA2 with
                       payload := [0, 0, 0, 0, 0, 0, 0, 0] }) := by decide
      rw [hs] at h
      simp only [Option.some.injEq, Prod.mk.injEq] at h
      rw [← h.1]
      exact le_refl _)⟩

/-- C14 (as stated) fails: in `ctlTwoCanceled` both waiters are SupplyData
answers for `0x100` and the entry for `0x100` has referenceCount 0, so both are
canceled when the grant arrives.  The grant drops the first, which erases the
entry, and then sends the second on the bus. -/
theorem sendBusPacket_sends_canceled_waiter :
    ctlTwoCanceled.busReqs.map (fun e => (e.cmd, e.addr)) =
      [(Command.SupplyData, 256), (Command.SupplyData, 256)] ∧
    ctlTwoCanceled.outstandingReadReqs 256 = some 0 ∧
    (ctlTwoCanceled.recs 0).req_count = 0 ∧
    isCanceled ctlTwoCanceled 256 = true ∧
    (sentWaiter ctlTwoCanceled ctlTwoCanceled.busReqs).map (fun p => p.1) = some 1 ∧
    ctlTwoCanceled.busReqs[1]? =
      some { makeResponse "mem" reqDataA2 with payload := [0, 0, 0, 0, 0, 0, 0, 0] } ∧
    (sendBusPacket ctlTwoCanceled).snoop_link.getLast? =
      some { makeResponse "mem" reqDataA2 with payload := [0, 0, 0, 0, 0, 0, 0, 0] } ∧
    responsesSent ctlTwoCanceled 256 = 0 ∧
    responsesSent (sendBusPacket ctlTwoCanceled) 256 = 1 := by
  decide

/-! ## The fixed-latency tick -/

/-- For an in-range record the write loop stores the payload at the offsets of
the addressed interval and leaves every other byte. -/
lemma writeLoop_eq_storeBytes (s : MemController) (mem : Nat → Nat) (a n : Nat)
    (p : List Nat) (hw : WordSized s) (hin : InRange s a n) :
    writeLoop mem a s.rangeStart p n = storeBytes mem (a - s.rangeStart) p n := by
  funext k
  unfold storeBytes
  by_cases hk : a - s.rangeStart ≤ k ∧ k < a - s.rangeStart + n
  · rw [if_pos hk]
    have hi : k - (a - s.rangeStart) < n := by omega
    have hb := (bufIndex_inRange s a n _ hw hin hi).1
    have hkk : k = bufIndex a s.rangeStart (k - (a - s.rangeStart)) := by rw [hb]; omega
    conv_lhs => rw [hkk]
    apply writeLoop_at _ _ _ _ _ _ _ hi
    intro x y hx hy hxy
    rw [(bufIndex_inRange s a n x hw hin hx).1, (bufIndex_inRange s a n y hw hin hy).1] at hxy
    omega
  · rw [if_neg hk]
    apply writeLoop_frame
    intro i hi hbi
    rw [(bufIndex_inRange s a n i hw hin hi).1] at hbi
    omega

/-- For an in-range record and a response buffer of the size of the record the
read loop returns the bytes at the offsets of the addressed interval. -/
lemma readLoop_eq_loadBytes (s : MemController) (mem : Nat → Nat) (a n : Nat)
    (hw : WordSized s) (hin : InRange s a n) :
    readLoop mem a s.rangeStart (List.replicate n 0) n = loadBytes mem (a - s.rangeStart) n := by
  apply List.ext_getElem
  · rw [readLoop_length]; simp [loadBytes]
  · intro i h1 h2
    have hi : i < n := by simpa [loadBytes] using h2
    have hg := readLoop_getD mem a s.rangeStart (List.replicate n 0) n i (by simp) hi
    rw [List.getD_eq_getElem _ _ h1] at hg
    rw [hg, (bufIndex_inRange s a n i hw hin hi).1]
    simp [loadBytes]

/-- An in-range record is transferred as the specification says. -/
lemma performRequest_eq_transferSpec (s : MemController) (r : DRAMReq) (hw : WordSized s)
    (ha : r.addr < 2 ^ 64) (hin : InRange s r.addr r.size)
    (hsz : r.size = r.reqEvent.size) :
    performRequest s r =
      .ok ({ s with memBuffer := (transferSpec s s.memBuffer r).1 },
           (transferSpec s s.memBuffer r).2) := by
  have ho : outOfRange s r = false := outOfRange_of_inRange s r hw ha hin
  by_cases hW : r.isWrite = true
  · simp only [performRequest, ho, hW, transferSpec, Bool.false_eq_true, if_false, if_true]
    rw [writeLoop_eq_storeBytes s _ _ _ _ hw hin]
  · have hpl : (makeResponse s.name r.reqEvent).payload = List.replicate r.size 0 := by
      rw [hsz]; rfl
    simp only [performRequest, ho, hW, transferSpec, Bool.false_eq_true, if_false]
    rw [hpl, readLoop_eq_loadBytes s _ _ _ hw hin]

/-- The loop of the fixed-latency tick is the fold of the specification. -/
lemma clockImmediateLoop_eq_fold (s : MemController) (hw : WordSized s) :
    ∀ (q : List Nat) (t : MemController), t.recs = s.recs → t.name = s.name →
      t.rangeStart = s.rangeStart → t.memSize = s.memSize →
      (∀ id ∈ q, (s.recs id).req_count > 0 → Servable s id) →
      clockImmediateLoop t q =
        .ok { t with memBuffer := (immediateFold s q (t.memBuffer, t.self_link)).1,
                     self_link := (immediateFold s q (t.memBuffer, t.self_link)).2,
                     requestQueue := [] } := by
  intro q
  induction q with
  | nil => intro t _ _ _ _ _; rfl
  | cons id rest ih =>
    intro t h1 h2 h3 h4 hq
    have hrest : ∀ i ∈ rest, (s.recs i).req_count > 0 → Servable s i :=
      fun i hi => hq i (List.mem_cons_of_mem _ hi)
    by_cases hc : (s.recs id).req_count > 0
    · obtain ⟨hin, ha, hn, hsz, _⟩ := hq id (List.mem_cons_self _ _) hc
      have hwt : WordSized t := by simpa [WordSized, h3, h4] using hw
      have hint : InRange t (t.recs id).addr (t.recs id).size := by
        rw [h1]; simpa [InRange, h3, h4] using hin
      have hts : ∀ m r, transferSpec t m r = transferSpec s m r := by
        intro m r; simp only [transferSpec, h2, h3]
      have hp := performRequest_eq_transferSpec t (t.recs id) hwt (by rw [h1]; exact ha) hint
        (by rw [h1]; exact hsz)
      rw [hts] at hp
      have hcmd : (transferSpec s t.memBuffer (t.recs id)).2.cmd ≠ Command.NULLCMD := by
        rw [h1]
        unfold transferSpec
        split_ifs <;> simpa [makeResponse] using hn
      rw [clockImmediateLoop_cons_ok t _ id rest _ (by rw [h1]; exact hc) hp hcmd]
      refine (ih _ ?_ ?_ ?_ ?_ hrest).trans ?_
      · exact h1
      · exact h2
      · exact h3
      · exact h4
      · simp [immediateFold, hc, h1]
    · have hsk : clockImmediateLoop t (id :: rest) =
          clockImmediateLoop { t with requestQueue := rest } rest := by
        conv_lhs => unfold clockImmediateLoop
        rw [h1, if_neg hc]
      rw [hsk]
      refine (ih _ ?_ ?_ ?_ ?_ hrest).trans ?_
      · exact h1
      · exact h2
      · exact h3
      · exact h4
      · simp [immediateFold, hc]

lemma transferSpec_header (s : MemController) (m : Nat → Nat) (r : DRAMReq) :
    header (transferSpec s m r).2 = header (makeResponse s.name r.reqEvent) := by
  unfold transferSpec
  split_ifs <;> rfl

/-- The fold emits one response per live record, in queue order, after the
responses already in flight. -/
lemma immediateFold_headers (s : MemController) :
    ∀ (q : List Nat) (acc : (Nat → Nat) × List MemEvent),
      (immediateFold s q acc).2.map header =
        acc.2.map header ++
          (q.filter (fun id => decide ((s.recs id).req_count > 0))).map
            (fun id => header (makeResponse s.name (s.recs id).reqEvent)) := by
  intro q
  induction q with
  | nil => intro acc; simp [immediateFold]
  | cons id rest ih =>
    intro acc
    have hstep : immediateFold s (id :: rest) acc =
        immediateFold s rest
          (if (s.recs id).req_count > 0 then
            ((transferSpec s acc.1 (s.recs id)).1,
              acc.2 ++ [(transferSpec s acc.1 (s.recs id)).2])
           else acc) := rfl
    rw [hstep, ih]
    by_cases hc : (s.recs id).req_count > 0
    · simp [hc, transferSpec_header]
    · simp [hc]

/-- C15: in Immediate mode, with no deleted record in `requestQueue` and every
queued record of positive referenceCount servable (in range, built from a
request that has a response, payload and response buffer of the size of the
record), one clock tick leaves `requestQueue` empty and equals the fold over the
old queue in admission order: a record with `referenceCount > 0` has its
transfer performed against the store and one response emitted, any other record
is discarded.  Responses are emitted in admission order, and the bytes of the
last-admitted write of positive referenceCount hold its payload whatever the
writes before it stored. -/
theorem clock_immediate_fold (s : MemController) (b : Backend)
    (hmode : s.use_dramsim = false) (hw : WordSized s)
    (_hlive : ∀ id ∈ s.requestQueue, id ∉ s.freed)
    (hq : ∀ id ∈ s.requestQueue, (s.recs id).req_count > 0 → Servable s id) :
    clock s b =
      .ok { s with
              memBuffer := (immediateFold s s.requestQueue (s.memBuffer, s.self_link)).1,
              self_link := (immediateFold s s.requestQueue (s.memBuffer, s.self_link)).2,
              requestQueue := [] } ∧
    (immediateFold s s.requestQueue (s.memBuffer, s.self_link)).2.map header =
      s.self_link.map header ++
        (s.requestQueue.filter (fun id => decide ((s.recs id).req_count > 0))).map
          (fun id => header (makeResponse s.name (s.recs id).reqEvent)) ∧
    (∀ pre w, s.requestQueue = pre ++ [w] → (s.recs w).req_count > 0 →
      (s.recs w).isWrite = true → ∀ i, i < (s.recs w).size →
      (immediateFold s s.requestQueue (s.memBuffer, s.self_link)).1
          ((s.recs w).addr - s.rangeStart + i)
        = (s.recs w).reqEvent.payload.getD i 0) := by
  refine ⟨?_, immediateFold_headers s _ _, ?_⟩
  · have hcl : clock s b = clockImmediate s := by
      unfold clock
      rw [if_neg (by rw [hmode]; exact Bool.false_ne_true)]
    rw [hcl, clockImmediate, clockImmediateLoop_eq_fold s hw s.requestQueue s rfl rfl rfl rfl hq]
  · intro pre w hpre hc hW i hi
    have hfold : immediateFold s (pre ++ [w]) (s.memBuffer, s.self_link) =
        ((transferSpec s (immediateFold s pre (s.memBuffer, s.self_link)).1 (s.recs w)).1,
         (immediateFold s pre (s.memBuffer, s.self_link)).2 ++
           [(transferSpec s (immediateFold s pre (s.memBuffer, s.self_link)).1 (s.recs w)).2]) := by
      simp [immediateFold, List.foldl_append, hc]
    rw [hpre, hfold]
    simp only [transferSpec, hW, if_true, storeBytes]
    rw [if_pos (by omega)]
    congr 1
    omega

/-- Witness for C15: the tick over the two overlapping writes of
`ctlTwoWrites`; byte `0x104` holds the first payload byte of the later write. -/
theorem clock_immediate_fold_witness :
    clock ctlTwoWrites acceptAll =
      .ok { ctlTwoWrites with
              memBuffer := (immediateFold ctlTwoWrites ctlTwoWrites.requestQueue
                (ctlTwoWrites.memBuffer, ctlTwoWrites.self_link)).1,
              self_link := (immediateFold ctlTwoWrites ctlTwoWrites.requestQueue
                (ctlTwoWrites.memBuffer, ctlTwoWrites.self_link)).2,
              requestQueue := [] } ∧
    (immediateFold ctlTwoWrites ctlTwoWrites.requestQueue
        (ctlTwoWrites.memBuffer, ctlTwoWrites.self_link)).1 260 = 21 :=
  ⟨(clock_immediate_fold ctlTwoWrites acceptAll rfl (by decide) (by decide) (by decide)).1,
   (clock_immediate_fold ctlTwoWrites acceptAll rfl (by decide) (by decide)
      (by decide)).2.2
      [0] 1 (by decide) (by decide) (by decide) 0 (by decide)⟩

/-! ## Beat addresses -/

/-- The mask keeps bits 6 to 31 of a word. -/
lemma land_busMask (x : Nat) : Nat.land x busMask = x % 2 ^ 32 / 64 * 64 := by
  have hm : busMask = 2 ^ 6 * (2 ^ 26 - 1) := by decide
  have hr : x % 2 ^ 32 / 64 * 64 = 2 ^ 6 * ((x % 2 ^ 32) >>> 6) := by
    rw [Nat.shiftRight_eq_div_pow, Nat.mul_comm]
    norm_num
  show x &&& busMask = _
  rw [hm, hr]
  apply Nat.eq_of_testBit_eq
  intro i
  simp only [Nat.testBit_and, Nat.testBit_mul_pow_two, Nat.testBit_two_pow_sub_one,
    Nat.testBit_shiftRight, Nat.testBit_mod_two_pow]
  by_cases h6 : i ≥ 6
  · have : 6 + (i - 6) = i := by omega
    rw [this]
    by_cases h32 : i < 32
    · have h26 : i - 6 < 26 := by omega
      simp [h6, h32, h26]
    · have h26 : ¬ i - 6 < 26 := by omega
      simp [h6, h32, h26]
  · simp [h6]

/-- Below `2 ^ 32` the beat address is the address rounded down to the beat. -/
lemma beatAddr_low (a k : Nat) (h : a + k < 2 ^ 32) :
    beatAddr a k = (a + k) / 64 * 64 := by
  have h64 : (a + k) % 2 ^ 64 = a + k := Nat.mod_eq_of_lt (lt_trans h (by norm_num))
  rw [beatAddr, land_busMask, add64, h64, Nat.mod_eq_of_lt h]

/-- C19: the beat address loses the address bits from `2^32` upwards.  For the
request address `2^32` and nothing issued yet the tick computes beat 0, not
`2^32`; for address `2^32 + 200` and 64 bytes issued it computes `0x100`, not
`2^32 + 0x100`. -/
theorem beatAddr_drops_high_bits :
    beatAddr (2 ^ 32) 0 = 0 ∧ (2 ^ 32 + 0) / 64 * 64 = 2 ^ 32 ∧
    beatAddr (2 ^ 32 + 200) 64 = 256 ∧ (2 ^ 32 + 200 + 64) / 64 * 64 = 2 ^ 32 + 256 ∧
    busMask = 4294967232 := by
  decide

/-! ## Construction -/

/-- The product `ramSize * (1024*1024)` is taken in 32 bits: `mem_size = 4096`
gives an empty store, `mem_size = 4097` a store of 1 MB.  With `mem_size = 4096`
the mapping of 0 bytes fails, and the controller is constructed all the same. -/
lemma construct_mem_size_wraps :
    (construct envPlain { mem_size := 4096 }).toOption.map (fun s => s.memSize) = some 0 ∧
    (construct envPlain { mem_size := 4097 }).toOption.map (fun s => s.memSize)
      = some 1048576 ∧
    (construct envMapFailed { mem_size := 4096 }).toOption.map (fun s => s.memSize)
      = some 0 ∧
    ¬ otherConfigError envMapFailed { mem_size := 4096 } := by
  decide

/-! ## The DRAMSim tick: termination of the issue loop -/

/-- The fuel of a non-empty queue. -/
lemma stagedFuel_cons (s : MemController) (id : Nat) (rest : List Nat)
    (hq : s.requestQueue = id :: rest) :
    stagedFuel s =
      1 + ((s.recs id).size - (s.recs id).amt_in_process + 63) / 64 +
        (rest.map (fun i =>
          1 + ((s.recs i).size - (s.recs i).amt_in_process + 63) / 64)).sum := by
  simp [stagedFuel, hq]

/-- Advancing record `id` does not raise the fuel of a queue. -/
lemma fuel_rest_le (s : MemController) (id : Nat) (r : DRAMReq) (rest : List Nat)
    (hs : r.size = (s.recs id).size)
    (ha : (s.recs id).amt_in_process ≤ r.amt_in_process) :
    (rest.map (fun i =>
        1 + (((Function.update s.recs id r) i).size -
            ((Function.update s.recs id r) i).amt_in_process + 63) / 64)).sum ≤
      (rest.map (fun i =>
        1 + ((s.recs i).size - (s.recs i).amt_in_process + 63) / 64)).sum := by
  apply List.sum_le_sum
  intro i _
  by_cases h : i = id
  · subst h
    simp only [Function.update_same, hs]
    omega
  · simp only [Function.update_noteq h]
    exact le_refl _

/-- Popping the head lowers the fuel. -/
lemma stagedFuel_pop (s t : MemController) (id : Nat) (rest : List Nat)
    (hq : s.requestQueue = id :: rest) (h1 : t.requestQueue = rest)
    (h2 : t.recs = s.recs) : stagedFuel t + 1 ≤ stagedFuel s := by
  rw [stagedFuel_cons s id rest hq]
  simp only [stagedFuel, h1, h2]
  omega

/-- Issuing the last beat of the head and popping it lowers the fuel. -/
lemma stagedFuel_issue_pop (s t : MemController) (id : Nat) (r : DRAMReq)
    (rest : List Nat) (hq : s.requestQueue = id :: rest)
    (hs : r.size = (s.recs id).size)
    (ha : (s.recs id).amt_in_process ≤ r.amt_in_process)
    (h1 : t.requestQueue = rest) (h2 : t.recs = Function.update s.recs id r) :
    stagedFuel t + 1 ≤ stagedFuel s := by
  rw [stagedFuel_cons s id rest hq]
  have := fuel_rest_le s id r rest hs ha
  simp only [stagedFuel, h1, h2]
  omega

/-- Issuing a beat of the head that is not its last lowers the fuel. -/
lemma stagedFuel_issue_stay (s t : MemController) (id : Nat) (r : DRAMReq)
    (rest : List Nat) (hq : s.requestQueue = id :: rest)
    (hs : r.size = (s.recs id).size)
    (ha : r.amt_in_process = (s.recs id).amt_in_process + 64)
    (hlt : r.amt_in_process < r.size)
    (h1 : t.requestQueue = id :: rest) (h2 : t.recs = Function.update s.recs id r) :
    stagedFuel t + 1 ≤ stagedFuel s := by
  rw [stagedFuel_cons s id rest hq]
  have := fuel_rest_le s id r rest hs (by omega)
  simp only [stagedFuel, h1, h2, List.map_cons, List.sum_cons, Function.update_same]
  rw [hs] at hlt ⊢
  omega

/-- With the fuel of `stagedFuel` the loop ends by itself: one more unit of
fuel changes nothing. -/
lemma clockStagedLoop_succ_fuel (b : Backend) :
    ∀ (fuel k : Nat) (s : MemController), stagedFuel s ≤ fuel →
      clockStagedLoop b (fuel + 1) k s = clockStagedLoop b fuel k s := by
  intro fuel
  induction fuel with
  | zero =>
    intro k s h
    cases hq : s.requestQueue with
    | nil => simp [clockStagedLoop, hq]
    | cons id rest =>
      rw [stagedFuel_cons s id rest hq] at h
      omega
  | succ fuel ih =>
    intro k s h
    cases hq : s.requestQueue with
    | nil => simp [clockStagedLoop, hq]
    | cons id rest =>
      rw [clockStagedLoop, clockStagedLoop]
      simp only [hq]
      split_ifs with hc h0 h1 h2 h3
      · apply ih
        refine Nat.le_of_succ_le_succ (le_trans (stagedFuel_pop s _ id rest hq ?_ ?_) h) <;> rfl
      · apply ih
        refine Nat.le_of_succ_le_succ (le_trans (stagedFuel_pop s _ id rest hq ?_ ?_) h) <;> rfl
      · rfl
      · rfl
      · apply ih
        refine Nat.le_of_succ_le_succ
          (le_trans (stagedFuel_issue_pop s _ id
            { s.recs id with
              amt_in_process := (s.recs id).amt_in_process + JEDEC_DATA_BUS_BITS_local }
            rest hq ?_ ?_ ?_ ?_) h)
        · rfl
        · exact Nat.le_add_right _ _
        · rfl
        · rfl
      · apply ih
        refine Nat.le_of_succ_le_succ
          (le_trans (stagedFuel_issue_stay s _ id
            { s.recs id with
              amt_in_process := (s.recs id).amt_in_process + JEDEC_DATA_BUS_BITS_local }
            rest hq ?_ ?_ ?_ ?_ ?_) h)
        · rfl
        · rfl
        · simpa using h3
        · rfl
        · rfl

/-- `clockStaged` does not depend on fuel beyond `stagedFuel`. -/
lemma clockStagedLoop_add_fuel (b : Backend) (s : MemController) (k n : Nat) :
    clockStagedLoop b (stagedFuel s + n) k s = clockStagedLoop b (stagedFuel s) k s := by
  induction n with
  | zero => rfl
  | succ n ih =>
    rw [← Nat.add_assoc, clockStagedLoop_succ_fuel b _ k s (Nat.le_add_right _ _), ih]

/-! ## The DRAMSim path: bookkeeping invariant -/

lemma StagedInv.congr {s t : MemController} (h : StagedInv s) (hc : core t = core s)
    (ha : ∀ id, amts (t.recs id) = amts (s.recs id)) : StagedInv t := by
  simp only [core, Prod.mk.injEq] at hc
  obtain ⟨c1, c2, c3, c4, c5⟩ := hc
  have a1 : ∀ id, (t.recs id).amt_in_process = (s.recs id).amt_in_process :=
    fun id => congrArg (fun x => x.1) (ha id)
  have a2 : ∀ id, (t.recs id).amt_processed = (s.recs id).amt_processed :=
    fun id => congrArg (fun x => x.2.1) (ha id)
  have a3 : ∀ id, (t.recs id).size = (s.recs id).size :=
    fun id => congrArg (fun x => x.2.2) (ha id)
  obtain ⟨h1, h2, h3, h4, h5, h6, h7⟩ := h
  refine ⟨by rw [c5]; exact h1, by rw [c1]; exact h2, by rw [c1, c2]; exact h3,
    by rw [c3, c2]; exact h4, by rw [c4]; exact h5, ?_, ?_⟩
  · intro id hid
    rw [a1, a3]
    exact h6 id (by rw [← c1]; exact hid)
  · intro id hid
    have := h7 id (by rw [← c2]; exact hid)
    simp only [RecInv, occ, a1, a2, a3, c3] at this ⊢
    exact this

lemma StagedInv.of_init {s : MemController} (h : StagedInit s) : StagedInv s := by
  obtain ⟨h1, h2, h3, h4, h5, _⟩ := h
  refine ⟨h1, by rw [h2]; exact List.nodup_nil, by rw [h2]; simp, by rw [h3]; simp, h4,
    by rw [h2]; simp, ?_⟩
  intro id hid
  omega

/-- `sendResponse` touches neither the records nor the DRAMSim bookkeeping. -/
lemma sendResponse_core (s : MemController) (ev : Option MemEvent) :
    core (sendResponse s ev) = core s ∧ (sendResponse s ev).recs = s.recs := by
  cases ev <;> by_cases hb : s.bus_requested = true <;> simp [sendResponse, hb, core]

/-- `sendBusPacket` touches neither the records nor the DRAMSim bookkeeping. -/
lemma sendBusPacketLoop_core :
    ∀ (q : List MemEvent) (s : MemController),
      core (sendBusPacketLoop s q) = core s ∧ (sendBusPacketLoop s q).recs = s.recs := by
  intro q
  induction q with
  | nil => intro s; exact ⟨rfl, rfl⟩
  | cons e rest ih =>
    intro s
    unfold sendBusPacketLoop
    simp only
    split_ifs with h1 h2 h3 h4
    · exact ⟨by rw [show core (eraseOutstanding _ e.addr) = core (sendResponse _ none) from rfl,
        (sendResponse_core _ none).1]; rfl,
        by rw [show (eraseOutstanding _ e.addr).recs = (sendResponse _ none).recs from rfl,
        (sendResponse_core _ none).2]⟩
    · exact ⟨rfl, rfl⟩
    · exact ⟨by rw [(sendResponse_core _ none).1]; rfl, by rw [(sendResponse_core _ none).2]⟩
    · exact ⟨rfl, rfl⟩
    · obtain ⟨i1, i2⟩ := ih (eraseOutstanding { s with busReqs := rest } e.addr)
      exact ⟨by rw [i1]; rfl, by rw [i2]; rfl⟩
    · obtain ⟨i1, i2⟩ := ih { s with busReqs := rest }
      exact ⟨by rw [i1]; rfl, by rw [i2]⟩

/-- `cancelEvent` changes a `req_count` only. -/
lemma cancelEvent_core (s : MemController) (ev : MemEvent) :
    core (cancelEvent s ev) = core s ∧
    ∀ id, amts ((cancelEvent s ev).recs id) = amts (s.recs id) := by
  unfold cancelEvent
  cases hj : s.outstandingReadReqs ev.addr with
  | none => exact ⟨rfl, fun _ => rfl⟩
  | some j =>
    simp only
    split_ifs
    · refine ⟨rfl, fun id => ?_⟩
      by_cases hid : id = j
      · subst hid; simp [amts]
      · simp [Function.update_noteq hid]
    · exact ⟨rfl, fun _ => rfl⟩

/-- `addRequest` allocates the record `nextReq`, with no progress, and pushes
it; the counters of the other records are untouched. -/
lemma addRequest_core (s : MemController) (ev : MemEvent) :
    (addRequest s ev).requestQueue = s.requestQueue ++ [s.nextReq] ∧
    (addRequest s ev).nextReq = s.nextReq + 1 ∧
    (addRequest s ev).dramReadReqs = s.dramReadReqs ∧
    (addRequest s ev).dramWriteReqs = s.dramWriteReqs ∧
    (addRequest s ev).use_dramsim = s.use_dramsim ∧
    amts ((addRequest s ev).recs s.nextReq) = (0, 0, ev.size) ∧
    ∀ id, id ≠ s.nextReq → amts ((addRequest s ev).recs id) = amts (s.recs id) := by
  unfold addRequest
  simp only
  split_ifs with hW
  · refine ⟨rfl, rfl, rfl, rfl, rfl, by simp [amts, DRAMReq.ofEvent], ?_⟩
    intro id hid
    simp [Function.update_noteq hid]
  · cases hj : s.outstandingReadReqs ev.addr with
    | none =>
      refine ⟨rfl, rfl, rfl, rfl, rfl, by simp [amts, DRAMReq.ofEvent], ?_⟩
      intro id hid
      simp [Function.update_noteq hid]
    | some j =>
      refine ⟨rfl, rfl, rfl, rfl, rfl, ?_, ?_⟩
      · by_cases hjn : j = s.nextReq
        · subst hjn; simp [amts, DRAMReq.ofEvent]
        · simp [amts, DRAMReq.ofEvent, Function.update_noteq (Ne.symm hjn)]
      · intro id hid
        by_cases hjn : id = j
        · subst hjn; simp [amts, Function.update_noteq hid]
        · simp [Function.update_noteq hjn, Function.update_noteq hid]

/-- Admission keeps the invariant. -/
lemma addRequest_stagedInv (s : MemController) (ev : MemEvent) (h : StagedInv s) :
    StagedInv (addRequest s ev) := by
  obtain ⟨b1, b2, b3, b4, b5, b6, b7⟩ := addRequest_core s ev
  obtain ⟨h1, h2, h3, h4, h5, h6, h7⟩ := h
  have a1 : ∀ id, id ≠ s.nextReq →
      ((addRequest s ev).recs id).amt_in_process = (s.recs id).amt_in_process :=
    fun id hid => congrArg (fun x => x.1) (b7 id hid)
  have a2 : ∀ id, id ≠ s.nextReq →
      ((addRequest s ev).recs id).amt_processed = (s.recs id).amt_processed :=
    fun id hid => congrArg (fun x => x.2.1) (b7 id hid)
  have a3 : ∀ id, id ≠ s.nextReq →
      ((addRequest s ev).recs id).size = (s.recs id).size :=
    fun id hid => congrArg (fun x => x.2.2) (b7 id hid)
  have n1 : ((addRequest s ev).recs s.nextReq).amt_in_process = 0 :=
    congrArg (fun x => x.1) b6
  have n2 : ((addRequest s ev).recs s.nextReq).amt_processed = 0 :=
    congrArg (fun x => x.2.1) b6
  refine ⟨by rw [b5]; exact h1, ?_, ?_, ?_, by rw [b4]; exact h5, ?_, ?_⟩
  · rw [b1]
    apply List.Nodup.append h2 (List.nodup_singleton _)
    intro x hx hx2
    rw [List.mem_singleton] at hx2
    have := h3 x hx
    omega
  · intro id hid
    rw [b1] at hid
    rw [b2]
    rcases List.mem_append.mp hid with hid | hid
    · have := h3 id hid; omega
    · rw [List.mem_singleton] at hid; omega
  · intro p hp
    rw [b3] at hp
    rw [b2]
    have := h4 p hp; omega
  · intro id hid
    rw [b1] at hid
    rcases List.mem_append.mp hid with hid | hid
    · have hne : id ≠ s.nextReq := Nat.ne_of_lt (h3 id hid)
      rw [a1 id hne, a3 id hne]
      exact h6 id hid
    · rw [List.mem_singleton] at hid
      rw [hid]
      exact Or.inl n1
  · intro id hid
    rw [b2] at hid
    by_cases hne : id = s.nextReq
    · rw [hne]
      have hocc : occ (addRequest s ev) s.nextReq = 0 := by
        simp only [occ, b3, List.countP_eq_zero, beq_iff_eq]
        intro p hp hp2
        have := h4 p hp
        omega
      refine ⟨?_, ?_, Or.inl ?_⟩
      · rw [n1, n2, hocc]
      · rw [n1]; exact dvd_zero _
      · rw [n1]; omega
    · have := h7 id (by omega)
      simp only [RecInv, occ, a1 id hne, a2 id hne, a3 id hne, b3] at this ⊢
      exact this

/-- Handling a bus message keeps the invariant. -/
lemma handleEvent_stagedInv (s : MemController) (ev : MemEvent) (h : StagedInv s) :
    StagedInv (handleEvent s ev) := by
  have hcan := h.congr (cancelEvent_core s ev).1 (cancelEvent_core s ev).2
  have hadd := addRequest_stagedInv s ev h
  have hbus : StagedInv (sendBusPacket s) :=
    h.congr (sendBusPacketLoop_core s.busReqs s).1
      (fun id => by rw [sendBusPacket, (sendBusPacketLoop_core s.busReqs s).2])
  unfold handleEvent
  cases ev.cmd <;> simp only <;> (try split_ifs) <;>
    first | exact h | exact hcan | exact hadd | exact hbus


/-- Popping the head without issuing keeps the invariant. -/
lemma StagedInv.pop {s t : MemController} (h : StagedInv s) (id : Nat) (rest : List Nat)
    (hq : s.requestQueue = id :: rest) (t1 : t.requestQueue = rest)
    (t2 : t.nextReq = s.nextReq) (t3 : t.dramReadReqs = s.dramReadReqs)
    (t4 : t.dramWriteReqs = s.dramWriteReqs) (t5 : t.use_dramsim = s.use_dramsim)
    (t6 : t.recs = s.recs) : StagedInv t := by
  obtain ⟨h1, h2, h3, h4, h5, h6, h7⟩ := h
  rw [hq] at h2 h3 h6
  refine ⟨by rw [t5]; exact h1, by rw [t1]; exact (List.nodup_cons.mp h2).2, ?_,
    by rw [t3, t2]; exact h4, by rw [t4]; exact h5, ?_, ?_⟩
  · intro i hi
    rw [t1] at hi; rw [t2]
    exact h3 i (List.mem_cons_of_mem _ hi)
  · intro i hi
    rw [t1] at hi; rw [t6]
    exact h6 i (List.mem_cons_of_mem _ hi)
  · intro i hi
    rw [t2] at hi
    have := h7 i hi
    simp only [RecInv, occ, t3, t6] at this ⊢
    exact this

/-- Issuing one beat for the head record keeps the invariant, whether the record
is then popped (fully issued) or stays at the head. -/
lemma StagedInv.issue {s t : MemController} (h : StagedInv s) (id : Nat) (rest : List Nat)
    (r : DRAMReq) (addr : Nat)
    (hq : s.requestQueue = id :: rest)
    (r1 : r.amt_in_process = (s.recs id).amt_in_process + 64)
    (r2 : r.amt_processed = (s.recs id).amt_processed)
    (r3 : r.size = (s.recs id).size)
    (t1 : (t.requestQueue = rest ∧ r.size ≤ r.amt_in_process) ∨
          (t.requestQueue = id :: rest ∧ r.amt_in_process < r.size))
    (t2 : t.nextReq = s.nextReq) (t3 : t.dramReadReqs = s.dramReadReqs ++ [(addr, id)])
    (t4 : t.dramWriteReqs = s.dramWriteReqs) (t5 : t.use_dramsim = s.use_dramsim)
    (t6 : t.recs = Function.update s.recs id r) : StagedInv t := by
  obtain ⟨h1, h2, h3, h4, h5, h6, h7⟩ := h
  rw [hq] at h2 h3 h6
  obtain ⟨hnot, hnd⟩ := List.nodup_cons.mp h2
  have hidlt : id < s.nextReq := h3 id (List.mem_cons_self _ _)
  have hrest : ∀ i ∈ rest, i ≠ id := fun i hi hc => hnot (hc ▸ hi)
  refine ⟨by rw [t5]; exact h1, ?_, ?_, ?_, by rw [t4]; exact h5, ?_, ?_⟩
  · rcases t1 with ⟨t1, _⟩ | ⟨t1, _⟩
    · rw [t1]; exact hnd
    · rw [t1]; exact h2
  · intro i hi
    rw [t2]
    rcases t1 with ⟨t1, _⟩ | ⟨t1, _⟩
    · rw [t1] at hi; exact h3 i (List.mem_cons_of_mem _ hi)
    · rw [t1] at hi; exact h3 i hi
  · intro p hp
    rw [t3] at hp; rw [t2]
    rcases List.mem_append.mp hp with hp | hp
    · exact h4 p hp
    · rw [List.mem_singleton] at hp; rw [hp]; exact hidlt
  · intro i hi
    rw [t6]
    have hin_rest : i ∈ rest → ((Function.update s.recs id r) i).amt_in_process = 0 ∨
        ((Function.update s.recs id r) i).amt_in_process
          < ((Function.update s.recs id r) i).size := by
      intro hi2
      rw [Function.update_noteq (hrest i hi2)]
      exact h6 i (List.mem_cons_of_mem _ hi2)
    rcases t1 with ⟨t1, _⟩ | ⟨t1, hlt⟩
    · rw [t1] at hi; exact hin_rest hi
    · rw [t1] at hi
      rcases List.mem_cons.mp hi with hi | hi
      · rw [hi, Function.update_same]; exact Or.inr hlt
      · exact hin_rest hi
  · intro i hi
    rw [t2] at hi
    obtain ⟨g1, g2, g3⟩ := h7 i hi
    by_cases hid : i = id
    · subst hid
      have hocc : occ t i = occ s i + 1 := by
        simp [occ, t3, List.countP_append, List.countP_cons]
      have hhead := h6 i (List.mem_cons_self _ _)
      simp only [RecInv, t6, Function.update_same, hocc, r1, r2, r3]
      refine ⟨by omega, by omega, ?_⟩
      rcases hhead with h0 | hlt
      · right; omega
      · left; omega
    · have hocc : occ t i = occ s i := by
        simp [occ, t3, List.countP_append, List.countP_cons, Ne.symm hid]
      simp only [RecInv, t6, Function.update_noteq hid, hocc]
      exact ⟨g1, g2, g3⟩

/-- The request loop of the DRAMSim tick keeps the invariant. -/
lemma clockStagedLoop_stagedInv (b : Backend) :
    ∀ (fuel k : Nat) (s : MemController), StagedInv s →
      StagedInv (clockStagedLoop b fuel k s) := by
  intro fuel
  induction fuel with
  | zero => intro k s h; exact h
  | succ fuel ih =>
    intro k s h
    cases hq : s.requestQueue with
    | nil => simpa [clockStagedLoop, hq] using h
    | cons id rest =>
      rw [clockStagedLoop]
      simp only [hq]
      split_ifs with hc h0 h1 h2 h3
      · apply ih
        refine h.pop id rest hq ?_ ?_ ?_ ?_ ?_ ?_ <;> rfl
      · apply ih
        refine h.pop id rest hq ?_ ?_ ?_ ?_ ?_ ?_ <;> rfl
      · exact h
      · exact h
      · apply ih
        refine h.issue id rest
          { s.recs id with
              amt_in_process := (s.recs id).amt_in_process + JEDEC_DATA_BUS_BITS_local }
          (beatAddr (s.recs id).addr (s.recs id).amt_in_process)
          hq ?_ ?_ ?_ (Or.inl ⟨?_, ?_⟩) ?_ ?_ ?_ ?_ ?_
        · rfl
        · rfl
        · rfl
        · rfl
        · exact h3
        · rfl
        · rfl
        · rfl
        · rfl
        · rfl
      · apply ih
        refine h.issue id rest
          { s.recs id with
              amt_in_process := (s.recs id).amt_in_process + JEDEC_DATA_BUS_BITS_local }
          (beatAddr (s.recs id).addr (s.recs id).amt_in_process)
          hq ?_ ?_ ?_ (Or.inr ⟨?_, ?_⟩) ?_ ?_ ?_ ?_ ?_
        · rfl
        · rfl
        · rfl
        · rfl
        · simpa using h3
        · rfl
        · rfl
        · rfl
        · rfl
        · rfl

/-- Across the request loop of the DRAMSim tick no counter decreases: the issued
amounts grow, the completed amounts and the sizes stay. -/
lemma clockStagedLoop_counters (b : Backend) :
    ∀ (fuel k : Nat) (s t : MemController), clockStagedLoop b fuel k s = t → ∀ i : Nat,
      (s.recs i).amt_in_process ≤ (t.recs i).amt_in_process ∧
      (t.recs i).amt_processed = (s.recs i).amt_processed ∧
      (t.recs i).size = (s.recs i).size := by
  intro fuel
  induction fuel with
  | zero => intro k s t h i; rw [← h]; exact ⟨le_refl _, rfl, rfl⟩
  | succ fuel ih =>
    intro k s t h i
    cases hq : s.requestQueue with
    | nil =>
      have : t = s := by rw [← h]; simp [clockStagedLoop, hq]
      rw [this]; exact ⟨le_refl _, rfl, rfl⟩
    | cons id rest =>
      have hupd : ∀ j,
          (s.recs j).amt_in_process ≤
            ((Function.update s.recs id
              { s.recs id with
                  amt_in_process := (s.recs id).amt_in_process + JEDEC_DATA_BUS_BITS_local })
              j).amt_in_process ∧
          ((Function.update s.recs id
              { s.recs id with
                  amt_in_process := (s.recs id).amt_in_process + JEDEC_DATA_BUS_BITS_local })
              j).amt_processed = (s.recs j).amt_processed ∧
          ((Function.update s.recs id
              { s.recs id with
                  amt_in_process := (s.recs id).amt_in_process + JEDEC_DATA_BUS_BITS_local })
              j).size = (s.recs j).size := by
        intro j
        by_cases hj : j = id
        · subst hj; simp
        · simp [Function.update_noteq hj]
      rw [clockStagedLoop] at h
      simp only [hq] at h
      split_ifs at h with hc h0 h1 h2 h3
      · exact ih _ _ _ h i
      · exact ih _ _ _ h i
      · rw [← h]; exact ⟨le_refl _, rfl, rfl⟩
      · rw [← h]; exact ⟨le_refl _, rfl, rfl⟩
      · obtain ⟨i1, i2, i3⟩ := ih _ _ _ h i
        obtain ⟨u1, u2, u3⟩ := hupd i
        exact ⟨le_trans u1 i1, i2.trans u2, i3.trans u3⟩
      · obtain ⟨i1, i2, i3⟩ := ih _ _ _ h i
        obtain ⟨u1, u2, u3⟩ := hupd i
        exact ⟨le_trans u1 i1, i2.trans u2, i3.trans u3⟩

/-- Finalizing a record in a completion callback: an abort, or a state with the
same records and bookkeeping. -/
lemma readDone_finalize (s1 : MemController) (r1 : DRAMReq) (rest : List Nat) :
    (∃ e, (match performRequest s1 r1 with
            | .error e => Except.error e
            | .ok (s2, resp) => readDoneLoop (sendResponse s2 (some resp)) rest)
          = .error e) ∨
    ∃ u, (match performRequest s1 r1 with
            | .error e => Except.error e
            | .ok (s2, resp) => readDoneLoop (sendResponse s2 (some resp)) rest)
          = readDoneLoop u rest ∧ core u = core s1 ∧ u.recs = s1.recs := by
  rcases performRequest_cases s1 r1 with he | ⟨mem, pl, hok⟩
  · left
    rw [he]
    exact ⟨_, rfl⟩
  · right
    rw [hok]
    refine ⟨_, rfl, ?_, ?_⟩
    · rw [(sendResponse_core _ _).1]; rfl
    · rw [(sendResponse_core _ _).2]

/-- One record of the read-done loop: it ends in an abort, or goes on in a state
that differs from the old one, as far as the bookkeeping is concerned, in the
completed amount of that record. -/
lemma readDoneLoop_cons (s : MemController) (id : Nat) (rest : List Nat) :
    (∃ e, readDoneLoop s (id :: rest) = .error e) ∨
    ∃ u, readDoneLoop s (id :: rest) = readDoneLoop u rest ∧ core u = core s ∧
      u.recs = Function.update s.recs id
        { s.recs id with
            amt_processed := (s.recs id).amt_processed + JEDEC_DATA_BUS_BITS_local } := by
  rw [readDoneLoop]
  simp only
  split_ifs with h1 h2
  · exact readDone_finalize _ _ rest
  · right
    exact ⟨_, rfl, rfl, rfl⟩
  · right
    exact ⟨_, rfl, rfl, rfl⟩

/-- The read-done loop adds one beat to the completed amount of a record for
each of its positions in the waiter list, and changes nothing else of the
bookkeeping. -/
lemma readDoneLoop_ok :
    ∀ (l : List Nat) (s t : MemController), readDoneLoop s l = .ok t →
      core t = core s ∧
      ∀ i, (t.recs i).amt_in_process = (s.recs i).amt_in_process ∧
        (t.recs i).size = (s.recs i).size ∧
        (t.recs i).amt_processed = (s.recs i).amt_processed + 64 * l.count i := by
  intro l
  induction l with
  | nil =>
    intro s t h
    simp only [readDoneLoop, Except.ok.injEq] at h
    subst h
    exact ⟨rfl, fun i => ⟨rfl, rfl, by simp⟩⟩
  | cons id rest ih =>
    intro s t h
    rcases readDoneLoop_cons s id rest with ⟨e, he⟩ | ⟨u, hu, hc, hr⟩
    · rw [he] at h; cases h
    · rw [hu] at h
      obtain ⟨i1, i2⟩ := ih u t h
      refine ⟨i1.trans hc, fun i => ?_⟩
      obtain ⟨j1, j2, j3⟩ := i2 i
      rw [hr] at j1 j2 j3
      by_cases hi : i = id
      · subst hi
        simp only [Function.update_same, JEDEC_DATA_BUS_BITS_local] at j1 j2 j3
        refine ⟨j1, j2, ?_⟩
        rw [j3, List.count_cons_self]
        omega
      · simp only [Function.update_noteq hi] at j1 j2 j3
        refine ⟨j1, j2, ?_⟩
        rw [j3, List.count_cons_of_ne hi]


/-- The positions of a record split into those under one beat address and the
others. -/
lemma occ_split (m : List (Nat × Nat)) (addr i : Nat) :
    m.countP (fun p => p.2 == i) =
      (waiters m addr).count i + (eraseBeat m addr).countP (fun p => p.2 == i) := by
  induction m with
  | nil => simp [waiters, eraseBeat]
  | cons p m ih =>
    simp only [waiters, eraseBeat] at ih ⊢
    by_cases h1 : p.1 = addr <;> by_cases h2 : p.2 = i <;>
      simp [List.filter_cons, List.countP_cons, List.count_cons, h1, h2, ih] <;> omega

/-- The read-done callback keeps the invariant. -/
lemma dramSimReadDone_stagedInv (s t : MemController) (addr : Nat)
    (hs : dramSimReadDone s addr = .ok t) (h : StagedInv s) : StagedInv t := by
  unfold dramSimReadDone at hs
  cases hl : readDoneLoop s (waiters s.dramReadReqs addr) with
  | error e => rw [hl] at hs; cases hs
  | ok u =>
    rw [hl] at hs
    simp only [Except.ok.injEq] at hs
    obtain ⟨hc, hr⟩ := readDoneLoop_ok _ s u hl
    simp only [core, Prod.mk.injEq] at hc
    obtain ⟨c1, c2, c3, c4, c5⟩ := hc
    obtain ⟨h1, h2, h3, h4, h5, h6, h7⟩ := h
    subst hs
    refine ⟨by rw [← h1]; exact c5, by rw [← c1] at h2; exact h2, ?_, ?_, by rw [← h5]; exact c4,
      ?_, ?_⟩
    · intro i hi
      show i < u.nextReq
      rw [c2]; exact h3 i (by rw [← c1]; exact hi)
    · intro p hp
      show p.2 < u.nextReq
      rw [c2]
      apply h4
      have hp2 : p ∈ eraseBeat u.dramReadReqs addr := hp
      rw [c3] at hp2
      exact List.mem_of_mem_filter hp2
    · intro i hi
      have hi2 : i ∈ s.requestQueue := by rw [← c1]; exact hi
      show (u.recs i).amt_in_process = 0 ∨ (u.recs i).amt_in_process < (u.recs i).size
      rw [(hr i).1, (hr i).2.1]
      exact h6 i hi2
    · intro i hi
      have hi2 : i < s.nextReq := by rw [← c2]; exact hi
      obtain ⟨g1, g2, g3⟩ := h7 i hi2
      obtain ⟨r1, r2, r3⟩ := hr i
      have hsplit := occ_split s.dramReadReqs addr i
      show (u.recs i).amt_in_process =
          (u.recs i).amt_processed + 64 * (eraseBeat u.dramReadReqs addr).countP (fun p => p.2 == i) ∧
        64 ∣ (u.recs i).amt_in_process ∧
        ((u.recs i).amt_in_process < (u.recs i).size + 64 ∨ (u.recs i).amt_in_process = 64)
      rw [r1, r2, r3, c3]
      simp only [occ] at g1
      refine ⟨by omega, g2, g3⟩

/-- In a state of the invariant the write-done callback finds no waiter. -/
lemma dramSimWriteDone_stagedInv (s : MemController) (addr : Nat) (h : StagedInv s) :
    dramSimWriteDone s addr = .error s := by
  simp [dramSimWriteDone, h.2.2.2.2.1, waiters]

/-- In DRAMSim mode the tick is the request loop. -/
lemma clock_staged (s : MemController) (b : Backend) (h : s.use_dramsim = true) :
    clock s b = .ok (clockStaged b s) := by
  simp [clock, h]

/-- Every delivery that does not abort keeps the invariant. -/
lemma stagedStep_stagedInv (s t : MemController) (i : StagedInput)
    (hs : stagedStep s i = .ok t) (h : StagedInv s) : StagedInv t := by
  cases i with
  | event ev =>
    simp only [stagedStep, Except.ok.injEq] at hs
    rw [← hs]; exact handleEvent_stagedInv s ev h
  | tick b =>
    simp only [stagedStep, clock_staged s b h.1, Except.ok.injEq] at hs
    rw [← hs]; exact clockStagedLoop_stagedInv b _ _ s h
  | readDone addr => exact dramSimReadDone_stagedInv s t addr hs h
  | writeDone addr =>
    simp only [stagedStep, dramSimWriteDone_stagedInv s addr h] at hs
    cases hs

/-- The invariant holds in every state reached in DRAMSim mode. -/
lemma StagedReach.inv {s0 s : MemController} (h0 : StagedInit s0)
    (h : StagedReach s0 s) : StagedInv s := by
  induction h with
  | init => exact StagedInv.of_init h0
  | step s t i _ _ hs ih => exact stagedStep_stagedInv s t i hs ih

/-! ## The DRAMSim path: counters and places of a record -/

/-- The constructor, asked for DRAMSim, returns a state of `StagedInit`. -/
lemma construct_stagedInit (env : BuildEnv) (p : Params) (s : MemController)
    (h : construct env p = .ok s) (hd : p.use_dramsim ≠ 0) : StagedInit s := by
  unfold construct at h
  by_cases hz : ramSizeOf p = 0
  · simp only [hz, if_true] at h
    cases h
  · simp only [hz, if_false] at h
    split_ifs at h
    injection h with h
    subst h
    exact ⟨by simpa using hd, rfl, rfl, rfl, rfl, rfl, rfl, rfl, rfl, rfl, fun _ => rfl⟩

/-- The example `ctlD` is such a state. -/
lemma ctlD_init : StagedInit ctlD :=
  ⟨rfl, rfl, rfl, rfl, rfl, rfl, rfl, rfl, rfl, rfl, fun _ => rfl⟩

lemma ctlDRead_reach : StagedReach ctlD ctlDRead :=
  StagedReach.step _ _ (.tick acceptAll)
    (StagedReach.step _ _ (.event readA) StagedReach.init rfl rfl) rfl rfl

lemma ctlDHalf_reach : StagedReach ctlD ctlDHalf :=
  StagedReach.step _ _ (.tick acceptFirst)
    (StagedReach.step _ _ (.event readTwoBeats) StagedReach.init rfl rfl) rfl rfl

lemma ctlDWrite_reach : StagedReach ctlD ctlDWrite :=
  StagedReach.step _ _ (.tick acceptAll)
    (StagedReach.step _ _ (.event writeWb) StagedReach.init rfl rfl) rfl rfl

/-- C18 (amended): in every state reached in DRAMSim mode, by deliveries none of
which dereferences a deleted record or indexes a payload past its end
(`undefinedDelivery`), every record (allocated and not deleted) satisfies
`amountCompleted ≤ amountIssued ≤ size + 64`, both counters being multiples of
the beat (the issued amount is rounded up to whole beats, so it exceeds `size`
when `size` is not a positive multiple of 64); and neither counter of a record
decreases across such a clock tick or completion callback. -/
theorem staged_counters (s0 s : MemController) (h0 : StagedInit s0)
    (h : StagedReach s0 s) :
    (∀ id, id < s.nextReq → id ∉ s.freed →
      (s.recs id).amt_processed ≤ (s.recs id).amt_in_process ∧
      (s.recs id).amt_in_process ≤ (s.recs id).size + 64 ∧
      64 ∣ (s.recs id).amt_in_process ∧ 64 ∣ (s.recs id).amt_processed) ∧
    (∀ (i : StagedInput) (t : MemController),
      (∀ ev, i ≠ StagedInput.event ev) → undefinedDelivery s i = false →
      stagedStep s i = .ok t → ∀ id, id < s.nextReq → id ∉ t.freed →
        (s.recs id).amt_in_process ≤ (t.recs id).amt_in_process ∧
        (s.recs id).amt_processed ≤ (t.recs id).amt_processed) := by
  have hinv := h.inv h0
  refine ⟨?_, ?_⟩
  · intro id hid _
    obtain ⟨g1, g2, g3⟩ := hinv.2.2.2.2.2.2 id hid
    refine ⟨by omega, by omega, g2, ?_⟩
    have : (s.recs id).amt_processed = (s.recs id).amt_in_process - 64 * occ s id := by omega
    rw [this]
    exact Nat.dvd_sub' g2 (Dvd.intro _ rfl)
  · intro i t hi _ hs id _ _
    cases i with
    | event ev => exact absurd rfl (hi ev)
    | tick b =>
      simp only [stagedStep, clock_staged s b hinv.1, Except.ok.injEq] at hs
      obtain ⟨c1, c2, _⟩ := clockStagedLoop_counters b _ _ s t hs id
      exact ⟨c1, by rw [c2]⟩
    | readDone addr =>
      simp only [stagedStep, dramSimReadDone] at hs
      cases hl : readDoneLoop s (waiters s.dramReadReqs addr) with
      | error e => rw [hl] at hs; cases hs
      | ok u =>
        rw [hl] at hs
        simp only [Except.ok.injEq] at hs
        obtain ⟨r1, _, r3⟩ := (readDoneLoop_ok _ s u hl).2 id
        subst hs
        exact ⟨by show _ ≤ (u.recs id).amt_in_process; rw [r1],
          by show _ ≤ (u.recs id).amt_processed; rw [r3]; omega⟩
    | writeDone addr =>
      simp only [stagedStep, dramSimWriteDone_stagedInv s addr hinv] at hs
      cases hs

/-- Witness for C18 (amended): the read of `ctlDRead` after its beat was issued. -/
theorem staged_counters_witness :
    (ctlDRead.recs 0).amt_processed ≤ (ctlDRead.recs 0).amt_in_process ∧
    (ctlDRead.recs 0).amt_in_process ≤ (ctlDRead.recs 0).size + 64 ∧
    64 ∣ (ctlDRead.recs 0).amt_in_process ∧ 64 ∣ (ctlDRead.recs 0).amt_processed :=
  (staged_counters ctlD ctlDRead ctlD_init ctlDRead_reach).1 0 (by decide) (by decide)

/-- C18 (as stated) fails: after an 8-byte read is admitted in DRAMSim mode and
the tick has issued its beat, the record has `amountIssued = 64 > 8 = size`. -/
theorem staged_issued_exceeds_size :
    StagedInit ctlD ∧ StagedReach ctlD ctlDRead ∧ 0 < ctlDRead.nextReq ∧
    (ctlDRead.recs 0).size = 8 ∧ (ctlDRead.recs 0).amt_in_process = 64 ∧
    ¬ ((ctlDRead.recs 0).amt_in_process ≤ (ctlDRead.recs 0).size) :=
  ⟨ctlD_init, ctlDRead_reach, by decide, by decide, by decide, by decide⟩

/-- C20 (amended): in every state reached in DRAMSim mode, by deliveries none of
which dereferences a deleted record or indexes a payload past its end
(`undefinedDelivery`), and for records not deleted: a record in
`requestQueue` is not yet fully issued; a record that is in `requestQueue` and in
a waiter list at the same time is a multi-beat record partially issued
(`0 < amountIssued < size`, so `size > 64`); and a record all of whose beats
have completed (`amountCompleted ≥ size` after at least one beat, the moment its
response is built for `busReqs`) is neither in `requestQueue` nor in any waiter
list. -/
theorem staged_record_places (s0 s : MemController) (h0 : StagedInit s0)
    (h : StagedReach s0 s) :
    (∀ id ∈ s.requestQueue, id ∉ s.freed →
      (s.recs id).amt_in_process = 0 ∨ (s.recs id).amt_in_process < (s.recs id).size) ∧
    (∀ id ∈ s.requestQueue, id ∉ s.freed → (∃ p ∈ s.dramReadReqs, p.2 = id) →
      0 < (s.recs id).amt_in_process ∧ (s.recs id).amt_in_process < (s.recs id).size ∧
      64 < (s.recs id).size) ∧
    (∀ id, id < s.nextReq → id ∉ s.freed → 0 < (s.recs id).amt_processed →
      (s.recs id).size ≤ (s.recs id).amt_processed →
      id ∉ s.requestQueue ∧ ∀ p ∈ s.dramReadReqs, p.2 ≠ id) := by
  obtain ⟨_, _, h3, _, _, h6, h7⟩ := h.inv h0
  have hocc : ∀ id, (∃ p ∈ s.dramReadReqs, p.2 = id) → 0 < occ s id := by
    intro id ⟨p, hp, hpid⟩
    exact List.countP_pos_iff.mpr ⟨p, hp, by simpa using hpid⟩
  refine ⟨fun id hid _ => h6 id hid, ?_, ?_⟩
  · intro id hid _ hp
    obtain ⟨g1, _, _⟩ := h7 id (h3 id hid)
    have := hocc id hp
    rcases h6 id hid with h0 | hlt
    · omega
    · omega
  · intro id hid _ hpos hdone
    obtain ⟨g1, g2, g3⟩ := h7 id hid
    refine ⟨?_, ?_⟩
    · intro hq
      rcases h6 id hq with h0 | hlt <;> omega
    · intro p hp hpid
      have := hocc id ⟨p, hp, hpid⟩
      have hd : 64 ∣ (s.recs id).amt_processed := by
        have : (s.recs id).amt_processed = (s.recs id).amt_in_process - 64 * occ s id := by
          omega
        rw [this]
        exact Nat.dvd_sub' g2 (Dvd.intro _ rfl)
      obtain ⟨a, ha⟩ := g2
      obtain ⟨c, hc⟩ := hd
      rcases g3 with g3 | g3 <;> omega

/-- Witness for C20 (amended): the two-beat read of `ctlDHalf`, queued and
waiting for its first beat. -/
theorem staged_record_places_witness :
    0 < (ctlDHalf.recs 0).amt_in_process ∧
    (ctlDHalf.recs 0).amt_in_process < (ctlDHalf.recs 0).size ∧
    64 < (ctlDHalf.recs 0).size :=
  (staged_record_places ctlD ctlDHalf ctlD_init ctlDHalf_reach).2.1 0 (by decide)
    (by decide) ⟨(256, 0), by decide, rfl⟩

/-- C20 (as stated) fails: after a 128-byte read is admitted in DRAMSim mode and
the memory system accepts its first beat and declines the second, the record,
not canceled, is at the head of `requestQueue` and in the waiter list of beat
`0x100` at the same time. -/
theorem staged_record_in_two_places :
    StagedInit ctlD ∧ StagedReach ctlD ctlDHalf ∧
    ctlDHalf.requestQueue = [0] ∧ ctlDHalf.dramReadReqs = [(256, 0)] ∧
    waiters ctlDHalf.dramReadReqs 256 = [0] ∧
    (ctlDHalf.recs 0).canceled = false ∧ (ctlDHalf.recs 0).req_count = 1 :=
  ⟨ctlD_init, ctlDHalf_reach, by decide, by decide, by decide, by decide, by decide⟩

/-- C16: at the failing input the write is never finalized.  After a flagged
8-byte WriteRequest is admitted in DRAMSim mode and the memory system accepts its
beat, the record waits under beat `0x100` in `dramReadReqs`; `dramWriteReqs` is
empty, so the write-done callback for `0x100` finds no waiter (`front()` of an
empty deque) and no response reaches `busReqs`. -/
theorem write_done_finds_no_waiter :
    StagedInit ctlD ∧ StagedReach ctlD ctlDWrite ∧
    (ctlDWrite.recs 0).isWrite = true ∧ (ctlDWrite.recs 0).canceled = false ∧
    ctlDWrite.requestQueue = [] ∧ ctlDWrite.dramReadReqs = [(256, 0)] ∧
    ctlDWrite.dramWriteReqs = [] ∧ waiters ctlDWrite.dramWriteReqs 256 = [] ∧
    (dramSimWriteDone ctlDWrite 256).toOption.isNone = true ∧
    ctlDWrite.busReqs = [] ∧ (ctlDWrite.recs 0).amt_processed = 0 :=
  ⟨ctlD_init, ctlDWrite_reach, by decide, by decide, by decide, by decide, by decide,
   by decide, by decide, by decide, by decide⟩

/-! ## Bus arbitration: pending requests and entries -/

/-- After `sendResponse` a bus request is pending. -/
lemma sendResponse_requested (s : MemController) (ev : Option MemEvent) :
    (sendResponse s ev).bus_requested = true := by
  cases ev <;> by_cases hb : s.bus_requested = true <;> simp [sendResponse, hb]

/-- After a grant, waiters that remain have a bus request pending. -/
lemma sendBusPacket_requested (s : MemController)
    (h : (sendBusPacket s).busReqs ≠ []) : (sendBusPacket s).bus_requested = true := by
  unfold sendBusPacket at h ⊢
  obtain ⟨d, _, hcase⟩ := sendBusPacketLoop_shape s.busReqs s rfl
  rcases hcase with ⟨_, _, hb, _, _⟩ | ⟨e, rest, _, _, hb, _, hr⟩
  · exact absurd hb h
  · rw [hr]
    rw [hb] at h
    cases rest with
    | nil => exact absurd rfl h
    | cons x xs => rfl

/-- The pending-request invariant is kept by every call into bus arbitration. -/
lemma busRun_requested :
    ∀ (l : List BusInput) (s : MemController),
      (s.busReqs ≠ [] → s.bus_requested = true) →
      (busRun s l).busReqs ≠ [] → (busRun s l).bus_requested = true := by
  intro l
  induction l with
  | nil => intro s h; exact h
  | cons i rest ih =>
    intro s _
    show (busRun (busStep s i) rest).busReqs ≠ [] → _
    apply ih
    cases i with
    | respond ev => intro _; exact sendResponse_requested s ev
    | grant => exact sendBusPacket_requested s

/-- C24: in every state reached from a state with empty `busReqs` by calls of
`sendResponse` and bus grants, waiting responses imply a pending bus request. -/
theorem busRun_waiters_requested (s0 : MemController) (h0 : s0.busReqs = [])
    (l : List BusInput) :
    (busRun s0 l).busReqs ≠ [] → (busRun s0 l).bus_requested = true :=
  busRun_requested l s0 (fun h => absurd h0 h)

/-- Witness for C24: two responses handed over, then one grant; one response
still waits and the bus is requested. -/
theorem busRun_waiters_requested_witness :
    ctl0.busReqs = [] ∧ ctl0.bus_requested = false ∧
    (busRun ctl0 [.respond (some (makeResponse "mem" readA)),
                  .respond (some (makeResponse "mem" writeWb)), .grant]).busReqs ≠ [] ∧
    (busRun ctl0 [.respond (some (makeResponse "mem" readA)),
                  .respond (some (makeResponse "mem" writeWb)), .grant]).bus_requested
      = true :=
  ⟨rfl, rfl, by decide, busRun_waiters_requested ctl0 rfl _ (by decide)⟩

/-- C25: `handleSelfEvent` decides by the address of the response alone: with an
entry of referenceCount `≤ 0` for the address the controller is left as it was
(nothing joins `busReqs`, no bus request), whatever the response is; with no
entry for the address the response goes to `sendResponse`, joins `busReqs` at
the tail and a bus request is pending. -/
theorem handleSelfEvent_by_address (s : MemController) (ev : MemEvent) :
    (∀ j, s.outstandingReadReqs ev.addr = some j → (s.recs j).req_count ≤ 0 →
      handleSelfEvent s ev = s) ∧
    (s.outstandingReadReqs ev.addr = none →
      handleSelfEvent s ev = sendResponse s (some ev) ∧
      (handleSelfEvent s ev).busReqs = s.busReqs ++ [ev] ∧
      (handleSelfEvent s ev).bus_requested = true) := by
  refine ⟨?_, ?_⟩
  · intro j hj hc
    simp [handleSelfEvent, isCanceled, hj, hc]
  · intro hn
    have h : handleSelfEvent s ev = sendResponse s (some ev) := by
      simp [handleSelfEvent, isCanceled, hn]
    refine ⟨h, ?_, ?_⟩
    · rw [h, (sendResponse_fields s (some ev) 0).2.2.2.2.2.1]; rfl
    · rw [h]; exact sendResponse_requested s (some ev)

/-- Witness for C25: the response to a write already applied to the store is
dropped because a canceled read entry exists for its address. -/
theorem handleSelfEvent_by_address_witness :
    ctlWriteDone.memBuffer 256 = 1 ∧
    ctlWriteDone.self_link = [makeResponse "mem" writeWb] ∧
    ctlWriteDone.outstandingReadReqs 256 = some 0 ∧
    (ctlWriteDone.recs 0).req_count = 0 ∧
    handleSelfEvent ctlWriteDone (makeResponse "mem" writeWb) = ctlWriteDone :=
  ⟨by decide, by decide, by decide, by decide,
   (handleSelfEvent_by_address ctlWriteDone (makeResponse "mem" writeWb)).1 0
     (by decide) (by decide)⟩

/-- The entries of `outstandingReadReqs` after `eraseOutstanding`. -/
lemma eraseOutstanding_entries (s : MemController) (a b : Nat) :
    (eraseOutstanding s a).outstandingReadReqs b =
      if a = b then none else s.outstandingReadReqs b := by
  by_cases h : a = b
  · subst h; simp [eraseOutstanding]
  · have h2 : b ≠ a := fun e => h e.symm
    simp [eraseOutstanding, Function.update_noteq h2, h]

/-- The grant loop splits the queue into the responses it pops and those it
leaves, and erases exactly the entries at the addresses of the popped SupplyData
responses. -/
lemma sendBusPacketLoop_outstanding :
    ∀ (q : List MemEvent) (s : MemController),
      ∃ p : List MemEvent, q = p ++ (sendBusPacketLoop s q).busReqs ∧
        ∀ a, (sendBusPacketLoop s q).outstandingReadReqs a =
          if (∃ e ∈ p, e.cmd = Command.SupplyData ∧ e.addr = a) then none
          else s.outstandingReadReqs a := by
  intro q
  induction q with
  | nil =>
    intro s
    exact ⟨[], rfl, fun a => by simp [sendBusPacketLoop]⟩
  | cons e rest ih =>
    intro s
    by_cases hc : isCanceled { s with busReqs := rest } e.addr = true
    · rw [sendBusPacketLoop_drop s e rest hc]
      obtain ⟨p, hp, hout⟩ := ih (if e.cmd = Command.SupplyData then
          eraseOutstanding { s with busReqs := rest } e.addr
        else { s with busReqs := rest })
      refine ⟨e :: p, by rw [List.cons_append, ← hp], ?_⟩
      intro a
      rw [hout a]
      by_cases hcmd : e.cmd = Command.SupplyData
      · simp only [hcmd, if_true, eraseOutstanding_entries, List.mem_cons,
          exists_eq_or_imp, true_and]
        by_cases ha : e.addr = a
        · simp [ha]
        · simp [ha]
      · simp [hcmd]
    · have hc2 : isCanceled { s with busReqs := rest } e.addr = false := by
        simpa using hc
      refine ⟨[e], ?_, ?_⟩
      · rw [(sendBusPacketLoop_send_trace s e rest hc2).1]; rfl
      · intro a
        unfold sendBusPacketLoop
        simp only [hc2, Bool.not_false, if_true]
        by_cases h1 : rest.length > 0 <;> by_cases h2 : e.cmd = Command.SupplyData <;>
          by_cases h3 : e.addr = a <;>
          simp [h1, h2, h3, eraseOutstanding_entries,
            (sendResponse_fields _ none 0).2.2.2.1]

/-- The popped responses and the remaining queue make up the old queue. -/
lemma popped_split (s : MemController) :
    ∀ p : List MemEvent, s.busReqs = p ++ (sendBusPacket s).busReqs → popped s = p := by
  intro p hp
  unfold popped
  conv_lhs => rw [hp]
  simp

/-- C26: a bus grant pops a prefix of `busReqs` and changes
`outstandingReadReqs` only by erasing the entries at the addresses of the popped
SupplyData responses, sent or dropped; every other address keeps its entry.
Hence after a response with another command (a ReadResponse) has been sent from
the head of the queue, its address still has its entry, and a later read request
for that address is merged into it: the map is unchanged and the referenceCount
of the entry goes up by one. -/
theorem sendBusPacket_outstanding (s : MemController) :
    s.busReqs = popped s ++ (sendBusPacket s).busReqs ∧
    (∀ a, (∃ e ∈ popped s, e.cmd = Command.SupplyData ∧ e.addr = a) →
      (sendBusPacket s).outstandingReadReqs a = none) ∧
    (∀ a, (¬ ∃ e ∈ popped s, e.cmd = Command.SupplyData ∧ e.addr = a) →
      (sendBusPacket s).outstandingReadReqs a = s.outstandingReadReqs a) ∧
    (∀ (e : MemEvent) (rest : List MemEvent) (j : Nat) (ev : MemEvent),
      s.busReqs = e :: rest → e.cmd ≠ Command.SupplyData →
      isCanceled s e.addr = false → s.outstandingReadReqs e.addr = some j →
      j < s.nextReq → isReadCmd ev → ev.addr = e.addr →
      popped s = [e] ∧
      (sendBusPacket s).outstandingReadReqs e.addr = some j ∧
      (addRequest (sendBusPacket s) ev).outstandingReadReqs =
        (sendBusPacket s).outstandingReadReqs ∧
      ((addRequest (sendBusPacket s) ev).recs j).req_count =
        (s.recs j).req_count + 1) := by
  obtain ⟨p, hp, hout⟩ := sendBusPacketLoop_outstanding s.busReqs s
  have hpop : popped s = p := popped_split s p hp
  rw [hpop]
  refine ⟨hp, ?_, ?_, ?_⟩
  · intro a ha
    have := hout a
    rw [if_pos ha] at this
    exact this
  · intro a ha
    have := hout a
    rw [if_neg ha] at this
    exact this
  · intro e rest j ev hq hcmd hcan hj hlt hr haddr
    have hc2 : isCanceled { s with busReqs := rest } e.addr = false := hcan
    have hrest : (sendBusPacket s).busReqs = rest := by
      unfold sendBusPacket
      rw [hq]
      exact (sendBusPacketLoop_send_trace s e rest hc2).1
    have hpe : p = [e] := by
      have h1 : e :: rest = p ++ rest := by rw [← hq, ← hrest]; exact hp
      have h2 : [e] ++ rest = p ++ rest := h1
      exact (List.append_cancel_right h2).symm
    have hkeep : (sendBusPacket s).outstandingReadReqs e.addr = some j := by
      have := hout e.addr
      rw [if_neg (by rw [hpe]; simp [hcmd])] at this
      rw [← hj]; exact this
    have hcore := sendBusPacketLoop_core s.busReqs s
    have hnext : (sendBusPacket s).nextReq = s.nextReq := by
      have := hcore.1
      simp only [core, Prod.mk.injEq] at this
      exact this.2.1
    have hrecs : (sendBusPacket s).recs = s.recs := hcore.2
    have hne : j ≠ (sendBusPacket s).nextReq := by rw [hnext]; omega
    have hpos : 0 < (s.recs j).req_count := by
      simp only [isCanceled, hj, decide_eq_false_iff_not, not_le] at hcan
      exact hcan
    have hj2 : (sendBusPacket s).outstandingReadReqs ev.addr = some j := by
      rw [haddr]; exact hkeep
    rw [addRequest_of_read_present (sendBusPacket s) ev j hr hj2 hne]
    refine ⟨hpe, hkeep, rfl, ?_⟩
    simp only [Function.update_same, hrecs]
    rw [if_neg (by omega)]

/-- Witness for C26: the ReadResponse for `0x100` is sent on the grant, the
entry for `0x100` stays, and the read `readA2` that follows is merged into it. -/
theorem sendBusPacket_outstanding_witness :
    popped ctlReadWaiting = [readResponse ctl0 readA] ∧
    (sendBusPacket ctlReadWaiting).outstandingReadReqs 256 = some 0 ∧
    (addRequest (sendBusPacket ctlReadWaiting) readA2).outstandingReadReqs =
      (sendBusPacket ctlReadWaiting).outstandingReadReqs ∧
    ((addRequest (sendBusPacket ctlReadWaiting) readA2).recs 0).req_count =
      (ctlReadWaiting.recs 0).req_count + 1 :=
  (sendBusPacket_outstanding ctlReadWaiting).2.2.2 (readResponse ctl0 readA) [] 0 readA2
    (by decide) (by decide) (by decide) (by decide) (by decide) (by decide) (by decide)

/-! ## The DRAMSim tick: shared beats, backpressure, cancellation -/

/-- The traced loop goes through the states of `clockStagedLoop`. -/
lemma clockStagedTrace_state (b : Backend) :
    ∀ (fuel k : Nat) (s : MemController),
      (clockStagedTrace b fuel k s).1 = clockStagedLoop b fuel k s := by
  intro fuel
  induction fuel with
  | zero => intro k s; rfl
  | succ fuel ih =>
    intro k s
    rw [clockStagedTrace, clockStagedLoop]
    cases hq : s.requestQueue with
    | nil => rfl
    | cons id rest =>
      simp only
      split_ifs <;> first | rfl | exact ih _ _

/-- With the fuel of `stagedFuel` the traced loop ends by itself. -/
lemma clockStagedTrace_succ_fuel (b : Backend) :
    ∀ (fuel k : Nat) (s : MemController), stagedFuel s ≤ fuel →
      clockStagedTrace b (fuel + 1) k s = clockStagedTrace b fuel k s := by
  intro fuel
  induction fuel with
  | zero =>
    intro k s h
    cases hq : s.requestQueue with
    | nil => simp [clockStagedTrace, hq]
    | cons id rest =>
      rw [stagedFuel_cons s id rest hq] at h
      omega
  | succ fuel ih =>
    intro k s h
    cases hq : s.requestQueue with
    | nil => simp [clockStagedTrace, hq]
    | cons id rest =>
      have hpop : ∀ t : MemController, t.requestQueue = rest → t.recs = s.recs →
          stagedFuel t ≤ fuel := fun t h1 h2 =>
        Nat.le_of_succ_le_succ (le_trans (stagedFuel_pop s t id rest hq h1 h2) h)
      have hipop : ∀ t : MemController, t.requestQueue = rest →
          t.recs = Function.update s.recs id
            { s.recs id with
              amt_in_process := (s.recs id).amt_in_process + JEDEC_DATA_BUS_BITS_local } →
          stagedFuel t ≤ fuel := fun t h1 h2 =>
        Nat.le_of_succ_le_succ
          (le_trans (stagedFuel_issue_pop s t id
            { s.recs id with
              amt_in_process := (s.recs id).amt_in_process + JEDEC_DATA_BUS_BITS_local }
            rest hq rfl (Nat.le_add_right _ _) h1 h2) h)
      have hstay : ¬ ((s.recs id).amt_in_process + JEDEC_DATA_BUS_BITS_local ≥
            (s.recs id).size) →
          ∀ t : MemController, t.requestQueue = id :: rest →
          t.recs = Function.update s.recs id
            { s.recs id with
              amt_in_process := (s.recs id).amt_in_process + JEDEC_DATA_BUS_BITS_local } →
          stagedFuel t ≤ fuel := fun h3 t h1 h2 =>
        Nat.le_of_succ_le_succ
          (le_trans (stagedFuel_issue_stay s t id
            { s.recs id with
              amt_in_process := (s.recs id).amt_in_process + JEDEC_DATA_BUS_BITS_local }
            rest hq rfl rfl (by simpa using h3) h1 h2) h)
      rw [clockStagedTrace, clockStagedTrace]
      simp only [hq]
      split_ifs <;>
        first
        | rfl
        | (apply ih; exact hpop _ rfl rfl)
        | (rw [ih]; exact hipop _ rfl rfl)
        | (rw [ih]; exact hstay (by assumption) _ rfl rfl)

/-- The traced loop does not depend on fuel beyond `stagedFuel`. -/
lemma clockStagedTrace_fuel (b : Backend) (s : MemController) (k : Nat) :
    ∀ fuel, stagedFuel s ≤ fuel →
      clockStagedTrace b fuel k s = clockStagedTrace b (stagedFuel s) k s := by
  intro fuel h
  obtain ⟨n, rfl⟩ := Nat.exists_eq_add_of_le h
  induction n with
  | zero => rfl
  | succ n ih =>
    rw [← Nat.add_assoc, clockStagedTrace_succ_fuel b _ k s (Nat.le_add_right _ _)]
    exact ih (Nat.le_add_right _ _)

/-- One iteration of the issue loop whose beat is already in flight: no call
into the memory system, and the loop goes on from `fileBeat`. -/
lemma clockStagedTrace_share (b : Backend) (s : MemController) (id : Nat)
    (rest : List Nat) (fuel k : Nat) (hq : s.requestQueue = id :: rest)
    (hc : (s.recs id).canceled = false)
    (hfl : waiters s.dramReadReqs
      (beatAddr (s.recs id).addr (s.recs id).amt_in_process) ≠ []) :
    clockStagedTrace b (fuel + 1) k s =
      clockStagedTrace b fuel (k + 1) (fileBeat s id rest) := by
  have he : (waiters s.dramReadReqs
      (beatAddr (s.recs id).addr (s.recs id).amt_in_process)).isEmpty = false := by
    cases hw : waiters s.dramReadReqs
        (beatAddr (s.recs id).addr (s.recs id).amt_in_process) with
    | nil => exact absurd hw hfl
    | cons x xs => rfl
  rw [clockStagedTrace]
  simp only [hq]
  rw [if_neg (by rw [hc]; exact Bool.false_ne_true)]
  simp only [he, Bool.false_and, Bool.false_eq_true, if_false, List.nil_append]
  unfold fileBeat JEDEC_DATA_BUS_BITS_local
  split_ifs <;> rfl

/-- One iteration of the issue loop whose beat is declined: the loop stops in
the state it is in, after the calls that were declined. -/
lemma clockStagedTrace_decline (b : Backend) (s : MemController) (id : Nat)
    (rest : List Nat) (fuel k : Nat) (hq : s.requestQueue = id :: rest)
    (hc : (s.recs id).canceled = false)
    (hnf : waiters s.dramReadReqs
      (beatAddr (s.recs id).addr (s.recs id).amt_in_process) = [])
    (hd : b.willAcceptTransaction k
        (beatAddr (s.recs id).addr (s.recs id).amt_in_process) = false ∨
      b.addTransaction k (s.recs id).isWrite
        (beatAddr (s.recs id).addr (s.recs id).amt_in_process) = false) :
    clockStagedTrace b (fuel + 1) k s =
      (s, if b.willAcceptTransaction k
            (beatAddr (s.recs id).addr (s.recs id).amt_in_process) = false then
          [BackendCall.willAcceptTransaction
            (beatAddr (s.recs id).addr (s.recs id).amt_in_process)]
        else
          [BackendCall.willAcceptTransaction
            (beatAddr (s.recs id).addr (s.recs id).amt_in_process),
           BackendCall.addTransaction (s.recs id).isWrite
            (beatAddr (s.recs id).addr (s.recs id).amt_in_process)]) := by
  rw [clockStagedTrace]
  simp only [hq]
  rw [if_neg (by rw [hc]; exact Bool.false_ne_true)]
  simp only [hnf, List.isEmpty_nil, Bool.true_and]
  by_cases hw : b.willAcceptTransaction k
      (beatAddr (s.recs id).addr (s.recs id).amt_in_process) = false
  · simp [hw]
  · have ha := hd.resolve_left hw
    simp only [Bool.not_eq_false] at hw
    simp [hw, ha]

/-- The fuel of a non-empty queue is positive. -/
lemma stagedFuel_pos (s : MemController) (id : Nat) (rest : List Nat)
    (hq : s.requestQueue = id :: rest) : 0 < stagedFuel s := by
  rw [stagedFuel_cons s id rest hq]
  omega

/-- Filing a beat lowers the fuel. -/
lemma stagedFuel_fileBeat (s : MemController) (id : Nat) (rest : List Nat)
    (hq : s.requestQueue = id :: rest) :
    stagedFuel (fileBeat s id rest) + 1 ≤ stagedFuel s := by
  by_cases h : (s.recs id).amt_in_process + 64 ≥ (s.recs id).size
  · refine stagedFuel_issue_pop s _ id
      { s.recs id with amt_in_process := (s.recs id).amt_in_process + 64 } rest hq rfl
      (Nat.le_add_right _ _) ?_ rfl
    simp [fileBeat, h]
  · refine stagedFuel_issue_stay s _ id
      { s.recs id with amt_in_process := (s.recs id).amt_in_process + 64 } rest hq rfl
      rfl (by simpa using h) ?_ rfl
    simp only [fileBeat, if_neg h]

/-- A request in range is performed. -/
lemma performRequest_ok (s : MemController) (r : DRAMReq) (h : outOfRange s r = false) :
    ∃ mem pl, performRequest s r =
      .ok ({ s with memBuffer := mem }, { makeResponse s.name r.reqEvent with payload := pl }) := by
  unfold performRequest
  by_cases h2 : r.isWrite = true
  · exact ⟨writeLoop s.memBuffer r.addr s.rangeStart r.reqEvent.payload r.size,
      (makeResponse s.name r.reqEvent).payload, by simp [h, h2]⟩
  · exact ⟨s.memBuffer,
      readLoop s.memBuffer r.addr s.rangeStart (makeResponse s.name r.reqEvent).payload r.size,
      by simp [h, h2]⟩

/-- States of one geometry agree on `outOfRange`. -/
lemma outOfRange_congr (s u : MemController) (h : geometry u = geometry s) (i : Nat) :
    outOfRange u (u.recs i) = outOfRange s (s.recs i) := by
  simp only [geometry, Prod.mk.injEq] at h
  obtain ⟨h1, h2, h3⟩ := h
  have h4 := congrFun h3 i
  simp only [Prod.mk.injEq] at h4
  simp only [outOfRange, h1, h2, h4.1, h4.2]

/-- `sendResponse` keeps the geometry. -/
lemma sendResponse_geometry (s : MemController) (ev : Option MemEvent) :
    geometry (sendResponse s ev) = geometry s := by
  cases ev <;> by_cases hb : s.bus_requested = true <;> simp [sendResponse, hb, geometry]

/-- Finalizing a record in range in a completion callback: the loop goes on in
a state that has the geometry of `s1`. -/
lemma readDone_finalize_ok (s1 : MemController) (r1 : DRAMReq) (rest : List Nat)
    (g : Nat × Nat × (Nat → Nat × Nat)) (hg : geometry s1 = g)
    (h : outOfRange s1 r1 = false) :
    ∃ u, (match performRequest s1 r1 with
            | .error e => Except.error e
            | .ok (s2, resp) => readDoneLoop (sendResponse s2 (some resp)) rest)
          = readDoneLoop u rest ∧ geometry u = g := by
  obtain ⟨mem, pl, hok⟩ := performRequest_ok s1 r1 h
  rw [hok]
  refine ⟨_, rfl, ?_⟩
  rw [sendResponse_geometry, ← hg]
  rfl

/-- Updating a record without moving or resizing it keeps the geometry. -/
lemma geometry_update (s u : MemController) (id : Nat) (r : DRAMReq)
    (h1 : u.rangeStart = s.rangeStart) (h2 : u.memSize = s.memSize)
    (h3 : u.recs = Function.update s.recs id r)
    (ha : r.addr = (s.recs id).addr) (hs : r.size = (s.recs id).size) :
    geometry u = geometry s := by
  simp only [geometry, h1, h2, h3, Prod.mk.injEq, true_and]
  funext i
  by_cases hi : i = id
  · subst hi; simp [ha, hs]
  · simp [Function.update_noteq hi]

/-- One record of the read-done loop, when it is in range: the loop goes on in a
state of the same geometry. -/
lemma readDoneLoop_cons_ok (s : MemController) (id : Nat) (rest : List Nat)
    (h : outOfRange s (s.recs id) = false) :
    ∃ u, readDoneLoop s (id :: rest) = readDoneLoop u rest ∧ geometry u = geometry s := by
  rw [readDoneLoop]
  simp only
  split_ifs with h1 h2
  · refine readDone_finalize_ok _ _ rest _ ?_ ?_
    · refine geometry_update s _ id _ rfl rfl rfl ?_ ?_ <;> rfl
    · exact h
  · refine ⟨_, rfl, ?_⟩
    refine geometry_update s _ id _ rfl rfl rfl ?_ ?_ <;> rfl
  · refine ⟨_, rfl, ?_⟩
    refine geometry_update s _ id _ rfl rfl rfl ?_ ?_ <;> rfl

/-- The read-done loop over records in range does not abort. -/
lemma readDoneLoop_total :
    ∀ (l : List Nat) (s : MemController),
      (∀ i ∈ l, outOfRange s (s.recs i) = false) → ∃ t, readDoneLoop s l = .ok t := by
  intro l
  induction l with
  | nil => intro s _; exact ⟨s, rfl⟩
  | cons id rest ih =>
    intro s h
    obtain ⟨u, hu, hg⟩ := readDoneLoop_cons_ok s id rest (h id (List.mem_cons_self _ _))
    rw [hu]
    apply ih
    intro i hi
    rw [outOfRange_congr s u hg i]
    exact h i (List.mem_cons_of_mem _ hi)

/-- Erasing a beat leaves it without waiters. -/
lemma waiters_eraseBeat (m : List (Nat × Nat)) (addr : Nat) :
    waiters (eraseBeat m addr) addr = [] := by
  simp [waiters, eraseBeat, List.filter_filter]

/-- Filing a record under a beat puts it last among the waiters of that beat. -/
lemma waiters_append (m : List (Nat × Nat)) (addr id : Nat) :
    waiters (m ++ [(addr, id)]) addr = waiters m addr ++ [id] := by
  simp [waiters, List.filter_append]

/-- C21: in the DRAMSim tick, when the next beat of the head record is already in
flight, the iteration makes no call into the memory system (the calls of the
tick from this point are those made after the iteration), files the record
last among the waiters of that beat and advances its issued amount by one beat
of 64 bytes; this for a tick in which no record queued in `requestQueue` or
waiting in `dramReadReqs` has been deleted.  And the read-done callback for a beat address, all of whose waiters
are records not deleted, in range and of the size of their request (a write
with a payload of that size), returns; it advances the completed amount of
every record by one beat for each of its positions among the waiters of that
beat, and leaves the beat without an entry, the other beats as they were. -/
theorem staged_beat_sharing (b : Backend) (s : MemController) (id : Nat)
    (rest : List Nat) (fuel k : Nat) (hq : s.requestQueue = id :: rest)
    (_hlive : ∀ i ∈ s.requestQueue, i ∉ s.freed)
    (_hwait : ∀ p ∈ s.dramReadReqs, p.2 ∉ s.freed)
    (hc : (s.recs id).canceled = false)
    (hfl : waiters s.dramReadReqs
      (beatAddr (s.recs id).addr (s.recs id).amt_in_process) ≠ [])
    (hfuel : stagedFuel s ≤ fuel) :
    clockStagedTrace b fuel k s =
      clockStagedTrace b (stagedFuel (fileBeat s id rest)) (k + 1) (fileBeat s id rest) ∧
    clockStagedLoop b fuel k s =
      clockStagedLoop b (stagedFuel (fileBeat s id rest)) (k + 1) (fileBeat s id rest) ∧
    waiters (fileBeat s id rest).dramReadReqs
        (beatAddr (s.recs id).addr (s.recs id).amt_in_process) =
      waiters s.dramReadReqs (beatAddr (s.recs id).addr (s.recs id).amt_in_process)
        ++ [id] ∧
    ((fileBeat s id rest).recs id).amt_in_process = (s.recs id).amt_in_process + 64 ∧
    (∀ (u : MemController) (addr : Nat),
      (∀ i ∈ waiters u.dramReadReqs addr,
        i ∉ u.freed ∧ outOfRange u (u.recs i) = false ∧ WellSized (u.recs i)) →
      ∃ t, dramSimReadDone u addr = .ok t ∧
        t.dramReadReqs = eraseBeat u.dramReadReqs addr ∧
        waiters t.dramReadReqs addr = [] ∧
        ∀ i, (t.recs i).amt_processed =
          (u.recs i).amt_processed + 64 * (waiters u.dramReadReqs addr).count i) := by
  have htr : clockStagedTrace b fuel k s =
      clockStagedTrace b (stagedFuel (fileBeat s id rest)) (k + 1) (fileBeat s id rest) := by
    have hpos := stagedFuel_pos s id rest hq
    have hlow := stagedFuel_fileBeat s id rest hq
    obtain ⟨f, rfl⟩ : ∃ f, fuel = f + 1 := ⟨fuel - 1, by omega⟩
    rw [clockStagedTrace_share b s id rest f k hq hc hfl]
    exact clockStagedTrace_fuel b _ _ f (by omega)
  refine ⟨htr, ?_, ?_, ?_, ?_⟩
  · rw [← clockStagedTrace_state, ← clockStagedTrace_state, htr]
  · exact waiters_append _ _ _
  · simp [fileBeat]
  · intro u addr hin
    obtain ⟨t, ht⟩ := readDoneLoop_total _ u (fun i hi => (hin i hi).2.1)
    obtain ⟨hcore, hrec⟩ := readDoneLoop_ok _ u t ht
    simp only [core, Prod.mk.injEq] at hcore
    refine ⟨{ t with dramReadReqs := eraseBeat t.dramReadReqs addr }, ?_, ?_, ?_, ?_⟩
    · simp only [dramSimReadDone, ht]
    · show eraseBeat t.dramReadReqs addr = _
      rw [hcore.2.2.1]
    · exact waiters_eraseBeat _ _
    · intro i
      exact (hrec i).2.2

/-- Witness for C21: the second read of `0x100` in `ctlDShare` joins the beat in
flight, with a memory system that would decline every transaction. -/
theorem staged_beat_sharing_witness :
    ctlDShare.requestQueue = [1] ∧ waiters ctlDShare.dramReadReqs 256 = [0] ∧
    (clockStagedTrace declineAll (stagedFuel ctlDShare) 0 ctlDShare =
      clockStagedTrace declineAll (stagedFuel (fileBeat ctlDShare 1 [])) 1
        (fileBeat ctlDShare 1 [])) ∧
    (fileBeat ctlDShare 1 []).requestQueue = [] ∧
    waiters (fileBeat ctlDShare 1 []).dramReadReqs 256 = [0, 1] ∧
    (∃ t, dramSimReadDone (fileBeat ctlDShare 1 []) 256 = .ok t ∧
      t.dramReadReqs = eraseBeat (fileBeat ctlDShare 1 []).dramReadReqs 256 ∧
      waiters t.dramReadReqs 256 = [] ∧
      ∀ i, (t.recs i).amt_processed =
        ((fileBeat ctlDShare 1 []).recs i).amt_processed +
          64 * (waiters (fileBeat ctlDShare 1 []).dramReadReqs 256).count i) :=
  ⟨by decide, by decide,
   (staged_beat_sharing declineAll ctlDShare 1 [] (stagedFuel ctlDShare) 0 (by decide)
     (by decide) (by decide) (by decide) (by decide) (le_refl _)).1,
   by decide, by decide,
   (staged_beat_sharing declineAll ctlDShare 1 [] (stagedFuel ctlDShare) 0 (by decide)
     (by decide) (by decide) (by decide) (by decide) (le_refl _)).2.2.2.2
     (fileBeat ctlDShare 1 []) 256 (by decide)⟩

/-- C22: in the DRAMSim tick, no record queued in `requestQueue` or waiting in
`dramReadReqs` having been deleted, when the next beat of the head record is not in flight and the memory system
declines it (at `willAcceptTransaction` or at
`addTransaction`), the loop stops at once: the state is the one the iteration
began in (issued amounts, `requestQueue`, `dramReadReqs`, store), and the calls
made into the memory system from this point are the declined ones for that
beat, none for a later record. -/
theorem staged_backpressure (b : Backend) (s : MemController) (id : Nat)
    (rest : List Nat) (fuel k : Nat) (hq : s.requestQueue = id :: rest)
    (_hlive : ∀ i ∈ s.requestQueue, i ∉ s.freed)
    (_hwait : ∀ p ∈ s.dramReadReqs, p.2 ∉ s.freed)
    (hc : (s.recs id).canceled = false)
    (hnf : waiters s.dramReadReqs
      (beatAddr (s.recs id).addr (s.recs id).amt_in_process) = [])
    (hd : b.willAcceptTransaction k
        (beatAddr (s.recs id).addr (s.recs id).amt_in_process) = false ∨
      b.addTransaction k (s.recs id).isWrite
        (beatAddr (s.recs id).addr (s.recs id).amt_in_process) = false)
    (hfuel : stagedFuel s ≤ fuel) :
    clockStagedLoop b fuel k s = s ∧
    (clockStagedTrace b fuel k s).1 = s ∧
    (clockStagedTrace b fuel k s).2 =
      (if b.willAcceptTransaction k
            (beatAddr (s.recs id).addr (s.recs id).amt_in_process) = false then
          [BackendCall.willAcceptTransaction
            (beatAddr (s.recs id).addr (s.recs id).amt_in_process)]
        else
          [BackendCall.willAcceptTransaction
            (beatAddr (s.recs id).addr (s.recs id).amt_in_process),
           BackendCall.addTransaction (s.recs id).isWrite
            (beatAddr (s.recs id).addr (s.recs id).amt_in_process)]) := by
  have hpos := stagedFuel_pos s id rest hq
  obtain ⟨f, rfl⟩ : ∃ f, fuel = f + 1 := ⟨fuel - 1, by omega⟩
  have htr := clockStagedTrace_decline b s id rest f k hq hc hnf hd
  refine ⟨?_, ?_, ?_⟩
  · rw [← clockStagedTrace_state, htr]
  · rw [htr]
  · rw [htr]

/-- Witness for C22: the tick over the read `readA` with a memory system that
declines every transaction leaves the controller as it was. -/
theorem staged_backpressure_witness :
    (handleEvent ctlD readA).requestQueue = [0] ∧
    clockStaged declineAll (handleEvent ctlD readA) = handleEvent ctlD readA ∧
    (clockStagedTrace declineAll (stagedFuel (handleEvent ctlD readA)) 0
      (handleEvent ctlD readA)).2 = [BackendCall.willAcceptTransaction 256] :=
  ⟨by decide,
   (staged_backpressure declineAll (handleEvent ctlD readA) 0 []
     (stagedFuel (handleEvent ctlD readA)) 0 (by decide) (by decide) (by decide)
     (by decide) (by decide) (Or.inl (by decide)) (le_refl _)).1,
   (staged_backpressure declineAll (handleEvent ctlD readA) 0 []
     (stagedFuel (handleEvent ctlD readA)) 0 (by decide) (by decide) (by decide)
     (by decide) (by decide) (Or.inl (by decide)) (le_refl _)).2.2⟩

/-- `cancelEvent` leaves the `canceled` flag of every record as it is. -/
lemma cancelEvent_canceled (s : MemController) (ev : MemEvent) (id : Nat) :
    ((cancelEvent s ev).recs id).canceled = (s.recs id).canceled := by
  unfold cancelEvent
  cases hj : s.outstandingReadReqs ev.addr with
  | none => rfl
  | some j =>
    simp only
    split_ifs
    · by_cases hid : id = j
      · subst hid; simp
      · simp [Function.update_noteq hid]
    · rfl

/-- Admission sets no `canceled` flag. -/
lemma addRequest_noneCanceled (s : MemController) (ev : MemEvent)
    (h : NoneCanceled s) : NoneCanceled (addRequest s ev) := by
  intro id
  unfold addRequest
  simp only
  split_ifs with hW
  · by_cases hid : id = s.nextReq
    · subst hid; simp [DRAMReq.ofEvent]
    · simp [Function.update_noteq hid, h id]
  · cases hj : s.outstandingReadReqs ev.addr with
    | none =>
      by_cases hid : id = s.nextReq
      · subst hid; simp [DRAMReq.ofEvent]
      · simp [Function.update_noteq hid, h id]
    | some j =>
      by_cases hjn : id = j
      · subst hjn
        by_cases hid : id = s.nextReq
        · subst hid; simp [DRAMReq.ofEvent]
        · simp [Function.update_noteq hid, h id]
      · by_cases hid : id = s.nextReq
        · subst hid; simp [Function.update_noteq hjn, DRAMReq.ofEvent]
        · simp [Function.update_noteq hjn, Function.update_noteq hid, h id]

/-- No message handled by `handleEvent` sets a `canceled` flag. -/
lemma handleEvent_noneCanceled (s : MemController) (ev : MemEvent)
    (h : NoneCanceled s) : NoneCanceled (handleEvent s ev) := by
  have hadd := addRequest_noneCanceled s ev h
  have hcan : NoneCanceled (cancelEvent s ev) := fun id => by
    rw [cancelEvent_canceled]; exact h id
  have hbus : NoneCanceled (sendBusPacket s) := fun id => by
    unfold sendBusPacket
    rw [(sendBusPacketLoop_core s.busReqs s).2]; exact h id
  unfold handleEvent
  cases ev.cmd <;> simp only <;>
    (try split_ifs) <;> first | exact h | exact hcan | exact hadd | exact hbus

/-- The issue loop of the DRAMSim tick leaves the `canceled` flags as they are. -/
lemma clockStagedLoop_canceled (b : Backend) :
    ∀ (fuel k : Nat) (s t : MemController), clockStagedLoop b fuel k s = t → ∀ i : Nat,
      (t.recs i).canceled = (s.recs i).canceled := by
  intro fuel
  induction fuel with
  | zero => intro k s t h i; rw [← h]; rfl
  | succ fuel ih =>
    intro k s t h i
    cases hq : s.requestQueue with
    | nil =>
      have : t = s := by rw [← h]; simp [clockStagedLoop, hq]
      rw [this]
    | cons id rest =>
      have hupd : ∀ j,
          ((Function.update s.recs id
              { s.recs id with
                  amt_in_process := (s.recs id).amt_in_process + JEDEC_DATA_BUS_BITS_local })
              j).canceled = (s.recs j).canceled := by
        intro j
        by_cases hj : j = id
        · subst hj; simp
        · simp [Function.update_noteq hj]
      rw [clockStagedLoop] at h
      simp only [hq] at h
      split_ifs at h with hc h0 h1 h2 h3
      · exact ih _ _ _ h i
      · exact ih _ _ _ h i
      · rw [← h]
      · rw [← h]
      · exact (ih _ _ _ h i).trans (hupd i)
      · exact (ih _ _ _ h i).trans (hupd i)

/-- The read-done loop leaves the `canceled` flags as they are. -/
lemma readDoneLoop_canceled :
    ∀ (l : List Nat) (s t : MemController), readDoneLoop s l = .ok t →
      ∀ i, (t.recs i).canceled = (s.recs i).canceled := by
  intro l
  induction l with
  | nil =>
    intro s t h i
    simp only [readDoneLoop, Except.ok.injEq] at h
    rw [← h]
  | cons id rest ih =>
    intro s t h i
    rcases readDoneLoop_cons s id rest with ⟨e, he⟩ | ⟨u, hu, _, hr⟩
    · rw [he] at h; cases h
    · rw [hu] at h
      rw [ih u t h i, hr]
      by_cases hi : i = id
      · subst hi; simp
      · simp [Function.update_noteq hi]

/-- No delivery in DRAMSim mode sets a `canceled` flag. -/
lemma stagedStep_noneCanceled (s t : MemController) (i : StagedInput)
    (hs : stagedStep s i = .ok t) (hinv : StagedInv s) (h : NoneCanceled s) :
    NoneCanceled t := by
  cases i with
  | event ev =>
    simp only [stagedStep, Except.ok.injEq] at hs
    rw [← hs]; exact handleEvent_noneCanceled s ev h
  | tick b =>
    simp only [stagedStep, clock_staged s b hinv.1, Except.ok.injEq] at hs
    intro id
    rw [clockStagedLoop_canceled b _ _ s t hs id]; exact h id
  | readDone addr =>
    simp only [stagedStep, dramSimReadDone] at hs
    cases hl : readDoneLoop s (waiters s.dramReadReqs addr) with
    | error e => rw [hl] at hs; cases hs
    | ok u =>
      rw [hl] at hs
      simp only [Except.ok.injEq] at hs
      intro id
      rw [← hs]
      show (u.recs id).canceled = false
      rw [readDoneLoop_canceled _ s u hl id]; exact h id
  | writeDone addr =>
    simp only [stagedStep, dramSimWriteDone_stagedInv s addr hinv] at hs
    cases hs

/-- In no state reached in DRAMSim mode is a record marked canceled. -/
lemma StagedReach.noneCanceled {s0 s : MemController} (h0 : StagedInit s0)
    (hn : NoneCanceled s0) (h : StagedReach s0 s) : NoneCanceled s := by
  induction h with
  | init => exact hn
  | step u t i hr _ hs ih => exact stagedStep_noneCanceled u t i hs (hr.inv h0) ih

/-- C23: cancellation does not mark the record.  `cancelEvent` leaves the
`canceled` flag of every record as it is; so after the read of `ctlDCanceled`
has been canceled by a peer (referenceCount 0, `isCanceled` holds for its
address) the flag is still unset, the DRAMSim tick issues a transaction for the
record and the read-done callback builds its response and hands it to bus
arbitration. -/
theorem cancelEvent_leaves_flag_unset :
    (∀ (s : MemController) (ev : MemEvent) (id : Nat),
      ((cancelEvent s ev).recs id).canceled = (s.recs id).canceled) ∧
    (ctlDCanceled.recs 0).req_count = 0 ∧ isCanceled ctlDCanceled 256 = true ∧
    (ctlDCanceled.recs 0).canceled = false ∧ ctlDCanceled.requestQueue = [0] ∧
    (clockStagedTrace acceptAll (stagedFuel ctlDCanceled) 0 ctlDCanceled).2 =
      [BackendCall.willAcceptTransaction 256, BackendCall.addTransaction false 256] ∧
    (clockStaged acceptAll ctlDCanceled).dramReadReqs = [(256, 0)] ∧
    (dramSimReadDone (clockStaged acceptAll ctlDCanceled) 256).toOption.map
      (fun t => t.busReqs) = some [readResponse ctlD readA] :=
  ⟨cancelEvent_canceled, by decide, by decide, by decide, by decide, by decide,
   by decide, by decide⟩

end MemHierarchy

/-! ## The task map of the scheduler -/

namespace Scheduler

/-- A loop that adds, modulo `M`, the terms `f j` selected by `p`. -/
lemma foldl_add_mod (M : Nat) (p : Nat → Prop) [DecidablePred p] (f : Nat → Nat) :
    ∀ (l : List Nat) (tot : Nat), tot < M →
      l.foldl (fun tot j => if p j then (tot + f j) % M else tot) tot =
        (tot + (l.map (fun j => if p j then f j else 0)).sum) % M := by
  intro l
  induction l with
  | nil => intro tot h; simp [Nat.mod_eq_of_lt h]
  | cons j rest ih =>
    intro tot h
    have hM : 0 < M := by omega
    rw [List.foldl_cons]
    by_cases hp : p j
    · simp only [hp, if_true, List.map_cons, List.sum_cons]
      rw [ih _ (Nat.mod_lt _ hM), Nat.add_mod, Nat.mod_mod, ← Nat.add_mod, Nat.add_assoc]
    · simp only [hp, if_false, List.map_cons, List.sum_cons, Nat.zero_add]
      exact ih _ h

/-- The sum of a list of terms over `List.range` as a sum over `Finset.range`. -/
lemma sum_range_map (n : Nat) (f : Nat → Nat) :
    ((List.range n).map f).sum = ∑ i in Finset.range n, f i := by
  induction n with
  | zero => rfl
  | succ n ih => rw [List.range_succ, List.map_append, List.sum_append, ih,
      Finset.sum_range_succ]; simp


/-- The inner loop adds the distances to the nodes `nodeIndices` lists for the
tasks that communicate with `taskIter`. -/
lemma hopInner_eq (t : TaskMapInfo) (dist : Int → Int → Nat) (taskIter : Nat)
    (currentNode : Int) (tot : Nat) (h : tot < 2 ^ 64) :
    t.hopInner dist taskIter currentNode tot =
      (tot + ((List.range t.procsNeeded.toNat).map (fun j =>
        if t.commMatrix taskIter j ≠ 0 ∨ t.commMatrix j taskIter ≠ 0 then
          dist currentNode (t.nodeIndices j) else 0)).sum) % 2 ^ 64 :=
  foldl_add_mod (2 ^ 64)
    (fun j => t.commMatrix taskIter j ≠ 0 ∨ t.commMatrix j taskIter ≠ 0)
    (fun j => dist currentNode (t.nodeIndices j)) _ tot h

/-- The outer loop over tasks that are mapped to their own entry of
`nodeIndices`. -/
lemma hopOuter_eq (t : TaskMapInfo) (dist : Int → Int → Nat) :
    ∀ (l : List Nat) (tot : Nat), tot < 2 ^ 64 →
      (∀ i ∈ l, t.leftAt (i : Int) = some (t.nodeIndices i)) →
      t.hopOuter dist l tot =
        .ok ((tot + (l.map (fun i =>
          ((List.range t.procsNeeded.toNat).map (fun j =>
            if t.commMatrix i j ≠ 0 ∨ t.commMatrix j i ≠ 0 then
              dist (t.nodeIndices i) (t.nodeIndices j) else 0)).sum)).sum) % 2 ^ 64) := by
  intro l
  induction l with
  | nil =>
    intro tot h _
    simp only [TaskMapInfo.hopOuter, List.map_nil, List.sum_nil, Nat.add_zero,
      Nat.mod_eq_of_lt h]
  | cons i rest ih =>
    intro tot h hmap
    rw [TaskMapInfo.hopOuter, hmap i (List.mem_cons_self _ _)]
    simp only
    rw [hopInner_eq t dist i _ tot h,
      ih _ (Nat.mod_lt _ (by norm_num)) (fun j hj => hmap j (List.mem_cons_of_mem _ hj))]
    simp only [List.map_cons, List.sum_cons]
    rw [Nat.add_mod, Nat.mod_mod, ← Nat.add_mod, Nat.add_assoc]

/-- A symmetric sum over all ordered pairs is twice the sum over the pairs
`i < j`, when the diagonal does not count. -/
lemma sum_pairs_twice (n : Nat) (c : Nat → Nat → Prop) [∀ i j, Decidable (c i j)]
    (d : Nat → Nat → Nat) (hc : ∀ i j, c i j ↔ c j i) (hd : ∀ i j, d i j = d j i)
    (h0 : ∀ i, d i i = 0) :
    (∑ i in Finset.range n, ∑ j in Finset.range n, if c i j then d i j else 0) =
      2 * ∑ i in Finset.range n, ∑ j in Finset.range n,
        if i < j ∧ c i j then d i j else 0 := by
  have hsplit : ∀ i j, (if c i j then d i j else 0) =
      (if i < j ∧ c i j then d i j else 0) + (if j < i ∧ c j i then d j i else 0) := by
    intro i j
    rcases Nat.lt_trichotomy i j with h | h | h
    · have h2 : ¬ j < i := by omega
      simp [h, h2]
    · subst h
      simp [h0]
    · have h2 : ¬ i < j := by omega
      by_cases hcij : c i j
      · simp [h, h2, hcij, (hc i j).1 hcij, hd i j]
      · have : ¬ c j i := fun x => hcij ((hc i j).2 x)
        simp [h2, hcij, this]
  have hswap : (∑ i in Finset.range n, ∑ j in Finset.range n,
        if j < i ∧ c j i then d j i else 0) =
      ∑ i in Finset.range n, ∑ j in Finset.range n,
        if i < j ∧ c i j then d i j else 0 := Finset.sum_comm
  simp_rw [hsplit, Finset.sum_add_distrib]
  rw [hswap]
  ring

/-- Where every task `i` is mapped to `nodeIndices[i]`, `getTotalHopDist`
returns the total hop distance of the specification (for a symmetric distance
that is 0 from a node to itself, and a total below `2 ^ 63`). -/
lemma getTotalHopDist_of_identity (t : TaskMapInfo) (dist : Int → Int → Nat)
    (hsym : ∀ a b, dist a b = dist b a) (hself : ∀ a, dist a a = 0)
    (hsize : t.sizeMismatch = false)
    (hmap : ∀ i : Nat, i < t.procsNeeded.toNat →
      t.leftAt (i : Int) = some (t.nodeIndices i))
    (hbound : 2 * t.totalHopDistSpec dist < 2 ^ 64) :
    t.getTotalHopDist dist = .ok (t.totalHopDistSpec dist) := by
  have hspec : t.totalHopDistSpec dist =
      ∑ i in Finset.range t.procsNeeded.toNat, ∑ j in Finset.range t.procsNeeded.toNat,
        if i < j ∧ (t.commMatrix i j ≠ 0 ∨ t.commMatrix j i ≠ 0) then
          dist (t.nodeIndices i) (t.nodeIndices j) else 0 := by
    unfold TaskMapInfo.totalHopDistSpec
    rw [sum_range_map]
    apply Finset.sum_congr rfl
    intro i hi
    rw [sum_range_map]
    apply Finset.sum_congr rfl
    intro j hj
    rw [hmap i (Finset.mem_range.1 hi), hmap j (Finset.mem_range.1 hj)]
    rfl
  have hall : (((List.range t.procsNeeded.toNat).map (fun i =>
          ((List.range t.procsNeeded.toNat).map (fun j =>
            if t.commMatrix i j ≠ 0 ∨ t.commMatrix j i ≠ 0 then
              dist (t.nodeIndices i) (t.nodeIndices j) else 0)).sum)).sum) =
      2 * t.totalHopDistSpec dist := by
    rw [hspec, sum_range_map]
    simp_rw [sum_range_map]
    exact sum_pairs_twice _ (fun i j => t.commMatrix i j ≠ 0 ∨ t.commMatrix j i ≠ 0)
      (fun i j => dist (t.nodeIndices i) (t.nodeIndices j))
      (fun i j => Or.comm) (fun i j => hsym _ _) (fun i => hself _)
  unfold TaskMapInfo.getTotalHopDist
  rw [hsize]
  simp only [Bool.false_eq_true, if_false]
  rw [hopOuter_eq t dist _ 0 (by norm_num)
    (fun i hi => hmap i (List.mem_range.1 hi))]
  simp only [Nat.zero_add]
  rw [hall, Nat.mod_eq_of_lt hbound]
  simp


/-- The mesh distance is symmetric. -/
lemma meshL1_comm (xdim ydim a b : Int) : meshL1 xdim ydim a b = meshL1 xdim ydim b a := by
  unfold meshL1
  omega

/-- A node is at mesh distance 0 from itself. -/
lemma meshL1_self (xdim ydim a : Int) : meshL1 xdim ydim a a = 0 := by
  simp [meshL1]

/-- With the tasks of `jobTwo` on their own entries of `nodeIndices` the total is
the distance 1 between the nodes 0 and 1. -/
lemma getTotalHopDist_straight :
    jobTwoStraight.getTotalHopDist (meshL1 2 1) = .ok 1 := by
  have h := getTotalHopDist_of_identity jobTwoStraight (meshL1 2 1) (meshL1_comm 2 1)
    (meshL1_self 2 1) (by decide)
    (by
      intro i hi
      have hi2 : i < 2 := hi
      interval_cases i <;> rfl)
    (by decide)
  rw [h]
  exact congrArg Except.ok (by decide)

/-- C27: `getTotalHopDist` does not take the node of the other task from
`taskMap`.  With the two communicating tasks of `jobTwo` mapped crosswise (task
0 on node 1, task 1 on node 0, both by `insert`), on a mesh where the nodes 0
and 1 are neighbours, it returns 0, while the distance between the nodes of the
one communicating pair is 1. -/
theorem getTotalHopDist_ignores_taskMap :
    (jobTwo.insert 0 1).toOption.map (fun t => t.taskMap) = some jobTwoHalf.taskMap ∧
    (jobTwoHalf.insert 1 0).toOption.map (fun t => t.taskMap) = some jobTwoSwapped.taskMap ∧
    jobTwoSwapped.leftAt 0 = some 1 ∧ jobTwoSwapped.leftAt 1 = some 0 ∧
    meshL1 2 1 1 0 = 1 ∧
    jobTwoSwapped.totalHopDistSpec (meshL1 2 1) = 1 ∧
    (jobTwoSwapped.getTotalHopDist (meshL1 2 1)).toOption = some 0 := by
  refine ⟨by decide, by decide, by decide, by decide, by decide, by decide, by decide⟩


/-- A task has a pair in `taskMap` exactly when `left.count` is not 0. -/
lemma leftCount_ne_zero_iff (t : TaskMapInfo) (taskInd : Int) :
    t.leftCount taskInd ≠ 0 ↔ ∃ n, (taskInd, n) ∈ t.taskMap := by
  rw [TaskMapInfo.leftCount, ← Nat.pos_iff_ne_zero, List.countP_pos_iff]
  constructor
  · rintro ⟨p, hp, h⟩
    have h1 : p.1 = taskInd := by simpa using h
    exact ⟨p.2, by rw [← h1]; exact hp⟩
  · rintro ⟨n, hn⟩
    exact ⟨(taskInd, n), hn, by simp⟩

/-- A node has a pair in `taskMap` exactly when `right.count` is not 0. -/
lemma rightCount_ne_zero_iff (t : TaskMapInfo) (nodeInd : Int) :
    t.rightCount nodeInd ≠ 0 ↔ ∃ k, (k, nodeInd) ∈ t.taskMap := by
  rw [TaskMapInfo.rightCount, ← Nat.pos_iff_ne_zero, List.countP_pos_iff]
  constructor
  · rintro ⟨p, hp, h⟩
    have h1 : p.2 = nodeInd := by simpa using h
    exact ⟨p.1, by rw [← h1]; exact hp⟩
  · rintro ⟨k, hk⟩
    exact ⟨(k, nodeInd), hk, by simp⟩

/-- The search loop over a list of indices. -/
lemma foldl_found (f : Nat → Int) (nodeInd : Int) :
    ∀ (l : List Nat) (acc : Bool),
      l.foldl (fun found i => if f i == nodeInd then true else found) acc = true ↔
        (acc = true ∨ ∃ i ∈ l, f i = nodeInd) := by
  intro l
  induction l with
  | nil => intro acc; simp
  | cons x xs ih =>
    intro acc
    rw [List.foldl_cons, ih]
    by_cases hx : f x = nodeInd
    · simp [hx]
    · simp [hx]

/-- The search loop of `insert` finds the node exactly when it is among
`nodeIndices[0 .. procsNeeded)`. -/
lemma nodeFound_iff (t : TaskMapInfo) (nodeInd : Int) :
    t.nodeFound nodeInd = true ↔
      ∃ i : Nat, (i : Int) < t.procsNeeded ∧ t.nodeIndices i = nodeInd := by
  rw [TaskMapInfo.nodeFound, foldl_found]
  simp only [Bool.false_eq_true, false_or, List.mem_range, Int.lt_toNat]

/-- What `insert` returns, by cases on the fatal conditions. -/
lemma insert_cases (t : TaskMapInfo) (taskInd nodeInd : Int) :
    (t.InsertFatal taskInd nodeInd ∧ ∃ msg, t.insert taskInd nodeInd = .error msg) ∨
    (¬ t.InsertFatal taskInd nodeInd ∧
      t.insert taskInd nodeInd =
        .ok { t with taskMap := t.taskMap ++ [(taskInd, nodeInd)] }) := by
  unfold TaskMapInfo.insert TaskMapInfo.InsertFatal
  by_cases h1 : taskInd ≥ t.procsNeeded ∨ taskInd < 0
  · left
    rw [if_pos h1]
    exact ⟨by rcases h1 with h | h <;> simp [h], _, rfl⟩
  · rw [if_neg h1]
    push_neg at h1
    by_cases h2 : t.leftCount taskInd ≠ 0
    · left
      rw [if_pos h2]
      exact ⟨Or.inr (Or.inr (Or.inl ((leftCount_ne_zero_iff t taskInd).1 h2))), _, rfl⟩
    · rw [if_neg h2]
      by_cases h3 : t.nodeFound nodeInd = true
      · have h3b : (!t.nodeFound nodeInd) = false := by rw [h3]; rfl
        rw [h3b]
        simp only [Bool.false_eq_true, if_false]
        by_cases h4 : t.rightCount nodeInd ≠ 0
        · left
          rw [if_pos h4]
          exact ⟨Or.inr (Or.inr (Or.inr (Or.inr ((rightCount_ne_zero_iff t nodeInd).1 h4)))),
            _, rfl⟩
        · right
          rw [if_neg h4]
          refine ⟨?_, rfl⟩
          rintro (h | h | h | h | h)
          · omega
          · omega
          · exact h2 ((leftCount_ne_zero_iff t taskInd).2 h)
          · exact h ((nodeFound_iff t nodeInd).1 h3)
          · exact h4 ((rightCount_ne_zero_iff t nodeInd).2 h)
      · left
        have h3b : (!t.nodeFound nodeInd) = true := by simpa using h3
        rw [h3b]
        simp only [if_true]
        exact ⟨Or.inr (Or.inr (Or.inr (Or.inl
          (fun h => h3 ((nodeFound_iff t nodeInd).2 h))))), _, rfl⟩

/-- A call of `insert` that returns keeps the map one-to-one. -/
lemma insert_oneToOne (t u : TaskMapInfo) (taskInd nodeInd : Int)
    (h : t.insert taskInd nodeInd = .ok u) (ht : t.OneToOne) :
    u.OneToOne ∧ u.procsNeeded = t.procsNeeded ∧ u.nodeIndices = t.nodeIndices := by
  rcases insert_cases t taskInd nodeInd with ⟨_, msg, he⟩ | ⟨hn, hok⟩
  · rw [he] at h; cases h
  · rw [hok] at h
    simp only [Except.ok.injEq] at h
    subst h
    unfold TaskMapInfo.InsertFatal at hn
    push_neg at hn
    obtain ⟨h1, h2, h3, h4, h5⟩ := hn
    obtain ⟨k1, k2, k3⟩ := ht
    refine ⟨⟨?_, ?_, ?_⟩, rfl, rfl⟩
    · show ((t.taskMap ++ [(taskInd, nodeInd)]).map Prod.fst).Nodup
      rw [List.map_append, List.nodup_append]
      refine ⟨k1, by simp, ?_⟩
      intro a ha hb
      simp only [List.map_cons, List.map_nil, List.mem_singleton] at hb
      subst hb
      obtain ⟨p, hp, hpa⟩ := List.mem_map.1 ha
      exact h3 p.2 (by rw [← hpa]; exact hp)
    · show ((t.taskMap ++ [(taskInd, nodeInd)]).map Prod.snd).Nodup
      rw [List.map_append, List.nodup_append]
      refine ⟨k2, by simp, ?_⟩
      intro a ha hb
      simp only [List.map_cons, List.map_nil, List.mem_singleton] at hb
      subst hb
      obtain ⟨p, hp, hpa⟩ := List.mem_map.1 ha
      exact h5 p.1 (by rw [← hpa]; exact hp)
    · intro p hp
      show 0 ≤ p.1 ∧ p.1 < t.procsNeeded ∧ ∃ i : Nat, (i : Int) < t.procsNeeded ∧
        t.nodeIndices i = p.2
      rcases List.mem_append.1 hp with hp | hp
      · exact k3 p hp
      · simp only [List.mem_singleton] at hp
        subst hp
        exact ⟨by omega, by omega, h4⟩

/-- Every state reached from an empty map is one-to-one. -/
lemma TaskMapInfo.InsertReach.oneToOne {t0 t : TaskMapInfo} (h0 : t0.taskMap = [])
    (h : TaskMapInfo.InsertReach t0 t) : t.OneToOne := by
  induction h with
  | init => simp [TaskMapInfo.OneToOne, h0]
  | step t u taskInd nodeInd _ hs ih => exact (insert_oneToOne t u taskInd nodeInd hs ih).1

/-- A one-to-one map with as many pairs as tasks maps every task. -/
lemma TaskMapInfo.OneToOne.all_mapped (t : TaskMapInfo) (h : t.OneToOne)
    (hlen : t.taskMap.length = t.procsNeeded.toNat) (i : Int) (h0 : 0 ≤ i)
    (hi : i < t.procsNeeded) : ∃ n, (i, n) ∈ t.taskMap := by
  obtain ⟨k1, _, k3⟩ := h
  have hsub : ((t.taskMap.map Prod.fst).map Int.toNat).toFinset ⊆
      Finset.range t.procsNeeded.toNat := by
    intro x hx
    simp only [List.mem_toFinset, List.mem_map] at hx
    obtain ⟨a, ⟨p, hp, hpa⟩, hax⟩ := hx
    obtain ⟨q1, q2, _⟩ := k3 p hp
    rw [Finset.mem_range, ← hax, ← hpa]
    omega
  have hnodup : ((t.taskMap.map Prod.fst).map Int.toNat).Nodup := by
    apply List.Nodup.map_on _ k1
    intro a ha b hb hab
    obtain ⟨p, hp, hpa⟩ := List.mem_map.1 ha
    obtain ⟨q, hq, hqb⟩ := List.mem_map.1 hb
    have := (k3 p hp).1
    have := (k3 q hq).1
    omega
  have hcard : ((t.taskMap.map Prod.fst).map Int.toNat).toFinset.card =
      t.procsNeeded.toNat := by
    rw [List.toFinset_card_of_nodup hnodup]
    simp [hlen]
  have heq := Finset.eq_of_subset_of_card_le hsub (by rw [hcard]; simp)
  have hmem : i.toNat ∈ ((t.taskMap.map Prod.fst).map Int.toNat).toFinset := by
    rw [heq, Finset.mem_range]
    omega
  simp only [List.mem_toFinset, List.mem_map] at hmem
  obtain ⟨a, ⟨p, hp, hpa⟩, hax⟩ := hmem
  have := (k3 p hp).1
  have hpi : p.1 = i := by omega
  exact ⟨p.2, by rw [← hpi]; exact hp⟩

/-- C28: `insert` ends the process exactly when the task index is outside
`[0, procsNeeded)`, or the task is already mapped, or the node is not among
`nodeIndices[0 .. procsNeeded)`, or the node is already mapped; otherwise it
returns the state with the pair `(taskInd, nodeInd)` added and nothing else
changed.  Hence every state reached from an empty map has a one-to-one
`taskMap` from valid task indices to allocated nodes, and when `getTaskMap`
returns there (for a `procsNeeded` that is an `int`), it returns `taskMap` and
every task in `[0, procsNeeded)` is mapped. -/
theorem insert_fatal_iff (t : TaskMapInfo) (taskInd nodeInd : Int) :
    ((∃ msg, t.insert taskInd nodeInd = .error msg) ↔ t.InsertFatal taskInd nodeInd) ∧
    (¬ t.InsertFatal taskInd nodeInd →
      t.insert taskInd nodeInd =
        .ok { t with taskMap := t.taskMap ++ [(taskInd, nodeInd)] }) ∧
    (∀ t0 : TaskMapInfo, t0.taskMap = [] → TaskMapInfo.InsertReach t0 t →
      t.OneToOne ∧
      (t.procsNeeded < 2 ^ 31 → ∀ m, t.getTaskMap = .ok m →
        m = t.taskMap ∧
        ∀ i : Int, 0 ≤ i → i < t.procsNeeded → ∃ n, (i, n) ∈ t.taskMap)) := by
  refine ⟨?_, ?_, ?_⟩
  · rcases insert_cases t taskInd nodeInd with ⟨hf, he⟩ | ⟨hn, hok⟩
    · exact ⟨fun _ => hf, fun _ => he⟩
    · constructor
      · rintro ⟨msg, he⟩
        rw [hok] at he; cases he
      · intro hf; exact absurd hf hn
  · intro hn
    rcases insert_cases t taskInd nodeInd with ⟨hf, _⟩ | ⟨_, hok⟩
    · exact absurd hf hn
    · exact hok
  · intro t0 h0 hr
    have h11 := hr.oneToOne h0
    refine ⟨h11, ?_⟩
    intro hint m hm
    unfold TaskMapInfo.getTaskMap at hm
    by_cases hmis : t.sizeMismatch = true
    · rw [if_pos hmis] at hm; cases hm
    · rw [if_neg hmis] at hm
      simp only [Except.ok.injEq] at hm
      refine ⟨hm.symm, ?_⟩
      intro i hi0 hi
      have hlen : t.taskMap.length = t.procsNeeded.toNat := by
        simp only [TaskMapInfo.sizeMismatch, decide_eq_true_eq, not_not] at hmis
        rw [← hmis, Int.emod_eq_of_lt (by omega) (by omega)]
      exact TaskMapInfo.OneToOne.all_mapped t h11 hlen i hi0 hi

/-- The second `insert` of the crosswise mapping of `jobTwo` meets none of the
fatal conditions. -/
lemma jobTwoHalf_not_fatal : ¬ jobTwoHalf.InsertFatal 1 0 := by
  unfold TaskMapInfo.InsertFatal
  push_neg
  refine ⟨by decide, by decide, ?_, ?_, ?_⟩
  · intro n hn
    simp [jobTwoHalf] at hn
  · exact ⟨0, by decide, rfl⟩
  · intro k hk
    simp [jobTwoHalf] at hk

/-- Witness for C28: the second `insert` of the crosswise mapping of `jobTwo`
returns, the map reached is one-to-one, and `getTaskMap` returns it with both
tasks mapped. -/
theorem insert_fatal_iff_witness :
    jobTwoHalf.insert 1 0 =
      .ok { jobTwoHalf with taskMap := jobTwoHalf.taskMap ++ [(1, 0)] } ∧
    jobTwoSwapped.OneToOne ∧
    (∃ msg, jobTwoSwapped.insert 1 1 = .error msg) :=
  ⟨(insert_fatal_iff jobTwoHalf 1 0).2.1 jobTwoHalf_not_fatal,
   ((insert_fatal_iff jobTwoSwapped 0 0).2.2 jobTwo rfl
     (TaskMapInfo.InsertReach.step _ _ 1 0
       (TaskMapInfo.InsertReach.step _ _ 0 1 TaskMapInfo.InsertReach.init rfl) rfl)).1,
   (insert_fatal_iff jobTwoSwapped 1 1).1.2 (Or.inr (Or.inr (Or.inl ⟨0, by decide⟩)))⟩

end Scheduler
